import Mathlib

/-!
# Portfolio front-end: the canvas particle animation

A shallow embedding of `Assets/js/modules/canvas-animation.js`.

Modelling conventions.
* JavaScript Numbers are rationals.  The namespace `CanvasAnimation` computes
  with them exactly; where rounding decides a property (the ranges at
  creation, repeated updates) the namespace `CanvasAnimation.Binary64` repeats
  the arithmetic with every operation rounded to binary64 by `Double.fl`.
  `Math.PI` is the exact value of the binary64 constant.
* `Math.random()` reads the next entry of a stream `rnd : ℕ → ℚ` carried by
  the page, and advances a cursor.
* Arrays are lists, with no bound on their length.
* The drawing surface is the list of commands issued to the canvas so far.
* `requestAnimationFrame` hands out increasing handles and keeps the list of
  pending callbacks; the registered `resize` listeners are counted.
* A thrown `TypeError` is the `error` branch of `Except`.
-/

namespace CanvasAnimation

/-- Errors raised by the JavaScript runtime. -/
inductive JsError where
  | typeError (msg : String)
  | referenceError (msg : String)
deriving DecidableEq, Repr

/-- One particle object, as built by `createParticle`.  `text` is `none` when
the catalog lookup yields `undefined`. -/
structure Particle where
  x : ℚ
  y : ℚ
  text : Option String
  size : ℚ
  opacity : ℚ
  speed : ℚ
  angle : ℚ
deriving DecidableEq, Repr

/-- The canvas element: only its bitmap dimensions matter here. -/
structure Canvas where
  width : ℕ
  height : ℕ
deriving DecidableEq, Repr

/-- Commands received by the canvas and its 2D context. -/
inductive DrawOp where
  | setWidth (w : ℕ)
  | setHeight (h : ℕ)
  | clearRect (x y w h : ℚ)
  | save
  | translate (x y : ℚ)
  | rotate (angle : ℚ)
  | font (size : ℚ)
  | fillStyle (color : String) (opacity : ℚ)
  | fillText (text : Option String) (x y : ℚ)
  | restore
deriving DecidableEq, Repr

/-- The fields of a `CanvasAnimation` instance.  When the constructor returns
early only `canvas` is assigned; the other fields are then `undefined`, which
reads as `false` / `none` / `[]` here. -/
structure Animator where
  canvas : Option Canvas
  ctx : Bool
  symbols : List String
  particles : List Particle
  animationFrameId : Option ℕ

/-- What the animator reaches outside itself: the window, the document, the
random source, the frame scheduler and the surface contents. -/
structure Page where
  innerWidth : ℕ
  innerHeight : ℕ
  theme : Option String
  rnd : ℕ → ℚ
  cursor : ℕ
  surface : List DrawOp
  nextHandle : ℕ
  pending : List ℕ
  resizeListeners : ℕ

/-- The value of the binary64 constant `Math.PI`. -/
def MathPI : ℚ := 884279719003555 / 281474976710656

/-- The glyph catalog assigned in the constructor. -/
def symbols : List String :=
  ["e^\x7biπ\x7d+1=0", "f(x)=∫g(t)dt", "∇²φ=ρ/ε₀", "lim_\x7bx→∞\x7d", "Σaₙxⁿ",
   "∂f/∂x", "P(A|B)", "μ=Σx/n", "σ²=Var(X)", "z=R+jX", "F=ma",
   "y=mx+b", "det(A)", "E[X]", "χ²", "R²", "∞", "√(x²+y²)",
   "β₀+β₁x", "log₂(n)", "∀x∈ℝ", "∃ε>0", "∬f dA", "∮F·ds"]

/-- Array read `xs[i]` at an integer index: `undefined` outside the array. -/
def index (xs : List String) : ℤ → Option String
  | Int.ofNat i => xs[i]?
  | Int.negSucc _ => none

/-- The method `createParticle(fromTop)`.  The draws are taken in source order;
the draw for `y` happens only when `fromTop` holds. -/
def createParticle (a : Animator) (pg : Page) (fromTop : Bool) :
    Except JsError (Particle × Page) :=
  match a.canvas with
  | none => .error (.typeError "Cannot read properties of null (reading width)")
  | some cv =>
    let k := pg.cursor
    let n := if fromTop then 1 else 0
    .ok ({ x := pg.rnd k * cv.width
           y := if fromTop then pg.rnd (k + 1) * cv.height else cv.height + 20
           text := index a.symbols (Rat.floor (pg.rnd (k + 1 + n) * a.symbols.length))
           size := 11 + pg.rnd (k + 2 + n) * 12
           opacity := 0.035 + pg.rnd (k + 3 + n) * 0.1
           speed := 0.1 + pg.rnd (k + 4 + n) * 0.25
           angle := pg.rnd (k + 5 + n) * MathPI * 2 },
         { pg with cursor := k + 6 + n })

/-- The commands issued for one particle inside the loop of `draw`. -/
def drawParticle (color : String) (p : Particle) : List DrawOp :=
  [.save, .translate p.x p.y, .rotate p.angle, .font p.size,
   .fillStyle color p.opacity, .fillText p.text 0 0, .restore]

/-- The method `draw()`. -/
def draw (a : Animator) (pg : Page) : Except JsError Page :=
  if !a.ctx then .ok pg
  else
    match a.canvas with
    | none => .error (.typeError "Cannot read properties of null (reading width)")
    | some cv =>
      let isDark := pg.theme ≠ some "light"
      let color := if isDark then "255,255,255" else "0,0,0"
      .ok { pg with
            surface := pg.surface ++ [DrawOp.clearRect 0 0 cv.width cv.height]
              ++ (a.particles.map (drawParticle color)).flatten }

/-- The call `Array.from({ length: count }, () => this.createParticle(true))`. -/
def arrayFrom (a : Animator) : ℕ → Page → Except JsError (List Particle × Page)
  | 0, pg => .ok ([], pg)
  | n + 1, pg =>
    match createParticle a pg true with
    | .error e => .error e
    | .ok (p, pg1) =>
      match arrayFrom a n pg1 with
      | .error e => .error e
      | .ok (ps, pg2) => .ok (p :: ps, pg2)

/-- The method `resizeCanvas()`. -/
def resizeCanvas (a : Animator) (pg : Page) : Except JsError (Animator × Page) :=
  match a.canvas with
  | none => .ok (a, pg)
  | some _ =>
    let cv : Canvas := { width := pg.innerWidth, height := pg.innerHeight }
    let a1 := { a with canvas := some cv }
    let pg1 := { pg with
                 surface := pg.surface ++ [.setWidth pg.innerWidth, .setHeight pg.innerHeight] }
    let count := (Rat.floor ((cv.width : ℚ) * cv.height / 26000)).toNat
    match arrayFrom a1 count pg1 with
    | .error e => .error e
    | .ok (ps, pg2) =>
      let a2 := { a1 with particles := ps }
      match draw a2 pg2 with
      | .error e => .error e
      | .ok pg3 => .ok (a2, pg3)

/-- The in-place update of one particle in the loop of `animate`. -/
def advance (p : Particle) : Particle :=
  { p with y := p.y - p.speed, angle := p.angle + 0.0008 }

/-- The `for` loop of `animate()`, from index `i` on. -/
def animateLoop (a : Animator) (pg : Page) (i : ℕ) : Except JsError (Animator × Page) :=
  if h : i < a.particles.length then
    let a1 := { a with particles := a.particles.set i (advance a.particles[i]) }
    if (advance a.particles[i]).y < -50 then
      match createParticle a1 pg false with
      | .error e => .error e
      | .ok (q, pg1) => animateLoop { a1 with particles := a1.particles.set i q } pg1 (i + 1)
    else animateLoop a1 pg (i + 1)
  else .ok (a, pg)
termination_by a.particles.length - i
decreasing_by all_goals (simp only [List.length_set]; omega)

/-- The method `animate()`: update, draw, and request the next frame. -/
def animate (a : Animator) (pg : Page) : Except JsError (Animator × Page) :=
  match a.canvas with
  | none => .ok (a, pg)
  | some _ =>
    match animateLoop a pg 0 with
    | .error e => .error e
    | .ok (a1, pg1) =>
      match draw a1 pg1 with
      | .error e => .error e
      | .ok pg2 =>
        .ok ({ a1 with animationFrameId := some pg2.nextHandle },
             { pg2 with nextHandle := pg2.nextHandle + 1
                        pending := pg2.pending ++ [pg2.nextHandle] })

/-- The method `destroy()`: a truthy handle is cancelled. -/
def destroy (a : Animator) (pg : Page) : Except JsError (Animator × Page) :=
  match a.animationFrameId with
  | none => .ok (a, pg)
  | some id =>
    if id ≠ 0 then .ok (a, { pg with pending := pg.pending.filter (fun j => j ≠ id) })
    else .ok (a, pg)

/-- The method `init()`. -/
def init (a : Animator) (pg : Page) : Except JsError (Animator × Page) :=
  match a.canvas with
  | none => .ok (a, pg)
  | some _ =>
    match resizeCanvas a pg with
    | .error e => .error e
    | .ok (a1, pg1) =>
      animate a1 { pg1 with resizeListeners := pg1.resizeListeners + 1 }

/-- The constructor.  `found` is the result of `document.getElementById`:
the element, and whether `getContext` yields a 2D context. -/
def new (found : Option (Canvas × Bool)) (pg : Page) : Except JsError (Animator × Page) :=
  match found with
  | none =>
    .ok ({ canvas := none, ctx := false, symbols := [], particles := [],
           animationFrameId := none }, pg)
  | some (cv, has2d) =>
    init { canvas := some cv, ctx := has2d, symbols := symbols, particles := [],
           animationFrameId := none } pg

/-- Events delivered to the animator after construction. -/
inductive Event where
  | frame (id : ℕ)
  | resize (w h : ℕ)
  | destroy
deriving DecidableEq, Repr

/-- Runs the registered `resize` listeners, each calling `resizeCanvas()`. -/
def fireResize (a : Animator) (pg : Page) : ℕ → Except JsError (Animator × Page)
  | 0 => .ok (a, pg)
  | n + 1 =>
    match resizeCanvas a pg with
    | .error e => .error e
    | .ok (a1, pg1) => fireResize a1 pg1 n

/-- One event: a pending frame callback fires (and runs `animate`), the window
is resized (the listeners run), or `destroy()` is called. -/
def step (a : Animator) (pg : Page) : Event → Except JsError (Animator × Page)
  | .frame id =>
    if id ∈ pg.pending then animate a { pg with pending := pg.pending.erase id }
    else .ok (a, pg)
  | .resize w h => fireResize a { pg with innerWidth := w, innerHeight := h } pg.resizeListeners
  | .destroy => destroy a pg

/-- A sequence of events, stopping at the first error. -/
def run (a : Animator) (pg : Page) : List Event → Except JsError (Animator × Page)
  | [] => .ok (a, pg)
  | e :: es =>
    match step a pg e with
    | .error err => .error err
    | .ok (a1, pg1) => run a1 pg1 es

/-- A run of `n` consecutive `animate()` calls, stopping at the first error. -/
def animateTimes (a : Animator) (pg : Page) : ℕ → Except JsError (Animator × Page)
  | 0 => .ok (a, pg)
  | n + 1 =>
    match animate a pg with
    | .error e => .error e
    | .ok (a1, pg1) => animateTimes a1 pg1 n

/-- A page with an 800x600 viewport, no theme attribute, every draw equal to
one half, an empty surface and nothing scheduled. -/
def page0 : Page :=
  { innerWidth := 800, innerHeight := 600, theme := none, rnd := fun _ => 1 / 2,
    cursor := 0, surface := [], nextHandle := 1, pending := [], resizeListeners := 0 }

/-- An animator whose canvas still has the default 300x150 bitmap, as the
constructor hands it to `init()`. -/
def animator0 : Animator :=
  { canvas := some { width := 300, height := 150 }, ctx := true, symbols := symbols,
    particles := [], animationFrameId := none }

/-- A particle that has drifted past the top edge. -/
def offTop : Particle :=
  { x := 100, y := -60, text := some "∞", size := 12, opacity := 1 / 20, speed := 1 / 5,
    angle := 0 }

/-- A particle that reaches exactly `y = -50` on its next update. -/
def nearTop : Particle :=
  { x := 100, y := -249 / 5, text := some "∞", size := 12, opacity := 1 / 20, speed := 1 / 5,
    angle := 0 }

/-- A running animator on an 800x600 canvas holding `offTop` and `nearTop`. -/
def animator1 : Animator :=
  { canvas := some { width := 800, height := 600 }, ctx := true, symbols := symbols,
    particles := [offTop, nearTop], animationFrameId := some 1 }

/-- The page with its random cursor moved to `k`: the only trace a spawn
leaves on the page. -/
def Page.seek (pg : Page) (k : ℕ) : Page :=
  { pg with cursor := k }

/-- The page after the commands `ops` reached the surface. -/
def Page.emit (pg : Page) (ops : List DrawOp) : Page :=
  { pg with surface := pg.surface ++ ops }

/-- The commands one call of `draw()` issues, given the canvas it reads. -/
def paint (a : Animator) (cv : Canvas) (theme : Option String) : List DrawOp :=
  if a.ctx then
    DrawOp.clearRect 0 0 cv.width cv.height ::
      (a.particles.map
        (drawParticle (if theme ≠ some "light" then "255,255,255" else "0,0,0"))).flatten
  else []

/-- The page `pg1` differs from `pg` only by commands appended to the surface
and by random draws consumed. -/
structure Page.Extends (pg pg1 : Page) : Prop where
  innerWidth : pg1.innerWidth = pg.innerWidth
  innerHeight : pg1.innerHeight = pg.innerHeight
  theme : pg1.theme = pg.theme
  rnd : pg1.rnd = pg.rnd
  cursor : pg.cursor ≤ pg1.cursor
  surface : ∃ ops, pg1.surface = pg.surface ++ ops
  resizeListeners : pg1.resizeListeners = pg.resizeListeners

/-- The bounds of `size`, `opacity` and `speed` at creation. -/
def InBounds (p : Particle) : Prop :=
  11 ≤ p.size ∧ p.size < 23 ∧ 0.035 ≤ p.opacity ∧ p.opacity < 0.135 ∧
    0.1 ≤ p.speed ∧ p.speed < 0.35

/-- Every draw of the random source lies in `[0, 1)`. -/
def UnitDraws (rnd : ℕ → ℚ) : Prop :=
  ∀ i, 0 ≤ rnd i ∧ rnd i < 1

end CanvasAnimation

/-!
# Utilities: `Assets/js/utils/helpers.js` and `Assets/js/utils/event-utils.js`

Values are `null`, `undefined`, booleans, numbers, strings, arrays and plain
objects.  An object is the list of its own enumerable entries in enumeration
order; a new key is appended.  Every string is a key: `__proto__` can be an own
key (`JSON.parse` creates it), while a read or an assignment through that name
on an object without such an own key reaches the accessor of
`Object.prototype`.  Functions, dates and sparse arrays are not values of the
model.  The prototype of an object is recorded only while the object is being
filled (`ProtoObj`); every other object has the prototype `Object.prototype`.
-/

/-- A property name. -/
structure Key where
  name : String
deriving DecidableEq

/-- A JavaScript Number: a finite value, `NaN` or an infinity. -/
inductive JsNum where
  | fin (q : ℚ)
  | nan
  | posInf
  | negInf
deriving DecidableEq

/-- JavaScript values built from `null`, primitives, arrays and plain objects. -/
inductive JsVal where
  | null
  | undefined
  | bool (b : Bool)
  | num (n : JsNum)
  | str (s : String)
  | arr (items : List JsVal)
  | obj (props : List (Key × JsVal))

/-- Truth of `obj && typeof obj === "object" && !Array.isArray(obj)`. -/
def JsVal.isObject : JsVal → Bool
  | .obj _ => true
  | _ => false

/-- The own property read `props[k]`; `none` when `k` is no own key. -/
def getOwn (props : List (Key × JsVal)) (k : Key) : Option JsVal :=
  List.lookup k props

/-- The assignment `props[k] = v`: an existing key keeps its place, a new key
is appended. -/
def upsert : List (Key × JsVal) → Key → JsVal → List (Key × JsVal)
  | [], k, v => [(k, v)]
  | (k1, v1) :: rest, k, v =>
    if k1 = k then (k, v) :: rest else (k1, v1) :: upsert rest k v

/-- The own keys of an object, in enumeration order. -/
def keysOf (props : List (Key × JsVal)) : List Key :=
  props.map Prod.fst

mutual
/-- Well-formed values: the keys of every object, at every depth, are distinct. -/
def JsVal.WF : JsVal → Prop
  | .arr items => itemsWF items
  | .obj props => propsWF props
  | _ => True
/-- Well-formedness of the elements of an array. -/
def itemsWF : List JsVal → Prop
  | [] => True
  | v :: vs => v.WF ∧ itemsWF vs
/-- Well-formedness of the entries of an object. -/
def propsWF : List (Key × JsVal) → Prop
  | [] => True
  | (k, v) :: rest => k ∉ keysOf rest ∧ v.WF ∧ propsWF rest
end

mutual
/-- Nesting depth of plain objects; arrays and primitives count for nothing. -/
def JsVal.depth : JsVal → ℕ
  | .obj props => propsDepth props + 1
  | _ => 0
/-- The largest depth among the values of an object. -/
def propsDepth : List (Key × JsVal) → ℕ
  | [] => 0
  | (_, v) :: rest => max v.depth (propsDepth rest)
end

/-- The key named `__proto__`. -/
def protoKey : Key := ⟨"__proto__"⟩

/-- The own property `k` of an object or array that sits on a prototype chain:
an entry of an object, an element or the length of an array. -/
def ownOf : JsVal → Key → Option JsVal
  | .obj props, k => getOwn props k
  | .arr items, k =>
    match k.name.toNat? with
    | some i => if toString i = k.name then items[i]? else none
    | none => if k.name = "length" then some (.num (.fin items.length)) else none
  | _, _ => none

/-- An object made by `{}` while properties are assigned to it: its own
entries, the objects and arrays on its prototype chain (nearest first) up to
`Object.prototype`, and whether the chain ends there (`rooted`) or in `null`. -/
structure ProtoObj where
  own : List (Key × JsVal)
  chain : List JsVal
  rooted : Bool

/-- The object `{}`. -/
def ProtoObj.empty : ProtoObj :=
  { own := [], chain := [], rooted := true }

/-- The read `prev[key]`: an own property, else the first one on the chain,
else what `Object.prototype` gives.  Under the name `__proto__` that is the
getter returning the prototype of `prev` (`Object.prototype`, which has no
enumerable key, reads as the empty object).  The methods of `Object.prototype`
and `Array.prototype` are functions; they read as `undefined`, which is no
object either. -/
def ProtoObj.get (m : ProtoObj) (k : Key) : JsVal :=
  match getOwn m.own k with
  | some v => v
  | none =>
    match m.chain.findSome? (fun c => ownOf c k) with
    | some v => v
    | none => if m.rooted ∧ k = protoKey then m.chain.headD (.obj []) else .undefined

/-- The assignment `prev[key] = v`, where `vchain` and `vrooted` describe the
prototype chain of `v`.  Under the name `__proto__`, with no data property of
that name on `prev` or its chain, the setter of `Object.prototype` runs: an
object, an array or `null` becomes the prototype of `prev`, any other value is
ignored, and no own property is created.  Every other assignment sets an own
property. -/
def ProtoObj.set (m : ProtoObj) (k : Key) (v : JsVal) (vchain : List JsVal) (vrooted : Bool) : ProtoObj :=
  if k = protoKey ∧ (getOwn m.own k).isNone ∧
      (m.chain.findSome? (fun c => ownOf c k)).isNone ∧ m.rooted then
    match v with
    | .obj _ => { m with chain := v :: vchain, rooted := vrooted }
    | .arr _ => { m with chain := [v], rooted := true }
    | .null => { m with chain := [], rooted := false }
    | _ => m
  else { m with own := upsert m.own k v }

namespace EventUtils

open CanvasAnimation (JsError)

/-- What the factories of `event-utils.js` return: a closure or a promise,
identified by the arguments it captures (`func` is the identity of the
wrapped function). -/
inductive Made where
  | debounced (func : ℕ) (wait : ℚ) (immediate : Bool)
  | throttled (func : ℕ) (limit : ℚ)
  | promise (ms : ℚ)
deriving DecidableEq

/-- The static method `EventUtils.debounce(func, wait, immediate)`. -/
def debounce (func : ℕ) (wait : ℚ) (immediate : Bool) : Except JsError Made :=
  .ok (.debounced func wait immediate)

/-- The static method `EventUtils.throttle(func, limit)`. -/
def throttle (func : ℕ) (limit : ℚ) : Except JsError Made :=
  .ok (.throttled func limit)

/-- The static method `EventUtils.wait(ms)`. -/
def wait (ms : ℚ) : Except JsError Made :=
  .ok (.promise ms)

end EventUtils

namespace Helpers

open CanvasAnimation (JsError)

/-- The bindings of the module scope of `helpers.js`: the file has no import
statement, so its class declaration is the only one. -/
def moduleScope : List String := ["Helpers"]

/-- The global names the scripts of the repository define or rely on. -/
def pageGlobals : List String :=
  ["window", "document", "console", "localStorage", "requestAnimationFrame",
   "cancelAnimationFrame", "setTimeout", "clearTimeout", "IntersectionObserver",
   "MutationObserver", "CustomEvent", "Promise", "Math", "Date", "Object", "Array",
   "String", "portfolioApp"]

/-- Evaluation of the identifier `name` inside `helpers.js`: the module scope,
then the global object; an unbound name raises a `ReferenceError`. -/
def resolve (globals : List String) (name : String) : Except JsError Unit :=
  if name ∈ moduleScope ∨ name ∈ globals then .ok ()
  else .error (.referenceError (name ++ " is not defined"))

/-- The static method `Helpers.debounce(func, wait, immediate)`. -/
def debounce (globals : List String) (func : ℕ) (wait : ℚ) (immediate : Bool) :
    Except JsError EventUtils.Made :=
  match resolve globals "EventUtils" with
  | .error e => .error e
  | .ok _ => EventUtils.debounce func wait immediate

/-- The static method `Helpers.throttle(func, limit)`. -/
def throttle (globals : List String) (func : ℕ) (limit : ℚ) :
    Except JsError EventUtils.Made :=
  match resolve globals "EventUtils" with
  | .error e => .error e
  | .ok _ => EventUtils.throttle func limit

/-- The static method `Helpers.sleep(ms)`. -/
def sleep (globals : List String) (ms : ℚ) : Except JsError EventUtils.Made :=
  match resolve globals "EventUtils" with
  | .error e => .error e
  | .ok _ => EventUtils.wait ms

/-- The characters `String.prototype.trim` removes: WhiteSpace and
LineTerminator code points. -/
def isWhiteSpace (c : Char) : Bool :=
  [0x9, 0xA, 0xB, 0xC, 0xD, 0x20, 0xA0, 0x1680, 0x2000, 0x2001, 0x2002, 0x2003, 0x2004,
   0x2005, 0x2006, 0x2007, 0x2008, 0x2009, 0x200A, 0x2028, 0x2029, 0x202F, 0x205F, 0x3000,
   0xFEFF].contains c.toNat

/-- The method `trim()` on the characters of a string. -/
def trim (cs : List Char) : List Char :=
  ((cs.dropWhile isWhiteSpace).reverse.dropWhile isWhiteSpace).reverse

/-- The property `length` of a string: its number of UTF-16 code units. -/
def length16 (cs : List Char) : ℕ :=
  (cs.map (fun c => if c.toNat < 65536 then 1 else 2)).sum

/-- The static method `Helpers.isEmpty(value)`. -/
def isEmpty : JsVal → Bool
  | .null => true
  | .undefined => true
  | .str s => length16 (trim s.toList) == 0
  | .arr items => items.length == 0
  | .obj props => (keysOf props).length == 0
  | _ => false

/-- The key named `hasOwnProperty`. -/
def hasOwnPropertyKey : Key := ⟨"hasOwnProperty"⟩

mutual
/-- Values in which no object, at any depth, has an own key named
`hasOwnProperty` or `__proto__`, the two names through which `deepClone`
reaches `Object.prototype`. -/
def Unshadowed : JsVal → Prop
  | .arr items => itemsUnshadowed items
  | .obj props =>
    hasOwnPropertyKey ∉ keysOf props ∧ protoKey ∉ keysOf props ∧ propsUnshadowed props
  | _ => True
/-- The elements of an array are `Unshadowed`. -/
def itemsUnshadowed : List JsVal → Prop
  | [] => True
  | v :: vs => Unshadowed v ∧ itemsUnshadowed vs
/-- The values of an object are `Unshadowed`. -/
def propsUnshadowed : List (Key × JsVal) → Prop
  | [] => True
  | (_, v) :: rest => Unshadowed v ∧ propsUnshadowed rest
end

mutual
/-- The static method `Helpers.deepClone(obj)`. -/
def deepClone : JsVal → Except JsError JsVal
  | .arr items =>
    match cloneItems items with
    | .error e => .error e
    | .ok cs => .ok (.arr cs)
  | .obj props =>
    match cloneProps (getOwn props hasOwnPropertyKey) props [] with
    | .error e => .error e
    | .ok clonedObj => .ok (.obj clonedObj)
  | v => .ok v
/-- The call `obj.map(item => this.deepClone(item))`. -/
def cloneItems : List JsVal → Except JsError (List JsVal)
  | [] => .ok []
  | v :: vs =>
    match deepClone v with
    | .error e => .error e
    | .ok c =>
      match cloneItems vs with
      | .error e => .error e
      | .ok cs => .ok (c :: cs)
/-- The `for (let key in obj)` loop of `deepClone` over the remaining entries.
`method` is what `obj.hasOwnProperty` reads as an own property: if there is
one it is not callable and the call throws; otherwise the inherited method
answers `true` for an own key.  The assignment `clonedObj[key] = ...` under
the name `__proto__` reaches the setter of `Object.prototype` and creates no
own property of `clonedObj`, whose prototype the loop never reads. -/
def cloneProps (method : Option JsVal) :
    List (Key × JsVal) → List (Key × JsVal) → Except JsError (List (Key × JsVal))
  | [], clonedObj => .ok clonedObj
  | (key, v) :: rest, clonedObj =>
    match method with
    | some _ => .error (.typeError "obj.hasOwnProperty is not a function")
    | none =>
      match deepClone v with
      | .error e => .error e
      | .ok c =>
        if key = protoKey then cloneProps method rest clonedObj
        else cloneProps method rest (upsert clonedObj key c)
end

/-- The body of the `forEach` callback of `deepMerge` for one key of `obj`;
`merge pVal oVal` is the recursive call `this.deepMerge(pVal, oVal)`, which
reads the own enumerable entries of its arguments. -/
def mergeKey (merge : List (Key × JsVal) → List (Key × JsVal) → Option ProtoObj)
    (prev : ProtoObj) (e : Key × JsVal) : Option ProtoObj :=
  match prev.get e.1, e.2 with
  | .obj pVal, .obj oVal =>
    match merge pVal oVal with
    | none => none
    | some m => some (prev.set e.1 (.obj m.own) m.chain m.rooted)
  | _, _ => some (prev.set e.1 e.2 [] true)

/-- The static method `Helpers.deepMerge(...objects)` on plain objects, with
a bound `fuel` on the depth of the recursion; `none` when it is exhausted.
The result is the accumulator `prev`; its own entries are `own`. -/
def deepMerge : ℕ → List (List (Key × JsVal)) → Option ProtoObj
  | 0, _ => none
  | fuel + 1, objects =>
    objects.foldlM
      (fun prev obj => obj.foldlM (mergeKey (fun pVal oVal => deepMerge fuel [pVal, oVal])) prev)
      ProtoObj.empty

mutual
/-- Values in which no object, at any depth reached through object values, has
an own key named `__proto__`. -/
def ProtoFree : JsVal → Prop
  | .obj props => propsProtoFree props
  | _ => True
/-- The entries of an object are `ProtoFree`, keys and values. -/
def propsProtoFree : List (Key × JsVal) → Prop
  | [] => True
  | (k, v) :: rest => k ≠ protoKey ∧ ProtoFree v ∧ propsProtoFree rest
end

/-- The object with the own entries `own` and the prototype `Object.prototype`. -/
def plain (own : List (Key × JsVal)) : ProtoObj :=
  { own := own, chain := [], rooted := true }

/-- The value the `forEach` callback of `deepMerge` assigns to a key other than
`__proto__` of an object with prototype `Object.prototype`, from the own value
`pVal` of `prev[key]` and the value `oVal` of `obj[key]`. -/
def mergedValue (merge : List (Key × JsVal) → List (Key × JsVal) → Option ProtoObj)
    (pVal : Option JsVal) (oVal : JsVal) : Option JsVal :=
  match pVal, oVal with
  | some (.obj p), .obj o =>
    match merge p o with
    | none => none
    | some m => some (.obj m.own)
  | _, _ => some oVal

/-- The object `{ a: 1 }`. -/
def objA : List (Key × JsVal) := [(⟨"a"⟩, .num (.fin 1))]

/-- The object `{ b: 2 }`. -/
def objB : List (Key × JsVal) := [(⟨"b"⟩, .num (.fin 2))]

/-- The object `{ x: { a: 1 }, y: 0 }`. -/
def objXA : List (Key × JsVal) :=
  [(⟨"x"⟩, .obj objA), (⟨"y"⟩, .num (.fin 0))]

/-- The object `{ x: { b: 2 }, z: [] }`. -/
def objXB : List (Key × JsVal) :=
  [(⟨"x"⟩, .obj objB), (⟨"z"⟩, .arr [])]

/-- The object `JSON.parse` makes of the text `{ __proto__: 5 }` (an own key). -/
def objProto5 : List (Key × JsVal) := [(protoKey, .num (.fin 5))]

/-- The object `JSON.parse` makes of the text `{ __proto__: { x: { a: 1 } } }` (an own key). -/
def objProtoX : List (Key × JsVal) := [(protoKey, .obj [(⟨"x"⟩, .obj objA)])]

/-- The object `{ x: { b: 2 } }`. -/
def objX : List (Key × JsVal) := [(⟨"x"⟩, .obj objB)]

end Helpers

/-!
# Components and modules: `input-component.js`, `typing-effect.js`,
# `project-carousel.js`

The DOM is reduced to what the methods read and write.  A string is its list
of UTF-16 code units where positions matter.
-/

namespace InputComponent

open CanvasAnimation (JsError)

/-- The fields of `this.options` the methods read.  `required` is the
truthiness of `options.required`; `validator` is `none` for a falsy value and
otherwise a function, of which the truthiness of the result matters. -/
structure Options where
  label : String
  required : Bool
  validator : Option (String → Bool)
  errorMessage : String
  successMessage : String
  showValidationFeedback : Bool

/-- The element `this.validationContainer`. -/
structure Container where
  display : String
  textContent : String
  className : String
deriving DecidableEq

/-- An element sibling that precedes the input in its parent. -/
structure Node where
  tagName : String
  textContent : String
  htmlFor : Option String
deriving DecidableEq

/-- An `InputComponent` with the part of the document it touches.  `parent`
lists the element children of the parent that precede the input; it is `none`
for an input without parent. -/
structure State where
  options : Options
  id : String
  value : String
  parent : Option (List Node)
  inputValid : Bool
  inputInvalid : Bool
  validationContainer : Option Container
  isValid : Option Bool
  validationMessage : String

/-- The comparison `b === s` of a boolean with a string: operands of different
types are never strictly equal. -/
def boolStrictEqString (_b : Bool) (_s : String) : Bool := false

/-- The method `setupLabel()`.  Its test reads
`!label || !label.tagName === "LABEL"`, in which `!` binds tighter than `===`. -/
def setupLabel (s : State) : Except JsError State :=
  if s.options.label ≠ "" then
    let label := s.parent.bind List.getLast?
    let create :=
      match label with
      | none => true
      | some l => boolStrictEqString (!(l.tagName ≠ "")) "LABEL"
    if create then
      match s.parent with
      | none => .error (.typeError "Cannot read properties of null (reading insertBefore)")
      | some before =>
        .ok { s with
              parent := some (before ++
                [{ tagName := "LABEL", textContent := s.options.label, htmlFor := some s.id }]) }
    else
      match s.parent, label with
      | some before, some l =>
        .ok { s with parent := some (before.dropLast ++ [{ l with textContent := s.options.label }]) }
      | _, _ => .ok s
  else .ok s

/-- The method `updateValidationUI()`. -/
def updateValidationUI (s : State) : State :=
  let s1 := { s with inputValid := false, inputInvalid := false }
  if s1.options.showValidationFeedback then
    match s1.validationContainer with
    | none => s1
    | some c =>
      let c1 := { c with display := if s1.isValid = none then "none" else "block" }
      match s1.isValid with
      | some true =>
        { s1 with
          validationContainer := some { c1 with
            textContent := s1.options.successMessage
            className := "input-validation-message input-validation-success" }
          inputValid := true }
      | some false =>
        { s1 with
          validationContainer := some { c1 with
            textContent := s1.validationMessage
            className := "input-validation-message input-validation-error" }
          inputInvalid := true }
      | none => { s1 with validationContainer := some c1 }
  else s1

/-- The method `validate(value)`; `none` stands for an omitted argument, which
defaults to `this.element.value`.  It returns `this.isValid`. -/
def validate (s : State) (arg : Option String) : Option Bool × State :=
  let value := arg.getD s.value
  let s1 := { s with isValid := some true, validationMessage := "" }
  let s2 :=
    if s1.options.required && (Helpers.trim value.toList).isEmpty then
      { s1 with isValid := some false, validationMessage := "This field is required" }
    else
      match s1.options.validator with
      | none => s1
      | some validator =>
        if !(validator value) then
          { s1 with isValid := some false, validationMessage := s1.options.errorMessage }
        else s1
  let s3 := updateValidationUI s2
  (s3.isValid, s3)

/-- Options with a label and nothing else. -/
def labelOnly (label : String) : Options :=
  { label := label, required := false, validator := none, errorMessage := "Invalid input",
    successMessage := "", showValidationFeedback := true }

/-- An input inside `<div><span>Hint</span><input id="name"></div>`, about to
be given the label `Name`. -/
def inputAfterSpan : State :=
  { options := labelOnly "Name", id := "name", value := "",
    parent := some [{ tagName := "SPAN", textContent := "Hint", htmlFor := none }],
    inputValid := false, inputInvalid := false, validationContainer := none,
    isValid := none, validationMessage := "" }

/-- An input that is the first child of its parent, about to be given the
label `Name`. -/
def inputAlone : State :=
  { inputAfterSpan with parent := some [] }

end InputComponent

namespace TypingEffect

open CanvasAnimation (JsError)

/-- A `TypingEffect` with the text of the element it writes to; `element` is
`none` when no element has the id.  `delay` is the delay of the pending
timeout, if one was set. -/
structure State where
  words : List (List Char)
  wordIndex : ℕ
  charIndex : ℤ
  deleting : Bool
  element : Option (List Char)
  delay : Option ℕ

/-- The words used when the constructor is given none. -/
def defaultWords : List (List Char) :=
  ["Data Analyst".toList, "Data Scientist".toList, "Python Developer".toList,
   "SQL Expert".toList]

/-- The call `word.slice(0, e)`: a negative `e` counts from the end. -/
def slice0 (word : List Char) (e : ℤ) : List Char :=
  if e < 0 then word.take (word.length - (-e).toNat) else word.take e.toNat

/-- The method `type()`. -/
def type (s : State) : Except JsError State :=
  match s.element with
  | none => .ok s
  | some _ =>
    match s.words[s.wordIndex]? with
    | none => .error (.typeError "Cannot read properties of undefined (reading slice)")
    | some currentWord =>
      let charIndex := if s.deleting then s.charIndex - 1 else s.charIndex + 1
      let s1 := { s with charIndex := charIndex, element := some (slice0 currentWord charIndex) }
      let delay := if s1.deleting then 60 else 110
      if (!s1.deleting) && decide (s1.charIndex = (currentWord.length : ℤ)) then
        .ok { s1 with deleting := true, delay := some 1800 }
      else if s1.deleting && decide (s1.charIndex = (0 : ℤ)) then
        .ok { s1 with
              deleting := false
              wordIndex := (s1.wordIndex + 1) % s1.words.length
              delay := some 400 }
      else .ok { s1 with delay := some delay }

/-- The fields the constructor assigns before it calls `init()`. -/
def initial (words : List (List Char)) (element : Option (List Char)) : State :=
  { words := if words.length > 0 then words else defaultWords
    wordIndex := 0, charIndex := 0, deleting := false, element := element, delay := none }

/-- The constructor, with the words given and the text of the element found:
`init()` calls `type()` once. -/
def new (words : List (List Char)) (element : Option (List Char)) : Except JsError State :=
  type (initial words element)

/-- A run of `n` calls of `type()`, one per timeout, stopping at an error. -/
def typeTimes (s : State) : ℕ → Except JsError State
  | 0 => .ok s
  | n + 1 =>
    match type s with
    | .error e => .error e
    | .ok s1 => typeTimes s1 n

/-- The states reached from construction by `n` further calls of `type()`. -/
def reach (words : List (List Char)) (element : Option (List Char)) (n : ℕ) :
    Except JsError State :=
  match new words element with
  | .error e => .error e
  | .ok s => typeTimes s n

/-- The invariant of the typing state. -/
def Inv (s : State) : Prop :=
  ∃ w, s.words[s.wordIndex]? = some w ∧ w ≠ [] ∧
    0 ≤ s.charIndex ∧ s.charIndex ≤ w.length ∧
    (s.deleting = true → 1 ≤ s.charIndex) ∧ (s.deleting = false → s.charIndex < w.length)

end TypingEffect

namespace ProjectCarousel

open CanvasAnimation (JsError)

/-- The track element: its number of `.project-card` children, the
`offsetWidth` of the first, the result of `parseInt` on its computed `gap`
(`none` for `NaN`) and the `left` of the last `scrollTo`. -/
structure Track where
  cards : ℕ
  cardWidth : ℤ
  gap : Option ℤ
  scrollLeft : Option ℤ
deriving DecidableEq

/-- A `ProjectCarousel`: a button is `none` when it is not in the document and
otherwise its `disabled` flag; `dots` holds the `active` class of each dot. -/
structure State where
  track : Option Track
  prevBtn : Option Bool
  nextBtn : Option Bool
  dots : List Bool
  current : ℤ
  total : ℕ
deriving DecidableEq

/-- The method `getStep()`. -/
def getStep (s : State) : Except JsError ℤ :=
  match s.track with
  | none => .error (.typeError "getComputedStyle: parameter 1 is not of type Element")
  | some t =>
    if s.total = 0 then
      .error (.typeError "Cannot read properties of undefined (reading offsetWidth)")
    else
      let gap := match t.gap with
        | none => 32
        | some g => if g = 0 then 32 else g
      .ok (t.cardWidth + gap)

/-- The method `updateUI()`. -/
def updateUI (s : State) : State :=
  { s with
    prevBtn := s.prevBtn.map (fun _ => decide (s.current = 0))
    nextBtn := s.nextBtn.map (fun _ => decide (s.current = (s.total : ℤ) - 1))
    dots := (List.range s.dots.length).map (fun i => decide ((i : ℤ) = s.current)) }

/-- The method `goTo(index)` for an integer `index`. -/
def goTo (s : State) (index : ℤ) : Except JsError State :=
  let s1 := { s with current := max 0 (min index ((s.total : ℤ) - 1)) }
  match s1.track with
  | none => .error (.typeError "Cannot read properties of null (reading scrollTo)")
  | some t =>
    match getStep s1 with
    | .error e => .error e
    | .ok step =>
      .ok (updateUI { s1 with track := some { t with scrollLeft := some (s1.current * step) } })

/-- The method `next()`. -/
def next (s : State) : Except JsError State :=
  if s.current < (s.total : ℤ) - 1 then goTo s (s.current + 1) else .ok s

/-- The method `prev()`. -/
def prev (s : State) : Except JsError State :=
  if s.current > 0 then goTo s (s.current - 1) else .ok s

/-- The constructor and `init()`: the elements found in the document, with
`cards` read from the track. -/
def new (track : Option Track) (prevBtn nextBtn : Option Bool) (dots : List Bool) : State :=
  let s : State :=
    { track := track, prevBtn := prevBtn, nextBtn := nextBtn, dots := dots, current := 0,
      total := match track with
        | none => 0
        | some t => t.cards }
  if s.track.isNone || s.prevBtn.isNone || s.nextBtn.isNone || s.total = 0 then s
  else updateUI s

/-- The calls the claim is about. -/
inductive Call where
  | goTo (index : ℤ)
  | next
  | prev
deriving DecidableEq

/-- One call on the carousel. -/
def call (s : State) : Call → Except JsError State
  | .goTo i => goTo s i
  | .next => next s
  | .prev => prev s

/-- A sequence of calls, stopping at the first error. -/
def calls (s : State) : List Call → Except JsError State
  | [] => .ok s
  | c :: cs =>
    match call s c with
    | .error e => .error e
    | .ok s1 => calls s1 cs

/-- A track with three cards of width 300 and a gap of 24. -/
def track3 : Track := { cards := 3, cardWidth := 300, gap := some 24, scrollLeft := none }

/-- A carousel constructed on `track3` with both buttons and three dots. -/
def carousel3 : State := new (some track3) (some false) (some false) [false, false, false]

end ProjectCarousel

namespace CanvasAnimation

/-- The labels of the text draws in a list of commands, in order. -/
def fillTexts : List DrawOp → List (Option String)
  | [] => []
  | .fillText t _ _ :: ops => t :: fillTexts ops
  | _ :: ops => fillTexts ops

/-- The position invariant of the field on a canvas: every particle lies
between the respawn line and the spawn line, inside the width. -/
def OnSurface (cv : Canvas) (p : Particle) : Prop :=
  -50 ≤ p.y ∧ p.y ≤ cv.height + 20 ∧ 0 ≤ p.x ∧ p.x < cv.width

/-- The invariant of the field: creation bounds, and positions on the current
canvas. -/
def FieldInv (a : Animator) : Prop :=
  (∀ p ∈ a.particles, InBounds p) ∧
    ∀ cv, a.canvas = some cv → ∀ p ∈ a.particles, OnSurface cv p

end CanvasAnimation

/-!
# Binary64 arithmetic

The canvas claims about number ranges and about accumulated updates depend on
the rounding of JavaScript Numbers.  `Double.fl` rounds an exact result to
binary64; the namespace `CanvasAnimation.Binary64` repeats the arithmetic of
`canvas-animation.js` with every operation rounded.  Numbers stay rationals:
the value of a binary64 number is a rational.
-/

namespace Double

/-- Rounding of an exact value to the nearest integer, a tie going to the even
neighbour. -/
def roundEven (x : ℚ) : ℤ :=
  if 2 * Int.fract x < 1 then ⌊x⌋
  else if 1 < 2 * Int.fract x then ⌊x⌋ + 1
  else if ⌊x⌋ % 2 = 0 then ⌊x⌋ else ⌊x⌋ + 1

/-- The exponent of the spacing of binary64 numbers around `q`: 53 significant
bits in the normal range, the fixed spacing `2^-1074` below `2^-1022`. -/
def ulpExp (q : ℚ) : ℤ :=
  max (Int.log 2 |q| - 52) (-1074)

/-- The binary64 result of an operation whose exact result is `q`: round to
nearest, ties to even.  Overflow to `Infinity` is left out: every value formed
here stays far below `2^1024`. -/
def fl (q : ℚ) : ℚ :=
  roundEven (q / 2 ^ ulpExp q) * 2 ^ ulpExp q

end Double

namespace CanvasAnimation.Binary64

/-- The method `createParticle(fromTop)` in binary64: every product and sum is
rounded, and the literals `0.035` and `0.1` denote their binary64 values.  The
constants `11`, `12`, `0.25`, `2`, `20` and `Math.PI` are binary64 numbers
already. -/
def createParticle (a : Animator) (pg : Page) (fromTop : Bool) :
    Except JsError (Particle × Page) :=
  match a.canvas with
  | none => .error (.typeError "Cannot read properties of null (reading width)")
  | some cv =>
    let k := pg.cursor
    let n := if fromTop then 1 else 0
    .ok ({ x := Double.fl (pg.rnd k * cv.width)
           y := if fromTop then Double.fl (pg.rnd (k + 1) * cv.height)
                else Double.fl (cv.height + 20)
           text := index a.symbols
             (Rat.floor (Double.fl (pg.rnd (k + 1 + n) * a.symbols.length)))
           size := Double.fl (11 + Double.fl (pg.rnd (k + 2 + n) * 12))
           opacity := Double.fl (Double.fl 0.035 + Double.fl (pg.rnd (k + 3 + n) * Double.fl 0.1))
           speed := Double.fl (Double.fl 0.1 + Double.fl (pg.rnd (k + 4 + n) * 0.25))
           angle := Double.fl (Double.fl (pg.rnd (k + 5 + n) * MathPI) * 2) },
         { pg with cursor := k + 6 + n })

/-- The call `Array.from({ length: count }, () => this.createParticle(true))`. -/
def arrayFrom (a : Animator) : ℕ → Page → Except JsError (List Particle × Page)
  | 0, pg => .ok ([], pg)
  | n + 1, pg =>
    match createParticle a pg true with
    | .error e => .error e
    | .ok (p, pg1) =>
      match arrayFrom a n pg1 with
      | .error e => .error e
      | .ok (ps, pg2) => .ok (p :: ps, pg2)

/-- The particle count `Math.floor(width * height / 26000)` in binary64. -/
def count (w h : ℕ) : ℕ :=
  (Rat.floor (Double.fl (Double.fl ((w : ℚ) * h) / 26000))).toNat

/-- The method `resizeCanvas()`. -/
def resizeCanvas (a : Animator) (pg : Page) : Except JsError (Animator × Page) :=
  match a.canvas with
  | none => .ok (a, pg)
  | some _ =>
    let cv : Canvas := { width := pg.innerWidth, height := pg.innerHeight }
    let a1 := { a with canvas := some cv }
    let pg1 := { pg with
                 surface := pg.surface ++ [.setWidth pg.innerWidth, .setHeight pg.innerHeight] }
    match arrayFrom a1 (count cv.width cv.height) pg1 with
    | .error e => .error e
    | .ok (ps, pg2) =>
      let a2 := { a1 with particles := ps }
      match draw a2 pg2 with
      | .error e => .error e
      | .ok pg3 => .ok (a2, pg3)

/-- The in-place update of one particle in the loop of `animate`: `y -= speed`
and `angle += 0.0008`, each rounded. -/
def advance (p : Particle) : Particle :=
  { p with y := Double.fl (p.y - p.speed), angle := Double.fl (p.angle + Double.fl 0.0008) }

/-- The `for` loop of `animate()` from index `i` on, with `n` iterations left
to run. -/
def animateLoopN : ℕ → Animator → Page → ℕ → Except JsError (Animator × Page)
  | 0, a, pg, _ => .ok (a, pg)
  | n + 1, a, pg, i =>
    if h : i < a.particles.length then
      let a1 := { a with particles := a.particles.set i (advance a.particles[i]) }
      if (advance a.particles[i]).y < -50 then
        match createParticle a1 pg false with
        | .error e => .error e
        | .ok (q, pg1) => animateLoopN n { a1 with particles := a1.particles.set i q } pg1 (i + 1)
      else animateLoopN n a1 pg (i + 1)
    else .ok (a, pg)

/-- The `for` loop of `animate()`, from index `i` on: the collection keeps its
length, so `length - i` iterations are left. -/
def animateLoop (a : Animator) (pg : Page) (i : ℕ) : Except JsError (Animator × Page) :=
  animateLoopN (a.particles.length - i) a pg i

/-- The method `animate()`: update, draw, and request the next frame. -/
def animate (a : Animator) (pg : Page) : Except JsError (Animator × Page) :=
  match a.canvas with
  | none => .ok (a, pg)
  | some _ =>
    match animateLoop a pg 0 with
    | .error e => .error e
    | .ok (a1, pg1) =>
      match draw a1 pg1 with
      | .error e => .error e
      | .ok pg2 =>
        .ok ({ a1 with animationFrameId := some pg2.nextHandle },
             { pg2 with nextHandle := pg2.nextHandle + 1
                        pending := pg2.pending ++ [pg2.nextHandle] })

/-- The method `init()`. -/
def init (a : Animator) (pg : Page) : Except JsError (Animator × Page) :=
  match a.canvas with
  | none => .ok (a, pg)
  | some _ =>
    match resizeCanvas a pg with
    | .error e => .error e
    | .ok (a1, pg1) =>
      animate a1 { pg1 with resizeListeners := pg1.resizeListeners + 1 }

/-- The constructor. -/
def new (found : Option (Canvas × Bool)) (pg : Page) : Except JsError (Animator × Page) :=
  match found with
  | none =>
    .ok ({ canvas := none, ctx := false, symbols := [], particles := [],
           animationFrameId := none }, pg)
  | some (cv, has2d) =>
    init { canvas := some cv, ctx := has2d, symbols := symbols, particles := [],
           animationFrameId := none } pg

/-- Runs the registered `resize` listeners, each calling `resizeCanvas()`. -/
def fireResize (a : Animator) (pg : Page) : ℕ → Except JsError (Animator × Page)
  | 0 => .ok (a, pg)
  | n + 1 =>
    match resizeCanvas a pg with
    | .error e => .error e
    | .ok (a1, pg1) => fireResize a1 pg1 n

/-- One event, as `CanvasAnimation.step`. -/
def step (a : Animator) (pg : Page) : Event → Except JsError (Animator × Page)
  | .frame id =>
    if id ∈ pg.pending then animate a { pg with pending := pg.pending.erase id }
    else .ok (a, pg)
  | .resize w h => fireResize a { pg with innerWidth := w, innerHeight := h } pg.resizeListeners
  | .destroy => destroy a pg

/-- A sequence of events, stopping at the first error. -/
def run (a : Animator) (pg : Page) : List Event → Except JsError (Animator × Page)
  | [] => .ok (a, pg)
  | e :: es =>
    match step a pg e with
    | .error err => .error err
    | .ok (a1, pg1) => run a1 pg1 es

/-- A run of `n` consecutive `animate()` calls, stopping at the first error. -/
def animateTimes (a : Animator) (pg : Page) : ℕ → Except JsError (Animator × Page)
  | 0 => .ok (a, pg)
  | n + 1 =>
    match animate a pg with
    | .error e => .error e
    | .ok (a1, pg1) => animateTimes a1 pg1 n

/-- The particle after `n` updates of the loop of `animate`. -/
def advanceTimes : ℕ → Particle → Particle
  | 0, p => p
  | n + 1, p => advanceTimes n (advance p)

/-- The bounds of `size`, `opacity` and `speed` at creation, upper ends
included; `0.035`, `0.135`, `0.1` and `0.35` are the binary64 values of these
literals. -/
def InBounds (p : Particle) : Prop :=
  11 ≤ p.size ∧ p.size ≤ 23 ∧ Double.fl 0.035 ≤ p.opacity ∧ p.opacity ≤ Double.fl 0.135 ∧
    Double.fl 0.1 ≤ p.speed ∧ p.speed ≤ Double.fl 0.35

/-- The largest binary64 number below one, the largest value `Math.random()`
can return. -/
def topDraw : ℚ := 1 - 1 / 2 ^ 53

/-- A page with a 200x130 viewport whose every draw is `topDraw`. -/
def pageTop : Page :=
  { innerWidth := 200, innerHeight := 130, theme := none, rnd := fun _ => topDraw,
    cursor := 0, surface := [], nextHandle := 1, pending := [], resizeListeners := 0 }

/-- A particle four tenths above the respawn line, with speed `0.127`. -/
def drifting : Particle :=
  { x := 100, y := -1745813358675755 / 35184372088832, text := some "∞", size := 12,
    opacity := 1 / 16, speed := 571957152676053 / 4503599627370496, angle := 0 }

/-- A running animator on an 800x600 canvas holding `drifting`. -/
def animator2 : Animator :=
  { canvas := some { width := 800, height := 600 }, ctx := true, symbols := symbols,
    particles := [drifting], animationFrameId := some 1 }

end CanvasAnimation.Binary64

namespace CanvasAnimation.State

/-- The loop `for (let p of this.particles)` of `draw()` from index `i` on, with
`n` passes left: each pass reads one particle and issues its seven commands.
The animator and the page are passed from one statement to the next. -/
def drawLoop (color : String) : ℕ → Animator → Page → ℕ → Animator × Page
  | 0, a, pg, _ => (a, pg)
  | n + 1, a, pg, i =>
    match a.particles[i]? with
    | none => (a, pg)
    | some p => drawLoop color n a (pg.emit (drawParticle color p)) (i + 1)

/-- The method `draw()` in state-passing form: the animator and the page the
call leaves behind. -/
def draw (a : Animator) (pg : Page) : Except JsError (Animator × Page) :=
  if !a.ctx then .ok (a, pg)
  else
    match a.canvas with
    | none => .error (.typeError "Cannot read properties of null (reading width)")
    | some cv =>
      let pg1 := pg.emit [DrawOp.clearRect 0 0 cv.width cv.height]
      let isDark := pg1.theme ≠ some "light"
      let color := if isDark then "255,255,255" else "0,0,0"
      .ok (drawLoop color a.particles.length a pg1 0)

end CanvasAnimation.State

namespace CanvasAnimation

/-! ## Lemmas on `createParticle` and `arrayFrom` -/

@[simp] theorem seek_cursor (pg : Page) (k : ℕ) : (pg.seek k).cursor = k := rfl

@[simp] theorem seek_rnd (pg : Page) (k : ℕ) : (pg.seek k).rnd = pg.rnd := rfl

@[simp] theorem seek_surface (pg : Page) (k : ℕ) : (pg.seek k).surface = pg.surface := rfl

@[simp] theorem seek_pending (pg : Page) (k : ℕ) : (pg.seek k).pending = pg.pending := rfl

@[simp] theorem seek_nextHandle (pg : Page) (k : ℕ) :
    (pg.seek k).nextHandle = pg.nextHandle := rfl

@[simp] theorem seek_resizeListeners (pg : Page) (k : ℕ) :
    (pg.seek k).resizeListeners = pg.resizeListeners := rfl

@[simp] theorem seek_theme (pg : Page) (k : ℕ) : (pg.seek k).theme = pg.theme := rfl

@[simp] theorem seek_innerWidth (pg : Page) (k : ℕ) :
    (pg.seek k).innerWidth = pg.innerWidth := rfl

@[simp] theorem seek_innerHeight (pg : Page) (k : ℕ) :
    (pg.seek k).innerHeight = pg.innerHeight := rfl

@[simp] theorem seek_seek (pg : Page) (k l : ℕ) : (pg.seek k).seek l = pg.seek l := rfl

@[simp] theorem seek_self (pg : Page) : pg.seek pg.cursor = pg := rfl

@[simp] theorem emit_cursor (pg : Page) (ops : List DrawOp) :
    (pg.emit ops).cursor = pg.cursor := rfl

@[simp] theorem emit_rnd (pg : Page) (ops : List DrawOp) : (pg.emit ops).rnd = pg.rnd := rfl

@[simp] theorem emit_surface (pg : Page) (ops : List DrawOp) :
    (pg.emit ops).surface = pg.surface ++ ops := rfl

@[simp] theorem emit_pending (pg : Page) (ops : List DrawOp) :
    (pg.emit ops).pending = pg.pending := rfl

@[simp] theorem emit_nextHandle (pg : Page) (ops : List DrawOp) :
    (pg.emit ops).nextHandle = pg.nextHandle := rfl

@[simp] theorem emit_resizeListeners (pg : Page) (ops : List DrawOp) :
    (pg.emit ops).resizeListeners = pg.resizeListeners := rfl

@[simp] theorem emit_theme (pg : Page) (ops : List DrawOp) :
    (pg.emit ops).theme = pg.theme := rfl

@[simp] theorem emit_innerWidth (pg : Page) (ops : List DrawOp) :
    (pg.emit ops).innerWidth = pg.innerWidth := rfl

@[simp] theorem emit_innerHeight (pg : Page) (ops : List DrawOp) :
    (pg.emit ops).innerHeight = pg.innerHeight := rfl

theorem createParticle_true (a : Animator) (pg : Page) (cv : Canvas)
    (hc : a.canvas = some cv) :
    createParticle a pg true =
      .ok ({ x := pg.rnd pg.cursor * cv.width
             y := pg.rnd (pg.cursor + 1) * cv.height
             text := index a.symbols (Rat.floor (pg.rnd (pg.cursor + 2) * a.symbols.length))
             size := 11 + pg.rnd (pg.cursor + 3) * 12
             opacity := 0.035 + pg.rnd (pg.cursor + 4) * 0.1
             speed := 0.1 + pg.rnd (pg.cursor + 5) * 0.25
             angle := pg.rnd (pg.cursor + 6) * MathPI * 2 },
           pg.seek (pg.cursor + 7)) := by
  unfold createParticle
  rw [hc]
  rfl

theorem createParticle_false (a : Animator) (pg : Page) (cv : Canvas)
    (hc : a.canvas = some cv) :
    createParticle a pg false =
      .ok ({ x := pg.rnd pg.cursor * cv.width
             y := cv.height + 20
             text := index a.symbols (Rat.floor (pg.rnd (pg.cursor + 1) * a.symbols.length))
             size := 11 + pg.rnd (pg.cursor + 2) * 12
             opacity := 0.035 + pg.rnd (pg.cursor + 3) * 0.1
             speed := 0.1 + pg.rnd (pg.cursor + 4) * 0.25
             angle := pg.rnd (pg.cursor + 5) * MathPI * 2 },
           pg.seek (pg.cursor + 6)) := by
  unfold createParticle
  rw [hc]
  rfl

/-- The result of `createParticle` only depends on the canvas and the catalog. -/
theorem createParticle_congr (a b : Animator) (pg : Page) (fromTop : Bool)
    (hc : a.canvas = b.canvas) (hs : a.symbols = b.symbols) :
    createParticle a pg fromTop = createParticle b pg fromTop := by
  unfold createParticle
  rw [hc, hs]

theorem createParticle_none (a : Animator) (pg : Page) (fromTop : Bool)
    (hc : a.canvas = none) :
    createParticle a pg fromTop =
      .error (.typeError "Cannot read properties of null (reading width)") := by
  unfold createParticle
  rw [hc]

theorem inBounds_of_createParticle (a : Animator) (pg pg1 : Page) (fromTop : Bool)
    (p : Particle) (hr : UnitDraws pg.rnd)
    (h : createParticle a pg fromTop = .ok (p, pg1)) : InBounds p := by
  cases hc : a.canvas with
  | none => rw [createParticle_none a pg fromTop hc] at h; cases h
  | some cv =>
    cases fromTop with
    | true =>
      rw [createParticle_true a pg cv hc] at h
      injection h with h
      injection h with hp _
      subst hp
      have h3 := hr (pg.cursor + 3)
      have h4 := hr (pg.cursor + 4)
      have h5 := hr (pg.cursor + 5)
      refine ⟨?_, ?_, ?_, ?_, ?_, ?_⟩ <;> norm_num <;> linarith
    | false =>
      rw [createParticle_false a pg cv hc] at h
      injection h with h
      injection h with hp _
      subst hp
      have h2 := hr (pg.cursor + 2)
      have h3 := hr (pg.cursor + 3)
      have h4 := hr (pg.cursor + 4)
      refine ⟨?_, ?_, ?_, ?_, ?_, ?_⟩ <;> norm_num <;> linarith

/-- A spawn reads the page only through the random source and its cursor. -/
theorem createParticle_transport (a b : Animator) (pg pg2 : Page) (fromTop : Bool)
    (p : Particle) (c : ℕ) (hc : a.canvas = b.canvas) (hs : a.symbols = b.symbols)
    (hr : pg2.rnd = pg.rnd) (hk : pg2.cursor = pg.cursor)
    (h : createParticle a pg fromTop = .ok (p, pg.seek c)) :
    createParticle b pg2 fromTop = .ok (p, pg2.seek c) := by
  cases hcv : a.canvas with
  | none => rw [createParticle_none a pg fromTop hcv] at h; cases h
  | some cv =>
    have hb : b.canvas = some cv := by rw [← hc, hcv]
    cases fromTop with
    | true =>
      rw [createParticle_true a pg cv hcv] at h
      rw [createParticle_true b pg2 cv hb]
      injection h with h
      injection h with hp hpg
      have hcc : pg.cursor + 7 = c := congrArg Page.cursor hpg
      rw [← hp, ← hcc, hr, hk, hs]
    | false =>
      rw [createParticle_false a pg cv hcv] at h
      rw [createParticle_false b pg2 cv hb]
      injection h with h
      injection h with hp hpg
      have hcc : pg.cursor + 6 = c := congrArg Page.cursor hpg
      rw [← hp, ← hcc, hr, hk, hs]

theorem mathPI_lt_pi : ((MathPI : ℚ) : ℝ) < Real.pi := by
  have h := Real.pi_gt_d20
  have h1 : ((MathPI : ℚ) : ℝ) < 3.14159265358979323846 := by
    unfold MathPI
    norm_num
  exact lt_trans h1 h

theorem arrayFrom_spec (a : Animator) (cv : Canvas) (hc : a.canvas = some cv) :
    ∀ (n : ℕ) (pg : Page), ∃ ps : List Particle,
      arrayFrom a n pg = .ok (ps, pg.seek (pg.cursor + 7 * n)) ∧
      ps.length = n ∧
      ∀ (j : ℕ) (p : Particle), ps[j]? = some p →
        createParticle a (pg.seek (pg.cursor + 7 * j)) true =
          .ok (p, pg.seek (pg.cursor + 7 * j + 7)) := by
  intro n
  induction n with
  | zero =>
    intro pg
    exact ⟨[], by simp [arrayFrom], rfl, by simp⟩
  | succ n ih =>
    intro pg
    obtain ⟨q, hq⟩ : ∃ q, createParticle a pg true = .ok (q, pg.seek (pg.cursor + 7)) :=
      ⟨_, createParticle_true a pg cv hc⟩
    obtain ⟨ps, hps, hlen, hget⟩ := ih (pg.seek (pg.cursor + 7))
    refine ⟨q :: ps, ?_, by simp [hlen], ?_⟩
    · simp only [arrayFrom, hq, hps, seek_seek, seek_cursor]
      have : pg.cursor + 7 + 7 * n = pg.cursor + 7 * (n + 1) := by ring
      rw [this]
    · intro j p hj
      cases j with
      | zero =>
        simp only [List.getElem?_cons_zero, Option.some.injEq] at hj
        subst hj
        simpa using hq
      | succ j =>
        simp only [List.getElem?_cons_succ] at hj
        have h := hget j p hj
        simp only [seek_seek, seek_cursor] at h
        have e1 : pg.cursor + 7 + 7 * j = pg.cursor + 7 * (j + 1) := by ring
        rw [e1] at h
        exact h

/-! ## The update loop of `animate` -/

theorem animateLoop_done (a : Animator) (pg : Page) (i : ℕ) (h : a.particles.length ≤ i) :
    animateLoop a pg i = .ok (a, pg) := by
  rw [animateLoop]
  simp [Nat.not_lt.mpr h]

theorem animateLoop_keep (a : Animator) (pg : Page) (i : ℕ) (p : Particle)
    (hp : a.particles[i]? = some p) (hy : ¬ (advance p).y < -50) :
    animateLoop a pg i =
      animateLoop { a with particles := a.particles.set i (advance p) } pg (i + 1) := by
  obtain ⟨hi, hpe⟩ := List.getElem?_eq_some.mp hp
  rw [animateLoop]
  simp only [dif_pos hi, hpe, if_neg hy]

theorem animateLoop_respawn (a : Animator) (pg : Page) (i : ℕ) (p q : Particle)
    (hp : a.particles[i]? = some p) (hy : (advance p).y < -50)
    (hq : createParticle a pg false = .ok (q, pg.seek (pg.cursor + 6))) :
    animateLoop a pg i =
      animateLoop { a with particles := a.particles.set i q } (pg.seek (pg.cursor + 6))
        (i + 1) := by
  obtain ⟨hi, hpe⟩ := List.getElem?_eq_some.mp hp
  rw [animateLoop]
  simp only [dif_pos hi, hpe, if_pos hy]
  rw [createParticle_congr
    { a with particles := a.particles.set i (advance p) } a pg false rfl rfl, hq]
  simp only [List.set_set]

/-- What the loop of `animate` does, started at index `i`: it returns, only
the particles and the random cursor change, the length is kept, slots below
`i` are untouched, and each later slot is either advanced or respawned. -/
theorem animateLoop_spec (cv : Canvas) :
    ∀ (n : ℕ) (a : Animator) (pg : Page) (i : ℕ),
      a.particles.length - i = n → a.canvas = some cv →
      ∃ (a1 : Animator) (c : ℕ),
        animateLoop a pg i = .ok (a1, pg.seek c) ∧ pg.cursor ≤ c ∧
        a1.canvas = a.canvas ∧ a1.ctx = a.ctx ∧ a1.symbols = a.symbols ∧
        a1.animationFrameId = a.animationFrameId ∧
        a1.particles.length = a.particles.length ∧
        ∀ (j : ℕ) (p : Particle), a.particles[j]? = some p →
          (j < i → a1.particles[j]? = some p) ∧
          (i ≤ j → ¬ (advance p).y < -50 → a1.particles[j]? = some (advance p)) ∧
          (i ≤ j → (advance p).y < -50 →
            ∃ (k : ℕ) (q : Particle), pg.cursor ≤ k ∧
              createParticle a (pg.seek k) false = .ok (q, pg.seek (k + 6)) ∧
              a1.particles[j]? = some q) := by
  intro n
  induction n with
  | zero =>
    intro a pg i hn hc
    have hle : a.particles.length ≤ i := by omega
    refine ⟨a, pg.cursor, ?_, le_refl _, rfl, rfl, rfl, rfl, rfl, ?_⟩
    · rw [animateLoop_done a pg i hle]; rfl
    · intro j p hj
      have hjl : j < a.particles.length := (List.getElem?_eq_some.mp hj).1
      exact ⟨fun _ => hj, fun h => absurd h (by omega), fun h => absurd h (by omega)⟩
  | succ n ih =>
    intro a pg i hn hc
    have hi : i < a.particles.length := by omega
    have hpi : a.particles[i]? = some a.particles[i] := List.getElem?_eq_getElem hi
    by_cases hy : (advance a.particles[i]).y < -50
    · -- the slot is respawned
      have hq := createParticle_false a pg cv hc
      generalize hqd : ({ x := pg.rnd pg.cursor * (cv.width : ℚ)
                          y := (cv.height : ℚ) + 20
                          text := index a.symbols
                            (Rat.floor (pg.rnd (pg.cursor + 1) * a.symbols.length))
                          size := 11 + pg.rnd (pg.cursor + 2) * 12
                          opacity := 0.035 + pg.rnd (pg.cursor + 3) * 0.1
                          speed := 0.1 + pg.rnd (pg.cursor + 4) * 0.25
                          angle := pg.rnd (pg.cursor + 5) * MathPI * 2 } : Particle) = q at hq
      obtain ⟨a1, c, hrun, hc1, h1, h2, h3, h4, h5, h6⟩ :=
        ih { a with particles := a.particles.set i q } (pg.seek (pg.cursor + 6)) (i + 1)
          (by simp only [List.length_set]; omega) hc
      simp only [seek_seek, seek_cursor, List.length_set] at hrun hc1 h5 h6
      refine ⟨a1, c, ?_, by omega, h1, h2, h3, h4, h5, ?_⟩
      · rw [animateLoop_respawn a pg i _ q hpi hy hq, hrun]
      · intro j p hj
        have hjl : j < a.particles.length := (List.getElem?_eq_some.mp hj).1
        rcases Nat.lt_trichotomy j i with hlt | heq | hgt
        · have hset : (a.particles.set i q)[j]? = some p := by
            rw [List.getElem?_set_ne (by omega)]; exact hj
          exact ⟨fun _ => (h6 j p hset).1 (by omega), fun h => absurd h (by omega),
            fun h => absurd h (by omega)⟩
        · subst heq
          have hpe : p = a.particles[j] := by
            rw [hpi] at hj; exact (Option.some.inj hj).symm
          have hset : (a.particles.set j q)[j]? = some q := by
            rw [List.getElem?_set_self hjl]
          refine ⟨fun h => absurd h (by omega), fun _ hny => absurd (hpe ▸ hy) hny, fun _ _ => ?_⟩
          refine ⟨pg.cursor, q, le_refl _, ?_, (h6 j q hset).1 (by omega)⟩
          simpa using hq
        · have hset : (a.particles.set i q)[j]? = some p := by
            rw [List.getElem?_set_ne (by omega)]; exact hj
          obtain ⟨_, hb, hcse⟩ := h6 j p hset
          refine ⟨fun h => absurd h (by omega), fun _ hny => hb (by omega) hny, fun _ hyp => ?_⟩
          obtain ⟨k, r, hk, hr, hget⟩ := hcse (by omega) hyp
          refine ⟨k, r, by omega, ?_, hget⟩
          rw [← hr]
          exact createParticle_congr _ _ _ _ rfl rfl
    · -- the slot is advanced in place
      obtain ⟨a1, c, hrun, hc1, h1, h2, h3, h4, h5, h6⟩ :=
        ih { a with particles := a.particles.set i (advance a.particles[i]) } pg (i + 1)
          (by simp only [List.length_set]; omega) hc
      simp only [List.length_set] at hrun hc1 h5 h6
      refine ⟨a1, c, ?_, hc1, h1, h2, h3, h4, h5, ?_⟩
      · rw [animateLoop_keep a pg i _ hpi hy, hrun]
      · intro j p hj
        have hjl : j < a.particles.length := (List.getElem?_eq_some.mp hj).1
        rcases Nat.lt_trichotomy j i with hlt | heq | hgt
        · have hset : (a.particles.set i (advance a.particles[i]))[j]? = some p := by
            rw [List.getElem?_set_ne (by omega)]; exact hj
          exact ⟨fun _ => (h6 j p hset).1 (by omega), fun h => absurd h (by omega),
            fun h => absurd h (by omega)⟩
        · subst heq
          have hpe : p = a.particles[j] := by
            rw [hpi] at hj; exact (Option.some.inj hj).symm
          have hset : (a.particles.set j (advance a.particles[j]))[j]? =
              some (advance a.particles[j]) := by
            rw [List.getElem?_set_self hjl]
          refine ⟨fun h => absurd h (by omega), fun _ _ => ?_, fun _ hyp => absurd (hpe ▸ hyp) hy⟩
          rw [hpe]
          exact (h6 j _ hset).1 (by omega)
        · have hset : (a.particles.set i (advance a.particles[i]))[j]? = some p := by
            rw [List.getElem?_set_ne (by omega)]; exact hj
          obtain ⟨_, hb, hcse⟩ := h6 j p hset
          refine ⟨fun h => absurd h (by omega), fun _ hny => hb (by omega) hny, fun _ hyp => ?_⟩
          obtain ⟨k, r, hk, hr, hget⟩ := hcse (by omega) hyp
          refine ⟨k, r, hk, ?_, hget⟩
          rw [← hr]
          exact createParticle_congr _ _ _ _ rfl rfl

/-! ## `draw`, `resizeCanvas` and `animate` as a whole -/

theorem draw_eq (a : Animator) (pg : Page) (cv : Canvas) (hc : a.canvas = some cv) :
    draw a pg = .ok (pg.emit (paint a cv pg.theme)) := by
  unfold draw paint Page.emit
  cases hx : a.ctx with
  | false => simp
  | true => simp [hc]

theorem draw_no_ctx (a : Animator) (pg : Page) (hx : a.ctx = false) : draw a pg = .ok pg := by
  unfold draw
  simp [hx]

theorem Page.Extends.refl (pg : Page) : pg.Extends pg :=
  ⟨rfl, rfl, rfl, rfl, le_refl _, ⟨[], by simp⟩, rfl⟩

theorem Page.Extends.trans {pg pg1 pg2 : Page} (h1 : pg.Extends pg1) (h2 : pg1.Extends pg2) :
    pg.Extends pg2 := by
  obtain ⟨o1, ho1⟩ := h1.surface
  obtain ⟨o2, ho2⟩ := h2.surface
  exact ⟨h2.innerWidth.trans h1.innerWidth, h2.innerHeight.trans h1.innerHeight,
    h2.theme.trans h1.theme, h2.rnd.trans h1.rnd, le_trans h1.cursor h2.cursor,
    ⟨o1 ++ o2, by rw [ho2, ho1, List.append_assoc]⟩,
    h2.resizeListeners.trans h1.resizeListeners⟩

theorem floor_count (w h : ℕ) :
    (Rat.floor ((w : ℚ) * (h : ℚ) / 26000)).toNat = w * h / 26000 := by
  have h1 : Rat.floor (((w * h : ℕ) : ℚ) / ((26000 : ℕ) : ℚ))
      = ((w * h : ℕ) : ℤ) / ((26000 : ℕ) : ℤ) :=
    Rat.floor_natCast_div_natCast (w * h) 26000
  push_cast at h1
  rw [h1]
  norm_cast

/-- What `resizeCanvas()` does on a located canvas. -/
theorem resizeCanvas_spec (a : Animator) (pg : Page) (cv : Canvas) (hc : a.canvas = some cv) :
    ∃ (a1 : Animator) (pg1 : Page),
      resizeCanvas a pg = .ok (a1, pg1) ∧
      a1.canvas = some { width := pg.innerWidth, height := pg.innerHeight } ∧
      a1.ctx = a.ctx ∧ a1.symbols = a.symbols ∧
      a1.animationFrameId = a.animationFrameId ∧
      a1.particles.length = pg.innerWidth * pg.innerHeight / 26000 ∧
      pg.Extends pg1 ∧ pg1.nextHandle = pg.nextHandle ∧ pg1.pending = pg.pending ∧
      pg1.surface = pg.surface ++ [.setWidth pg.innerWidth, .setHeight pg.innerHeight]
        ++ paint a1 { width := pg.innerWidth, height := pg.innerHeight } pg.theme ∧
      ∀ (j : ℕ) (p : Particle), a1.particles[j]? = some p →
        ∃ k : ℕ, pg.cursor ≤ k ∧
          createParticle a1 (pg.seek k) true = .ok (p, pg.seek (k + 7)) := by
  obtain ⟨ps, hps, hlen, hget⟩ :=
    arrayFrom_spec { a with canvas := some { width := pg.innerWidth, height := pg.innerHeight } }
      { width := pg.innerWidth, height := pg.innerHeight } rfl
      (pg.innerWidth * pg.innerHeight / 26000)
      (pg.emit [.setWidth pg.innerWidth, .setHeight pg.innerHeight])
  refine ⟨{ a with canvas := some { width := pg.innerWidth, height := pg.innerHeight },
                   particles := ps },
    ((pg.emit [.setWidth pg.innerWidth, .setHeight pg.innerHeight]).seek
        (pg.cursor + 7 * (pg.innerWidth * pg.innerHeight / 26000))).emit
      (paint { a with canvas := some { width := pg.innerWidth, height := pg.innerHeight },
                      particles := ps }
        { width := pg.innerWidth, height := pg.innerHeight } pg.theme),
    ?_, rfl, rfl, rfl, rfl, hlen, ?_, rfl, rfl, rfl, ?_⟩
  · unfold resizeCanvas
    simp only [hc, floor_count]
    have hps1 : arrayFrom
        { a with canvas := some { width := pg.innerWidth, height := pg.innerHeight } }
        (pg.innerWidth * pg.innerHeight / 26000)
        { pg with
          surface := pg.surface ++ [.setWidth pg.innerWidth, .setHeight pg.innerHeight] } = _ :=
      hps
    rw [hps1]
    simp only
    rw [draw_eq _ _ { width := pg.innerWidth, height := pg.innerHeight } rfl]
    rfl
  · exact ⟨rfl, rfl, rfl, rfl, by simp, ⟨_, by simp [List.append_assoc]; rfl⟩, rfl⟩
  · intro j p hj
    have h := hget j p hj
    refine ⟨pg.cursor + 7 * j, by omega, ?_⟩
    simp only [emit_cursor] at h
    exact createParticle_transport _ _
      ((pg.emit [.setWidth pg.innerWidth, .setHeight pg.innerHeight]).seek (pg.cursor + 7 * j))
      (pg.seek (pg.cursor + 7 * j)) true p (pg.cursor + 7 * j + 7) rfl rfl rfl rfl h

/-- What `animate()` does on a located canvas. -/
theorem animate_spec (a : Animator) (pg : Page) (cv : Canvas) (hc : a.canvas = some cv) :
    ∃ (a1 : Animator) (pg1 : Page),
      animate a pg = .ok (a1, pg1) ∧
      a1.canvas = a.canvas ∧ a1.ctx = a.ctx ∧ a1.symbols = a.symbols ∧
      a1.animationFrameId = some pg.nextHandle ∧
      a1.particles.length = a.particles.length ∧
      pg.Extends pg1 ∧ pg1.nextHandle = pg.nextHandle + 1 ∧
      pg1.pending = pg.pending ++ [pg.nextHandle] ∧
      pg1.surface = pg.surface ++ paint a1 cv pg.theme ∧
      ∀ (j : ℕ) (p : Particle), a.particles[j]? = some p →
        (¬ (advance p).y < -50 → a1.particles[j]? = some (advance p)) ∧
        ((advance p).y < -50 →
          ∃ (k : ℕ) (q : Particle), pg.cursor ≤ k ∧
            createParticle a (pg.seek k) false = .ok (q, pg.seek (k + 6)) ∧
            a1.particles[j]? = some q) := by
  obtain ⟨a1, c, hrun, hc1, h1, h2, h3, h4, h5, h6⟩ :=
    animateLoop_spec cv (a.particles.length - 0) a pg 0 rfl hc
  have hc2 : a1.canvas = some cv := by rw [h1, hc]
  refine ⟨{ a1 with animationFrameId := some pg.nextHandle },
    { (pg.seek c).emit (paint a1 cv pg.theme) with
      nextHandle := pg.nextHandle + 1
      pending := pg.pending ++ [pg.nextHandle] },
    ?_, h1, h2, h3, rfl, h5, ?_, rfl, rfl, rfl, ?_⟩
  · unfold animate
    simp only [hc, hrun]
    rw [draw_eq a1 (pg.seek c) cv hc2]
    rfl
  · exact ⟨rfl, rfl, rfl, rfl, hc1, ⟨_, rfl⟩, rfl⟩
  · intro j p hj
    obtain ⟨_, hb, hcse⟩ := h6 j p hj
    exact ⟨fun hny => hb (Nat.zero_le _) hny, fun hy => hcse (Nat.zero_le _) hy⟩

theorem animate_none (a : Animator) (pg : Page) (hc : a.canvas = none) :
    animate a pg = .ok (a, pg) := by
  unfold animate
  rw [hc]

theorem resizeCanvas_none (a : Animator) (pg : Page) (hc : a.canvas = none) :
    resizeCanvas a pg = .ok (a, pg) := by
  unfold resizeCanvas
  rw [hc]

/-! ## The particle count after a resize -/

/-- C1: for every viewport `w x h`, `resizeCanvas()` on a located canvas returns
and leaves exactly `floor(w * h / 26000)` particles, whatever the collection
held before. -/
theorem resizeCanvas_particle_count (a : Animator) (pg : Page) (cv : Canvas) (w h : ℕ)
    (hc : a.canvas = some cv) :
    ∃ (a1 : Animator) (pg1 : Page),
      resizeCanvas a { pg with innerWidth := w, innerHeight := h } = .ok (a1, pg1) ∧
      a1.particles.length = w * h / 26000 ∧
      (a1.particles.length : ℤ) = ⌊((w : ℚ) * (h : ℚ)) / 26000⌋ := by
  obtain ⟨a1, pg1, hrun, _, _, _, _, hlen, _⟩ :=
    resizeCanvas_spec a { pg with innerWidth := w, innerHeight := h } cv hc
  refine ⟨a1, pg1, hrun, hlen, ?_⟩
  rw [hlen]
  have h1 : ⌊(((w * h : ℕ) : ℚ)) / ((26000 : ℕ) : ℚ)⌋ = ((w * h : ℕ) : ℤ) / ((26000 : ℕ) : ℤ) :=
    Rat.floor_natCast_div_natCast (w * h) 26000
  push_cast at h1
  rw [h1]
  norm_cast

theorem resizeCanvas_particle_count_witness :
    animator1.canvas = some { width := 800, height := 600 } ∧
    (∃ (a1 : Animator) (pg1 : Page),
      resizeCanvas animator1 { page0 with innerWidth := 400, innerHeight := 300 }
        = .ok (a1, pg1) ∧
      a1.particles.length = 4 ∧
      (a1.particles.length : ℤ) = ⌊((400 : ℕ) : ℚ) * ((300 : ℕ) : ℚ) / 26000⌋) :=
  ⟨rfl, resizeCanvas_particle_count animator1 page0 { width := 800, height := 600 } 400 300 rfl⟩

/-! ## Respawn at the top edge -/

/-- C2: a particle with `y < -50` before `animate()` (speed in its creation
range) is replaced in its slot by the result of `createParticle(false)` on
draws not consumed before the call: its `y` is `canvas.height + 20` and its
label, size, opacity, speed and angle are computed from the new draws. -/
theorem animate_respawns_offscreen (a : Animator) (pg : Page) (cv : Canvas) (i : ℕ)
    (p : Particle) (hc : a.canvas = some cv) (hp : a.particles[i]? = some p)
    (hy : p.y < -50) (hs : 0.1 ≤ p.speed ∧ p.speed < 0.35) :
    ∃ (a1 : Animator) (pg1 : Page) (q : Particle) (k : ℕ),
      animate a pg = .ok (a1, pg1) ∧
      a1.particles.length = a.particles.length ∧
      a1.particles[i]? = some q ∧
      pg.cursor ≤ k ∧
      createParticle a (pg.seek k) false = .ok (q, pg.seek (k + 6)) ∧
      q.y = cv.height + 20 ∧
      q.x = pg.rnd k * cv.width ∧
      q.text = index a.symbols (Rat.floor (pg.rnd (k + 1) * a.symbols.length)) ∧
      q.size = 11 + pg.rnd (k + 2) * 12 ∧
      q.opacity = 0.035 + pg.rnd (k + 3) * 0.1 ∧
      q.speed = 0.1 + pg.rnd (k + 4) * 0.25 ∧
      q.angle = pg.rnd (k + 5) * MathPI * 2 := by
  obtain ⟨a1, pg1, hrun, _, _, _, _, hlen, _, _, _, _, hslots⟩ := animate_spec a pg cv hc
  have hadv : (advance p).y < -50 := by
    show p.y - p.speed < -50
    have := hs.1
    norm_num at this
    linarith
  obtain ⟨k, q, hk, hq, hget⟩ := (hslots i p hp).2 hadv
  refine ⟨a1, pg1, q, k, hrun, hlen, hget, hk, hq, ?_⟩
  have hq2 := createParticle_false a (pg.seek k) cv hc
  rw [hq2] at hq
  injection hq with hq
  injection hq with hqp _
  subst hqp
  simp

theorem animate_respawns_offscreen_witness :
    animator1.canvas = some { width := 800, height := 600 } ∧
    animator1.particles[0]? = some offTop ∧
    offTop.y < -50 ∧ (0.1 ≤ offTop.speed ∧ offTop.speed < 0.35) ∧
    ∃ (a1 : Animator) (pg1 : Page) (q : Particle) (k : ℕ),
      animate animator1 page0 = .ok (a1, pg1) ∧
      a1.particles.length = animator1.particles.length ∧
      a1.particles[0]? = some q ∧
      page0.cursor ≤ k ∧
      createParticle animator1 (page0.seek k) false = .ok (q, page0.seek (k + 6)) ∧
      q.y = ((600 : ℕ) : ℚ) + 20 ∧
      q.x = page0.rnd k * ((800 : ℕ) : ℚ) ∧
      q.text = index animator1.symbols
        (Rat.floor (page0.rnd (k + 1) * animator1.symbols.length)) ∧
      q.size = 11 + page0.rnd (k + 2) * 12 ∧
      q.opacity = 0.035 + page0.rnd (k + 3) * 0.1 ∧
      q.speed = 0.1 + page0.rnd (k + 4) * 0.25 ∧
      q.angle = page0.rnd (k + 5) * MathPI * 2 :=
  ⟨rfl, rfl, by norm_num [offTop], by norm_num [offTop],
    animate_respawns_offscreen animator1 page0 { width := 800, height := 600 } 0 offTop rfl rfl
      (by norm_num [offTop]) (by norm_num [offTop])⟩

/-! ## The draws of the test page -/

theorem unitDraws_page0 : UnitDraws page0.rnd := by
  intro i
  show (0 : ℚ) ≤ 1 / 2 ∧ (1 / 2 : ℚ) < 1
  norm_num

/-! ## The collection length between resizes -/

/-- C4: every finite run of `animate()` calls, from every animator state,
returns and leaves the length of the particle collection unchanged. -/
theorem animateTimes_length (n : ℕ) :
    ∀ (a : Animator) (pg : Page), ∃ (a1 : Animator) (pg1 : Page),
      animateTimes a pg n = .ok (a1, pg1) ∧ a1.particles.length = a.particles.length := by
  induction n with
  | zero =>
    intro a pg
    exact ⟨a, pg, rfl, rfl⟩
  | succ n ih =>
    intro a pg
    cases hc : a.canvas with
    | none =>
      obtain ⟨a2, pg2, hrun, hlen⟩ := ih a pg
      refine ⟨a2, pg2, ?_, hlen⟩
      simp only [animateTimes, animate_none a pg hc, hrun]
    | some cv =>
      obtain ⟨a1, pg1, hrun1, _, _, _, _, hlen1, _⟩ := animate_spec a pg cv hc
      obtain ⟨a2, pg2, hrun, hlen⟩ := ih a1 pg1
      refine ⟨a2, pg2, ?_, hlen.trans hlen1⟩
      simp only [animateTimes, hrun1, hrun]

/-! ## Events after `destroy()` -/

theorem init_eq (a : Animator) (pg : Page) (cv : Canvas) (a1 : Animator) (pg1 : Page)
    (hc : a.canvas = some cv) (h : resizeCanvas a pg = .ok (a1, pg1)) :
    init a pg = animate a1 { pg1 with resizeListeners := pg1.resizeListeners + 1 } := by
  unfold init
  rw [hc]
  simp only [h]

theorem step_destroy_eq (a : Animator) (pg : Page) (id : ℕ)
    (hid : a.animationFrameId = some id) (h0 : id ≠ 0) :
    step a pg .destroy = .ok (a, { pg with pending := pg.pending.filter (fun j => j ≠ id) }) := by
  simp only [step, destroy, hid]
  rw [if_pos h0]

theorem step_resize_one (a : Animator) (pg : Page) (w h : ℕ) (a1 : Animator) (pg1 : Page)
    (hl : pg.resizeListeners = 1)
    (hr : resizeCanvas a { pg with innerWidth := w, innerHeight := h } = .ok (a1, pg1)) :
    step a pg (.resize w h) = .ok (a1, pg1) := by
  have key : ∀ n : ℕ, n = 1 →
      fireResize a { pg with innerWidth := w, innerHeight := h } n = .ok (a1, pg1) := by
    intro n hn
    subst hn
    simp only [fireResize, hr]
  exact key _ hl

/-- C5: evaluation at the failing input.  An animator is constructed on an
800x600 viewport (18 particles, one frame pending) and destroyed, which
cancels the pending frame; the window is then resized to 400x300.  The
listener registered by `init()` still runs `resizeCanvas()`: the collection
is replaced by 4 new particles and further commands reach the surface. -/
theorem destroy_then_resize_mutates :
    ∃ (a1 : Animator) (pg1 : Page) (a2 : Animator) (pg2 : Page) (a3 : Animator) (pg3 : Page),
      new (some ({ width := 300, height := 150 }, true)) page0 = .ok (a1, pg1) ∧
      step a1 pg1 .destroy = .ok (a2, pg2) ∧ pg2.pending = [] ∧
      step a2 pg2 (.resize 400 300) = .ok (a3, pg3) ∧
      a2.particles.length = 18 ∧ a3.particles.length = 4 ∧
      pg3.surface ≠ pg2.surface := by
  obtain ⟨ar, pr, hr, hcr, _, _, _, hlr, hext, hnh, hpend, _, _⟩ :=
    resizeCanvas_spec animator0 page0 _ rfl
  obtain ⟨a1, pg1, ha, hca, _, _, hfa, hla, hexta, _, hpa, _, _⟩ :=
    animate_spec ar { pr with resizeListeners := pr.resizeListeners + 1 } _ hcr
  have hnew : new (some ({ width := 300, height := 150 }, true)) page0 = .ok (a1, pg1) := by
    have h0 : init animator0 page0 = .ok (a1, pg1) := by
      rw [init_eq animator0 page0 _ ar pr rfl hr, ha]
    exact h0
  have hid : a1.animationFrameId = some 1 := by rw [hfa]; exact congrArg some hnh
  have hp1 : pg1.pending = [1] := by
    rw [hpa]
    show pr.pending ++ [pr.nextHandle] = [1]
    rw [hpend, hnh]
    rfl
  have hl1 : pg1.resizeListeners = 1 := by
    rw [hexta.resizeListeners]
    show pr.resizeListeners + 1 = 1
    rw [hext.resizeListeners]
    rfl
  have hdes := step_destroy_eq a1 pg1 1 hid (by decide)
  obtain ⟨pg2, hpg2⟩ : ∃ pg2 : Page,
      pg2 = { pg1 with pending := pg1.pending.filter (fun j => j ≠ 1) } := ⟨_, rfl⟩
  rw [← hpg2] at hdes
  have hp2 : pg2.pending = [] := by
    rw [hpg2]
    show pg1.pending.filter (fun j => j ≠ 1) = []
    rw [hp1]
    rfl
  have hl2 : pg2.resizeListeners = 1 := by rw [hpg2]; exact hl1
  obtain ⟨a3, pg3, h3, _, _, _, _, hl3, _, _, _, hs3, _⟩ :=
    resizeCanvas_spec a1 { pg2 with innerWidth := 400, innerHeight := 300 } _ (hca.trans hcr)
  refine ⟨a1, pg1, a1, pg2, a3, pg3, hnew, hdes, hp2,
    step_resize_one a1 pg2 400 300 a3 pg3 hl2 h3, ?_, ?_, ?_⟩
  · rw [hla, hlr]
    rfl
  · have h4 : (400 * 300 / 26000 : ℕ) = 4 := by decide
    exact hl3.trans h4
  · intro h
    rw [hs3] at h
    have h2 := congrArg List.length h
    simp only [List.length_append, List.length_cons, List.length_nil] at h2
    omega

/-! ## A missing canvas -/

/-- C6: evaluation at the failing input.  When the element is not found the
constructor, `init`, `resizeCanvas`, `draw`, `animate` and `destroy` return
without any change, nothing is scheduled and no listener is registered, but
`createParticle` raises a `TypeError` for either value of `fromTop`. -/
theorem createParticle_throws_without_canvas (pg : Page) (fromTop : Bool) :
    ∃ a : Animator,
      new none pg = .ok (a, pg) ∧ init a pg = .ok (a, pg) ∧
      resizeCanvas a pg = .ok (a, pg) ∧ draw a pg = .ok pg ∧
      animate a pg = .ok (a, pg) ∧ destroy a pg = .ok (a, pg) ∧
      createParticle a pg fromTop =
        .error (.typeError "Cannot read properties of null (reading width)") :=
  ⟨_, rfl, rfl, rfl, rfl, rfl, rfl, rfl⟩

/-! ## Positions after a resize and at creation -/

/-- C7: after `resizeCanvas()` on a `w x h` viewport, with draws in `[0, 1)`,
every particle of the collection has `0 ≤ x < w` and `0 ≤ y < h`. -/
theorem resizeCanvas_positions (a : Animator) (pg : Page) (cv : Canvas) (w h : ℕ)
    (hc : a.canvas = some cv) (hr : UnitDraws pg.rnd) :
    ∃ (a1 : Animator) (pg1 : Page),
      resizeCanvas a { pg with innerWidth := w, innerHeight := h } = .ok (a1, pg1) ∧
      a1.particles.length = w * h / 26000 ∧
      ∀ p ∈ a1.particles, 0 ≤ p.x ∧ p.x < w ∧ 0 ≤ p.y ∧ p.y < h := by
  obtain ⟨a1, pg1, hrun, hcv, _, _, _, hlen, _, _, _, _, hslots⟩ :=
    resizeCanvas_spec a { pg with innerWidth := w, innerHeight := h } cv hc
  refine ⟨a1, pg1, hrun, hlen, ?_⟩
  intro p hp
  obtain ⟨j, hj⟩ := List.mem_iff_getElem?.mp hp
  have hpos : 0 < w * h / 26000 := by
    have hjl : j < a1.particles.length := (List.getElem?_eq_some.mp hj).1
    have hlen2 : a1.particles.length = w * h / 26000 := hlen
    omega
  have hwh : 0 < w * h := by
    rcases Nat.eq_zero_or_pos (w * h) with h0 | h0
    · rw [h0] at hpos; simp at hpos
    · exact h0
  have hw : (0 : ℚ) < w := by
    have : 0 < w := Nat.pos_of_mul_pos_right hwh
    exact_mod_cast this
  have hh : (0 : ℚ) < h := by
    have : 0 < h := Nat.pos_of_mul_pos_left hwh
    exact_mod_cast this
  obtain ⟨k, _, hk⟩ := hslots j p hj
  rw [createParticle_true a1 _ { width := w, height := h } hcv] at hk
  injection hk with hk
  injection hk with hpe _
  subst hpe
  have h0 := hr k
  have h1 := hr (k + 1)
  refine ⟨?_, ?_, ?_, ?_⟩
  · exact mul_nonneg h0.1 hw.le
  · show pg.rnd k * (w : ℚ) < w
    nlinarith [h0.2]
  · exact mul_nonneg h1.1 hh.le
  · show pg.rnd (k + 1) * (h : ℚ) < h
    nlinarith [h1.2]

theorem resizeCanvas_positions_witness :
    animator0.canvas = some { width := 300, height := 150 } ∧ UnitDraws page0.rnd ∧
    ∃ (a1 : Animator) (pg1 : Page),
      resizeCanvas animator0 { page0 with innerWidth := 800, innerHeight := 600 }
        = .ok (a1, pg1) ∧
      a1.particles.length = 18 ∧
      ∀ p ∈ a1.particles, 0 ≤ p.x ∧ p.x < ((800 : ℕ) : ℚ) ∧ 0 ≤ p.y ∧ p.y < ((600 : ℕ) : ℚ) :=
  ⟨rfl, unitDraws_page0,
    resizeCanvas_positions animator0 page0 { width := 300, height := 150 } 800 600 rfl
      unitDraws_page0⟩

/-- C8: on a surface of width `W > 0` and height `H`, `createParticle(false)`
returns a particle with `y = H + 20` whatever the draws are, and for draws in
`[0, 1)` `createParticle` returns `0 ≤ x < W` for both values of `fromTop`. -/
theorem createParticle_position (a : Animator) (cv : Canvas) (hc : a.canvas = some cv)
    (hW : 0 < cv.width) :
    (∀ pg : Page, ∃ (p : Particle) (pg1 : Page),
      createParticle a pg false = .ok (p, pg1) ∧ p.y = cv.height + 20) ∧
    (∀ (pg : Page) (fromTop : Bool), UnitDraws pg.rnd →
      ∃ (p : Particle) (pg1 : Page),
        createParticle a pg fromTop = .ok (p, pg1) ∧ 0 ≤ p.x ∧ p.x < cv.width) := by
  have hw : (0 : ℚ) < cv.width := by exact_mod_cast hW
  refine ⟨fun pg => ⟨_, _, createParticle_false a pg cv hc, rfl⟩, ?_⟩
  intro pg fromTop hr
  have h0 := hr pg.cursor
  have hx : 0 ≤ pg.rnd pg.cursor * (cv.width : ℚ) ∧
      pg.rnd pg.cursor * (cv.width : ℚ) < cv.width :=
    ⟨mul_nonneg h0.1 hw.le, by nlinarith [h0.2]⟩
  cases fromTop with
  | true => exact ⟨_, _, createParticle_true a pg cv hc, hx.1, hx.2⟩
  | false => exact ⟨_, _, createParticle_false a pg cv hc, hx.1, hx.2⟩

theorem createParticle_position_witness :
    animator1.canvas = some { width := 800, height := 600 } ∧ 0 < 800 ∧
    ((∀ pg : Page, ∃ (p : Particle) (pg1 : Page),
      createParticle animator1 pg false = .ok (p, pg1) ∧ p.y = ((600 : ℕ) : ℚ) + 20) ∧
    (∀ (pg : Page) (fromTop : Bool), UnitDraws pg.rnd →
      ∃ (p : Particle) (pg1 : Page),
        createParticle animator1 pg fromTop = .ok (p, pg1) ∧
          0 ≤ p.x ∧ p.x < ((800 : ℕ) : ℚ))) :=
  ⟨rfl, by decide,
    createParticle_position animator1 { width := 800, height := 600 } rfl (by decide)⟩

/-! ## Creation bounds kept by a frame, in exact arithmetic -/

theorem inBounds_advance (p : Particle) (h : InBounds p) : InBounds (advance p) := h

theorem animate_inBounds (a : Animator) (pg : Page) (hr : UnitDraws pg.rnd)
    (hinv : ∀ p ∈ a.particles, InBounds p) :
    ∃ (a1 : Animator) (pg1 : Page),
      animate a pg = .ok (a1, pg1) ∧ pg1.rnd = pg.rnd ∧ ∀ p ∈ a1.particles, InBounds p := by
  cases hc : a.canvas with
  | none => exact ⟨a, pg, animate_none a pg hc, rfl, hinv⟩
  | some cv =>
    obtain ⟨a1, pg1, hrun, _, _, _, _, hlen, hext, _, _, _, hslots⟩ := animate_spec a pg cv hc
    refine ⟨a1, pg1, hrun, hext.rnd, ?_⟩
    intro q hq
    obtain ⟨j, hj⟩ := List.mem_iff_getElem?.mp hq
    have hjl : j < a.particles.length := by
      rw [← hlen]; exact (List.getElem?_eq_some.mp hj).1
    have hpj : a.particles[j]? = some a.particles[j] := List.getElem?_eq_getElem hjl
    have hpin : InBounds a.particles[j] := hinv _ (List.getElem_mem hjl)
    obtain ⟨hkeep, hnew⟩ := hslots j _ hpj
    by_cases hy : (advance a.particles[j]).y < -50
    · obtain ⟨k, r, _, hr2, hget⟩ := hnew hy
      have hqr : q = r := by rw [hj] at hget; exact Option.some.inj hget
      rw [hqr]
      exact inBounds_of_createParticle a (pg.seek k) _ false r hr hr2
    · have hget := hkeep hy
      have hqr : q = advance a.particles[j] := by rw [hj] at hget; exact Option.some.inj hget
      rw [hqr]
      exact inBounds_advance _ hpin

theorem destroy_eq (a : Animator) (pg : Page) :
    ∃ pg1 : Page, destroy a pg = .ok (a, pg1) ∧ pg1.rnd = pg.rnd ∧
      pg1.surface = pg.surface := by
  unfold destroy
  cases a.animationFrameId with
  | none => exact ⟨pg, rfl, rfl, rfl⟩
  | some id =>
    by_cases h0 : id ≠ 0
    · exact ⟨{ pg with pending := pg.pending.filter (fun j => j ≠ id) },
        by simp only [if_pos h0], rfl, rfl⟩
    · exact ⟨pg, by simp only [if_neg h0], rfl, rfl⟩

/-! ## The update of a particle that stays on screen -/

/-- C10: a particle with `y - speed ≥ -50` (equality included) stays in its
slot through one `animate()` call, with `y` decreased by its speed, `angle`
increased by `0.0008`, and `x`, `text`, `size`, `opacity`, `speed` unchanged. -/
theorem animate_advances_onscreen (a : Animator) (pg : Page) (cv : Canvas) (i : ℕ)
    (p : Particle) (hc : a.canvas = some cv) (hp : a.particles[i]? = some p)
    (hy : -50 ≤ p.y - p.speed) :
    ∃ (a1 : Animator) (pg1 : Page) (q : Particle),
      animate a pg = .ok (a1, pg1) ∧ a1.particles[i]? = some q ∧
      q.y = p.y - p.speed ∧ q.angle = p.angle + 0.0008 ∧
      q.x = p.x ∧ q.text = p.text ∧ q.size = p.size ∧ q.opacity = p.opacity ∧
      q.speed = p.speed := by
  obtain ⟨a1, pg1, hrun, _, _, _, _, _, _, _, _, _, hslots⟩ := animate_spec a pg cv hc
  have hadv : ¬ (advance p).y < -50 := by
    show ¬ (p.y - p.speed < -50)
    exact not_lt.mpr hy
  exact ⟨a1, pg1, advance p, hrun, (hslots i p hp).1 hadv, rfl, rfl, rfl, rfl, rfl, rfl, rfl⟩

theorem animate_advances_onscreen_witness :
    animator1.canvas = some { width := 800, height := 600 } ∧
    animator1.particles[1]? = some nearTop ∧ nearTop.y - nearTop.speed = -50 ∧
    ∃ (a1 : Animator) (pg1 : Page) (q : Particle),
      animate animator1 page0 = .ok (a1, pg1) ∧ a1.particles[1]? = some q ∧
      q.y = nearTop.y - nearTop.speed ∧ q.angle = nearTop.angle + 0.0008 ∧
      q.x = nearTop.x ∧ q.text = nearTop.text ∧ q.size = nearTop.size ∧
      q.opacity = nearTop.opacity ∧ q.speed = nearTop.speed :=
  ⟨rfl, rfl, by norm_num [nearTop],
    animate_advances_onscreen animator1 page0 { width := 800, height := 600 } 1 nearTop rfl rfl
      (by norm_num [nearTop])⟩

/-! ## `draw` only writes to the surface -/

theorem emit_nil (pg : Page) : pg.emit [] = pg := by
  unfold Page.emit
  simp

theorem emit_emit (pg : Page) (o1 o2 : List DrawOp) :
    (pg.emit o1).emit o2 = pg.emit (o1 ++ o2) := by
  unfold Page.emit
  simp [List.append_assoc]

/-- The loop of `draw()` hands back the animator it was given and appends the
commands of the remaining particles. -/
theorem drawLoop_eq (color : String) :
    ∀ (n : ℕ) (a : Animator) (pg : Page) (i : ℕ), a.particles.length - i = n →
      State.drawLoop color n a pg i =
        (a, pg.emit ((a.particles.drop i).map (drawParticle color)).flatten) := by
  intro n
  induction n with
  | zero =>
    intro a pg i h
    have hd : a.particles.drop i = [] := List.drop_eq_nil_of_le (by omega)
    simp only [State.drawLoop, hd, List.map_nil, List.flatten_nil, emit_nil]
  | succ n ih =>
    intro a pg i h
    have hi : i < a.particles.length := by omega
    have hg : a.particles[i]? = some a.particles[i] := List.getElem?_eq_getElem hi
    have hd : a.particles.drop i = a.particles[i] :: a.particles.drop (i + 1) :=
      List.drop_eq_getElem_cons hi
    simp only [State.drawLoop, hg]
    rw [ih a _ (i + 1) (by omega), emit_emit, hd]
    simp only [List.map_cons, List.flatten_cons]

/-- The state-passing `draw()` returns the animator unchanged, next to the page
that `draw` computes. -/
theorem draw_state_eq (a : Animator) (pg : Page) :
    State.draw a pg = (draw a pg).map (fun pg1 => (a, pg1)) := by
  unfold State.draw draw
  cases hx : a.ctx with
  | false => rfl
  | true =>
    cases hc : a.canvas with
    | none => rfl
    | some cv =>
      simp only [Bool.not_true, Bool.false_eq_true, if_false, emit_theme]
      rw [drawLoop_eq _ a.particles.length a _ 0 (by omega), emit_emit]
      simp only [List.drop_zero, Except.map, Page.emit, List.append_assoc]

theorem paint_length (a : Animator) (cv : Canvas) (theme : Option String) :
    (a.ctx = false → paint a cv theme = []) ∧
    (a.ctx = true → (paint a cv theme).length = 1 + 7 * a.particles.length) := by
  constructor
  · intro hx
    unfold paint
    simp [hx]
  · intro hx
    unfold paint
    simp only [hx, if_true, List.length_cons]
    have hl : ∀ (c : String) (ps : List Particle),
        ((ps.map (drawParticle c)).flatten).length = 7 * ps.length := by
      intro c ps
      induction ps with
      | nil => rfl
      | cons q qs ih =>
        simp only [List.map_cons, List.flatten_cons, List.length_append, ih, List.length_cons]
        simp only [drawParticle, List.length_cons, List.length_nil]
        omega
    rw [hl]
    omega

/-- C11: in state-passing form `draw()` returns, for every animator state, the
very animator it was called on: the particle collection (length, order and
every field of every particle), the catalog and `animationFrameId` are after
the call what they were before.  The page differs only by commands appended
to the surface: none without a context, one `clearRect` and seven per particle
with one.  In the state with a context but no canvas, which the constructor
never builds, the call raises a `TypeError`, again with nothing written. -/
theorem draw_keeps_animator (a : Animator) (pg : Page) :
    (∃ (a1 : Animator) (pg1 : Page) (ops : List DrawOp),
      State.draw a pg = .ok (a1, pg1) ∧ a1 = a ∧
      a1.particles = a.particles ∧ a1.symbols = a.symbols ∧
      a1.animationFrameId = a.animationFrameId ∧
      pg1 = pg.emit ops ∧ draw a pg = .ok pg1 ∧
      (a.ctx = false → ops = []) ∧
      (a.ctx = true → ops.length = 1 + 7 * a.particles.length)) ∨
    (a.ctx = true ∧ a.canvas = none ∧
      State.draw a pg =
        .error (.typeError "Cannot read properties of null (reading width)")) := by
  cases hc : a.canvas with
  | none =>
    cases hx : a.ctx with
    | false =>
      left
      have hd : draw a pg = .ok pg := draw_no_ctx a pg hx
      refine ⟨a, pg, [], ?_, rfl, rfl, rfl, rfl, (emit_nil pg).symm, hd, fun _ => rfl,
        fun h => by cases h⟩
      rw [draw_state_eq, hd]
      rfl
    | true =>
      right
      refine ⟨rfl, rfl, ?_⟩
      unfold State.draw
      simp [hx, hc]
  | some cv =>
    left
    have hd := draw_eq a pg cv hc
    obtain ⟨l1, l2⟩ := paint_length a cv pg.theme
    refine ⟨a, pg.emit (paint a cv pg.theme), paint a cv pg.theme, ?_, rfl, rfl, rfl, rfl, rfl,
      hd, l1, l2⟩
    rw [draw_state_eq, hd]
    rfl

/-! ## `destroy` twice -/

/-- C12: `destroy()` with `animationFrameId` null changes nothing; in every
state it returns without error, leaves the animator and the surface as they
were, and a second call in a row changes nothing at all. -/
theorem destroy_idempotent (a : Animator) (pg : Page) :
    (a.animationFrameId = none → destroy a pg = .ok (a, pg)) ∧
    ∃ pg1 : Page, destroy a pg = .ok (a, pg1) ∧ pg1.surface = pg.surface ∧
      destroy a pg1 = .ok (a, pg1) := by
  refine ⟨?_, ?_⟩
  · intro h
    unfold destroy
    rw [h]
  · unfold destroy
    cases a.animationFrameId with
    | none => exact ⟨pg, rfl, rfl, rfl⟩
    | some id =>
      by_cases h0 : id ≠ 0
      · refine ⟨{ pg with pending := pg.pending.filter (fun j => j ≠ id) }, ?_, rfl, ?_⟩
        · simp only [if_pos h0]
        · simp only [if_pos h0, List.filter_filter, Bool.and_self]
      · exact ⟨pg, by simp only [if_neg h0], rfl, by simp only [if_neg h0]⟩

/-! ## A resize replaces the whole field -/

theorem arrayFrom_congr (a b : Animator) (hc : a.canvas = b.canvas) (hs : a.symbols = b.symbols) :
    ∀ (n : ℕ) (pg : Page), arrayFrom a n pg = arrayFrom b n pg := by
  intro n
  induction n with
  | zero => intro pg; rfl
  | succ n ih =>
    intro pg
    simp only [arrayFrom, createParticle_congr a b pg true hc hs]
    cases createParticle b pg true with
    | error e => rfl
    | ok r =>
      obtain ⟨q, pg1⟩ := r
      simp only [ih pg1]

/-- The particles `resizeCanvas()` stores are those `arrayFrom` builds on the
resized canvas; the old collection is not read. -/
theorem resizeCanvas_particles (a : Animator) (pg : Page) (cv : Canvas)
    (hc : a.canvas = some cv) :
    ∃ (a1 : Animator) (pg1 pg2 : Page),
      resizeCanvas a pg = .ok (a1, pg1) ∧
      arrayFrom { a with canvas := some { width := pg.innerWidth, height := pg.innerHeight } }
        (pg.innerWidth * pg.innerHeight / 26000)
        (pg.emit [.setWidth pg.innerWidth, .setHeight pg.innerHeight]) = .ok (a1.particles, pg2) ∧
      a1.particles.length = pg.innerWidth * pg.innerHeight / 26000 := by
  obtain ⟨ps, hps, hlen, _⟩ :=
    arrayFrom_spec { a with canvas := some { width := pg.innerWidth, height := pg.innerHeight } }
      { width := pg.innerWidth, height := pg.innerHeight } rfl
      (pg.innerWidth * pg.innerHeight / 26000)
      (pg.emit [.setWidth pg.innerWidth, .setHeight pg.innerHeight])
  refine ⟨{ a with canvas := some { width := pg.innerWidth, height := pg.innerHeight },
                   particles := ps },
    ((pg.emit [.setWidth pg.innerWidth, .setHeight pg.innerHeight]).seek
        (pg.cursor + 7 * (pg.innerWidth * pg.innerHeight / 26000))).emit
      (paint { a with canvas := some { width := pg.innerWidth, height := pg.innerHeight },
                      particles := ps }
        { width := pg.innerWidth, height := pg.innerHeight } pg.theme),
    _, ?_, hps, hlen⟩
  unfold resizeCanvas
  simp only [hc, floor_count]
  have hps1 : arrayFrom
      { a with canvas := some { width := pg.innerWidth, height := pg.innerHeight } }
      (pg.innerWidth * pg.innerHeight / 26000)
      { pg with
        surface := pg.surface ++ [.setWidth pg.innerWidth, .setHeight pg.innerHeight] } = _ :=
    hps
  rw [hps1]
  simp only
  rw [draw_eq _ _ { width := pg.innerWidth, height := pg.innerHeight } rfl]
  rfl

/-- C13: two animators on a located canvas with the same catalog, whatever
their particle collections, hold identical collections of
`floor(w * h / 26000)` particles after `resizeCanvas()` on the same page
(same viewport, same random draws): nothing of the old collection is kept. -/
theorem resizeCanvas_forgets_particles (a b : Animator) (pg : Page) (cva cvb : Canvas)
    (ha : a.canvas = some cva) (hb : b.canvas = some cvb) (hs : a.symbols = b.symbols) :
    ∃ (a1 : Animator) (pa : Page) (b1 : Animator) (pb : Page),
      resizeCanvas a pg = .ok (a1, pa) ∧ resizeCanvas b pg = .ok (b1, pb) ∧
      a1.particles = b1.particles ∧
      a1.particles.length = pg.innerWidth * pg.innerHeight / 26000 := by
  obtain ⟨a1, pa, pa2, hra, hfa, hla⟩ := resizeCanvas_particles a pg cva ha
  obtain ⟨b1, pb, pb2, hrb, hfb, _⟩ := resizeCanvas_particles b pg cvb hb
  refine ⟨a1, pa, b1, pb, hra, hrb, ?_, hla⟩
  rw [arrayFrom_congr
    { a with canvas := some { width := pg.innerWidth, height := pg.innerHeight } }
    { b with canvas := some { width := pg.innerWidth, height := pg.innerHeight } } rfl hs] at hfa
  rw [hfa] at hfb
  injection hfb with h
  injection h with h1 _

theorem resizeCanvas_forgets_particles_witness :
    animator1.canvas = some { width := 800, height := 600 } ∧
    animator0.canvas = some { width := 300, height := 150 } ∧
    animator1.symbols = animator0.symbols ∧ animator1.particles ≠ animator0.particles ∧
    ∃ (a1 : Animator) (pa : Page) (b1 : Animator) (pb : Page),
      resizeCanvas animator1 { page0 with innerWidth := 400, innerHeight := 300 }
        = .ok (a1, pa) ∧
      resizeCanvas animator0 { page0 with innerWidth := 400, innerHeight := 300 }
        = .ok (b1, pb) ∧
      a1.particles = b1.particles ∧ a1.particles.length = 4 :=
  ⟨rfl, rfl, rfl, by simp [animator1, animator0],
    resizeCanvas_forgets_particles animator1 animator0
      { page0 with innerWidth := 400, innerHeight := 300 }
      { width := 800, height := 600 } { width := 300, height := 150 } rfl rfl rfl⟩

/-- C14: in every state, two `resizeCanvas()` calls in a row, the viewport
unchanged, both return and the second leaves a collection of the same length
as the first. -/
theorem resizeCanvas_twice_count (a : Animator) (pg : Page) :
    ∃ (a1 : Animator) (pg1 : Page) (a2 : Animator) (pg2 : Page),
      resizeCanvas a pg = .ok (a1, pg1) ∧ resizeCanvas a1 pg1 = .ok (a2, pg2) ∧
      pg1.innerWidth = pg.innerWidth ∧ pg1.innerHeight = pg.innerHeight ∧
      a2.particles.length = a1.particles.length := by
  cases hc : a.canvas with
  | none =>
    exact ⟨a, pg, a, pg, resizeCanvas_none a pg hc, resizeCanvas_none a pg hc, rfl, rfl, rfl⟩
  | some cv =>
    obtain ⟨a1, pg1, h1, hc1, _, _, _, hl1, hext, _⟩ := resizeCanvas_spec a pg cv hc
    obtain ⟨a2, pg2, h2, _, _, _, _, hl2, _⟩ := resizeCanvas_spec a1 pg1 _ hc1
    refine ⟨a1, pg1, a2, pg2, h1, h2, hext.innerWidth, hext.innerHeight, ?_⟩
    rw [hl2, hl1, hext.innerWidth, hext.innerHeight]

/-! ## Pending frame callbacks -/

theorem fireResize_pending (n : ℕ) :
    ∀ (a : Animator) (pg : Page), ∃ (a1 : Animator) (pg1 : Page),
      fireResize a pg n = .ok (a1, pg1) ∧ pg1.pending = pg.pending := by
  induction n with
  | zero => intro a pg; exact ⟨a, pg, rfl, rfl⟩
  | succ n ih =>
    intro a pg
    cases hc : a.canvas with
    | none =>
      obtain ⟨a2, pg2, h2, hp2⟩ := ih a pg
      exact ⟨a2, pg2, by simp only [fireResize, resizeCanvas_none a pg hc, h2], hp2⟩
    | some cv =>
      obtain ⟨a1, pg1, h1, _, _, _, _, _, _, _, hp1, _⟩ := resizeCanvas_spec a pg cv hc
      obtain ⟨a2, pg2, h2, hp2⟩ := ih a1 pg1
      exact ⟨a2, pg2, by simp only [fireResize, h1, h2], hp2.trans hp1⟩

theorem step_pending (a : Animator) (pg : Page) (e : Event) (hp : pg.pending.length ≤ 1) :
    ∃ (a1 : Animator) (pg1 : Page),
      step a pg e = .ok (a1, pg1) ∧ pg1.pending.length ≤ 1 := by
  cases e with
  | frame id =>
    by_cases hid : id ∈ pg.pending
    · have herase : (pg.pending.erase id).length = 0 := by
        rw [List.length_erase_of_mem hid]
        omega
      cases hc : a.canvas with
      | none =>
        refine ⟨a, { pg with pending := pg.pending.erase id }, ?_, ?_⟩
        · simp only [step, if_pos hid]
          exact animate_none a _ hc
        · show (pg.pending.erase id).length ≤ 1
          omega
      | some cv =>
        obtain ⟨a1, pg1, h1, _, _, _, _, _, _, _, hp1, _⟩ :=
          animate_spec a { pg with pending := pg.pending.erase id } cv hc
        refine ⟨a1, pg1, by simp only [step, if_pos hid, h1], ?_⟩
        rw [hp1]
        show (pg.pending.erase id ++ [pg.nextHandle]).length ≤ 1
        rw [List.length_append, herase]
        rfl
    · exact ⟨a, pg, by simp only [step, if_neg hid], hp⟩
  | resize w h =>
    obtain ⟨a1, pg1, h1, hp1⟩ :=
      fireResize_pending pg.resizeListeners a { pg with innerWidth := w, innerHeight := h }
    refine ⟨a1, pg1, h1, ?_⟩
    rw [hp1]
    exact hp
  | destroy =>
    unfold step destroy
    cases a.animationFrameId with
    | none => exact ⟨a, pg, rfl, hp⟩
    | some id =>
      by_cases h0 : id ≠ 0
      · refine ⟨a, { pg with pending := pg.pending.filter (fun j => j ≠ id) },
          by simp only [if_pos h0], ?_⟩
        exact le_trans (List.length_filter_le _ _) hp
      · exact ⟨a, pg, by simp only [if_neg h0], hp⟩

theorem run_pending (es : List Event) :
    ∀ (a : Animator) (pg : Page), pg.pending.length ≤ 1 →
      ∃ (a1 : Animator) (pg1 : Page),
        run a pg es = .ok (a1, pg1) ∧ pg1.pending.length ≤ 1 := by
  induction es with
  | nil => intro a pg hp; exact ⟨a, pg, rfl, hp⟩
  | cons e es ih =>
    intro a pg hp
    obtain ⟨a1, pg1, h1, hp1⟩ := step_pending a pg e hp
    obtain ⟨a2, pg2, h2, hp2⟩ := ih a1 pg1 hp1
    exact ⟨a2, pg2, by simp only [run, h1, h2], hp2⟩

theorem new_pending (found : Option (Canvas × Bool)) (pg : Page) (hp : pg.pending = []) :
    ∃ (a1 : Animator) (pg1 : Page),
      new found pg = .ok (a1, pg1) ∧ pg1.pending.length ≤ 1 := by
  cases found with
  | none => exact ⟨_, pg, rfl, by rw [hp]; exact Nat.zero_le _⟩
  | some f =>
    obtain ⟨cv, has2d⟩ := f
    obtain ⟨a1, pg1, h1, hc1, _, _, _, _, _, _, hp1, _⟩ :=
      resizeCanvas_spec
        { canvas := some cv, ctx := has2d, symbols := symbols, particles := [],
          animationFrameId := none } pg cv rfl
    obtain ⟨a2, pg2, h2, _, _, _, _, _, _, _, hp2, _⟩ :=
      animate_spec a1 { pg1 with resizeListeners := pg1.resizeListeners + 1 } _ hc1
    have hinit := init_eq _ pg cv a1 pg1 rfl h1
    rw [h2] at hinit
    refine ⟨a2, pg2, hinit, ?_⟩
    rw [hp2]
    show (pg1.pending ++ [pg1.nextHandle]).length ≤ 1
    rw [hp1, hp]
    rfl

/-- C15: started on a page with no callback pending, every state reached from
construction by frame, resize and destroy events has at most one frame
callback pending; `animate()` on a located canvas adds exactly one request,
whose handle it stores, and `resizeCanvas()` adds none. -/
theorem at_most_one_pending (pg : Page) (hp : pg.pending = []) :
    (∀ (found : Option (Canvas × Bool)) (es : List Event),
      ∃ (a0 : Animator) (pg0 : Page) (a1 : Animator) (pg1 : Page),
        new found pg = .ok (a0, pg0) ∧ run a0 pg0 es = .ok (a1, pg1) ∧
          pg1.pending.length ≤ 1) ∧
    (∀ (a : Animator) (p : Page) (cv : Canvas), a.canvas = some cv →
      ∃ (a1 : Animator) (p1 : Page),
        animate a p = .ok (a1, p1) ∧ p1.pending = p.pending ++ [p.nextHandle] ∧
          a1.animationFrameId = some p.nextHandle) ∧
    (∀ (a : Animator) (p : Page),
      ∃ (a1 : Animator) (p1 : Page),
        resizeCanvas a p = .ok (a1, p1) ∧ p1.pending = p.pending) := by
  refine ⟨?_, ?_, ?_⟩
  · intro found es
    obtain ⟨a0, pg0, h0, hp0⟩ := new_pending found pg hp
    obtain ⟨a1, pg1, h1, hp1⟩ := run_pending es a0 pg0 hp0
    exact ⟨a0, pg0, a1, pg1, h0, h1, hp1⟩
  · intro a p cv hc
    obtain ⟨a1, p1, h1, _, _, _, hf, _, _, _, hp1, _⟩ := animate_spec a p cv hc
    exact ⟨a1, p1, h1, hp1, hf⟩
  · intro a p
    cases hc : a.canvas with
    | none => exact ⟨a, p, resizeCanvas_none a p hc, rfl⟩
    | some cv =>
      obtain ⟨a1, p1, h1, _, _, _, _, _, _, _, hp1, _⟩ := resizeCanvas_spec a p cv hc
      exact ⟨a1, p1, h1, hp1⟩

theorem at_most_one_pending_witness :
    page0.pending = [] ∧
    ∃ (a0 : Animator) (pg0 : Page) (a1 : Animator) (pg1 : Page),
      new (some ({ width := 300, height := 150 }, true)) page0 = .ok (a0, pg0) ∧
      run a0 pg0 [.frame 1, .resize 400 300, .frame 2, .destroy, .frame 3] = .ok (a1, pg1) ∧
        pg1.pending.length ≤ 1 :=
  ⟨rfl, (at_most_one_pending page0 rfl).1 (some ({ width := 300, height := 150 }, true))
    [.frame 1, .resize 400 300, .frame 2, .destroy, .frame 3]⟩

end CanvasAnimation

namespace Double

/-! ## Rounding to binary64 -/

theorem roundEven_cases (x : ℚ) :
    (roundEven x = ⌊x⌋ ∧ 2 * Int.fract x ≤ 1) ∨ (roundEven x = ⌊x⌋ + 1 ∧ 1 ≤ 2 * Int.fract x) := by
  unfold roundEven
  by_cases h1 : 2 * Int.fract x < 1
  · left; simp only [if_pos h1]; exact ⟨trivial, le_of_lt h1⟩
  · by_cases h2 : 1 < 2 * Int.fract x
    · right; simp only [if_neg h1, if_pos h2]; exact ⟨trivial, le_of_lt h2⟩
    · have he : 2 * Int.fract x = 1 := le_antisymm (not_lt.mp h2) (not_lt.mp h1)
      by_cases h3 : ⌊x⌋ % 2 = 0
      · left; simp only [if_neg h1, if_neg h2, if_pos h3]; exact ⟨trivial, le_of_eq he⟩
      · right; simp only [if_neg h1, if_neg h2, if_neg h3]; exact ⟨trivial, le_of_eq he.symm⟩

theorem roundEven_near (x : ℚ) : |(roundEven x : ℚ) - x| ≤ 1 / 2 := by
  have hf := Int.self_sub_floor x
  have h0 := Int.fract_nonneg x
  have h1 := Int.fract_lt_one x
  rcases roundEven_cases x with ⟨h, hh⟩ | ⟨h, hh⟩
  · rw [h, abs_le]
    constructor <;> linarith
  · rw [h, abs_le]
    push_cast
    constructor <;> linarith

theorem roundEven_eq_of_abs_lt (x : ℚ) (n : ℤ) (h : |x - n| < 1 / 2) : roundEven x = n := by
  have h1 := roundEven_near x
  rw [abs_le] at h1
  rw [abs_lt] at h
  have h2 : ((roundEven x : ℤ) : ℚ) < (n : ℚ) + 1 := by linarith
  have h3 : (n : ℚ) - 1 < ((roundEven x : ℤ) : ℚ) := by linarith
  have h4 : roundEven x < n + 1 := by exact_mod_cast h2
  have h5 : n - 1 < roundEven x := by exact_mod_cast h3
  omega

theorem roundEven_intCast (n : ℤ) : roundEven (n : ℚ) = n :=
  roundEven_eq_of_abs_lt _ n (by simp)

theorem roundEven_mono {x y : ℚ} (h : x ≤ y) : roundEven x ≤ roundEven y := by
  rcases eq_or_lt_of_le h with he | hlt
  · rw [he]
  · by_contra hc
    have hc1 : roundEven y + 1 ≤ roundEven x := by omega
    have hc2 : ((roundEven y : ℤ) : ℚ) + 1 ≤ ((roundEven x : ℤ) : ℚ) := by exact_mod_cast hc1
    have h1 := roundEven_near x
    have h2 := roundEven_near y
    rw [abs_le] at h1 h2
    linarith

/-- A tie above an even integer goes down to it. -/
theorem roundEven_tie_down (x : ℚ) (n : ℤ) (hx : x = n + 1 / 2) (hn : n % 2 = 0) :
    roundEven x = n := by
  have hfl : ⌊x⌋ = n := by
    rw [Int.floor_eq_iff]
    constructor <;> linarith
  have hfr : Int.fract x = 1 / 2 := by
    rw [Int.fract, hfl, hx]; ring
  unfold roundEven
  rw [hfr, hfl]
  norm_num [hn]

/-- A tie below an even integer goes up to it. -/
theorem roundEven_tie_up (x : ℚ) (n : ℤ) (hx : x = n - 1 / 2) (hn : n % 2 = 0) :
    roundEven x = n := by
  have hfl : ⌊x⌋ = n - 1 := by
    rw [Int.floor_eq_iff]
    push_cast
    constructor <;> linarith
  have hfr : Int.fract x = 1 / 2 := by
    rw [Int.fract, hfl, hx]; push_cast; ring
  have hodd : ¬ (n - 1) % 2 = 0 := by omega
  unfold roundEven
  rw [hfr, hfl]
  norm_num [hodd]

theorem two_zpow_pos (e : ℤ) : (0 : ℚ) < 2 ^ e := by positivity

theorem log_eq (q : ℚ) (e : ℤ) (h1 : 2 ^ e ≤ q) (h2 : q < 2 ^ (e + 1)) : Int.log 2 q = e := by
  have hq : 0 < q := lt_of_lt_of_le (two_zpow_pos e) h1
  have h3 : e ≤ Int.log 2 q := (Int.zpow_le_iff_le_log (by norm_num) hq).mp (by exact_mod_cast h1)
  have h4 : Int.log 2 q < e + 1 := (Int.lt_zpow_iff_log_lt (by norm_num) hq).mp (by exact_mod_cast h2)
  omega

/-- Evaluation of `fl` in the normal range, from the binade of the argument. -/
theorem fl_eq (q : ℚ) (e n : ℤ) (he : -1022 ≤ e) (h1 : 2 ^ e ≤ |q|) (h2 : |q| < 2 ^ (e + 1))
    (hn : roundEven (q / 2 ^ (e - 52)) = n) : fl q = n * 2 ^ (e - 52) := by
  have hu : ulpExp q = e - 52 := by
    unfold ulpExp
    rw [log_eq |q| e h1 h2]
    omega
  unfold fl
  rw [hu, hn]

theorem fl_zero : fl 0 = 0 := by
  unfold fl roundEven
  simp

theorem fl_nonneg {q : ℚ} (h : 0 ≤ q) : 0 ≤ fl q := by
  unfold fl
  have h1 : (0 : ℚ) ≤ q / 2 ^ ulpExp q := div_nonneg h (le_of_lt (two_zpow_pos _))
  have h2 : roundEven ((0 : ℤ) : ℚ) ≤ roundEven (q / 2 ^ ulpExp q) :=
    roundEven_mono (by simpa using h1)
  rw [roundEven_intCast] at h2
  have h3 : (0 : ℚ) ≤ (roundEven (q / 2 ^ ulpExp q) : ℚ) := by exact_mod_cast h2
  exact mul_nonneg h3 (le_of_lt (two_zpow_pos _))

theorem ulpExp_mono {q1 q2 : ℚ} (h0 : 0 < q1) (h : q1 ≤ q2) : ulpExp q1 ≤ ulpExp q2 := by
  unfold ulpExp
  have h1 : Int.log 2 |q1| ≤ Int.log 2 |q2| := by
    rw [abs_of_pos h0, abs_of_pos (lt_of_lt_of_le h0 h)]
    exact Int.log_mono_right h0 h
  omega

/-- Below the top of its binade: `q < 2^(ulpExp q + 53)`. -/
theorem lt_top (q : ℚ) (h0 : 0 < q) : q < 2 ^ (ulpExp q + 53) := by
  have h1 : q < ((2 : ℕ) : ℚ) ^ (Int.log 2 q + 1) := Int.lt_zpow_succ_log_self (by norm_num) q
  have h2 : Int.log 2 q + 1 ≤ ulpExp q + 53 := by
    unfold ulpExp
    rw [abs_of_pos h0]
    omega
  have h3 : ((2 : ℕ) : ℚ) ^ (Int.log 2 q + 1) ≤ ((2 : ℕ) : ℚ) ^ (ulpExp q + 53) :=
    zpow_le_zpow_right₀ (by norm_num) h2
  exact_mod_cast lt_of_lt_of_le h1 h3

theorem fl_le_top (q : ℚ) (h0 : 0 < q) : fl q ≤ 2 ^ (ulpExp q + 53) := by
  unfold fl
  have hp := two_zpow_pos (ulpExp q)
  have h1 : q / 2 ^ ulpExp q ≤ (((2 : ℤ) ^ 53 : ℤ) : ℚ) := by
    rw [div_le_iff₀ hp]
    have := lt_top q h0
    rw [zpow_add₀ (by norm_num)] at this
    push_cast
    have e : (2 : ℚ) ^ (53 : ℤ) = 2 ^ 53 := by norm_cast
    rw [e] at this
    linarith
  have h2 := roundEven_mono h1
  rw [roundEven_intCast] at h2
  have h3 : (roundEven (q / 2 ^ ulpExp q) : ℚ) ≤ (((2 : ℤ) ^ 53 : ℤ) : ℚ) := by exact_mod_cast h2
  have h4 := mul_le_mul_of_nonneg_right h3 (le_of_lt hp)
  refine le_trans h4 (le_of_eq ?_)
  rw [zpow_add₀ (by norm_num)]
  push_cast
  have e : (2 : ℚ) ^ (53 : ℤ) = 2 ^ 53 := by norm_cast
  rw [e]
  ring

/-- In the normal range `fl q` is at least the bottom of the binade of `q`. -/
theorem bottom_le_fl (q : ℚ) (h0 : 0 < q) (hn : -1074 < ulpExp q) :
    (2 : ℚ) ^ (ulpExp q + 52) ≤ fl q := by
  have hu : ulpExp q = Int.log 2 q - 52 := by
    unfold ulpExp at hn ⊢
    rw [abs_of_pos h0] at hn ⊢
    omega
  have hb : ((2 : ℕ) : ℚ) ^ Int.log 2 q ≤ q := Int.zpow_log_le_self (by norm_num) h0
  have hb1 : (2 : ℚ) ^ (ulpExp q + 52) ≤ q := by
    have e : ulpExp q + 52 = Int.log 2 q := by omega
    rw [e]
    exact_mod_cast hb
  unfold fl
  have hp := two_zpow_pos (ulpExp q)
  have h1 : (((2 : ℤ) ^ 52 : ℤ) : ℚ) ≤ q / 2 ^ ulpExp q := by
    rw [le_div_iff₀ hp]
    rw [zpow_add₀ (by norm_num)] at hb1
    push_cast
    have e : (2 : ℚ) ^ (52 : ℤ) = 2 ^ 52 := by norm_cast
    rw [e] at hb1
    linarith
  have h2 := roundEven_mono h1
  rw [roundEven_intCast] at h2
  have h3 : (((2 : ℤ) ^ 52 : ℤ) : ℚ) ≤ (roundEven (q / 2 ^ ulpExp q) : ℚ) := by exact_mod_cast h2
  have h4 := mul_le_mul_of_nonneg_right h3 (le_of_lt hp)
  refine le_trans (le_of_eq ?_) h4
  rw [zpow_add₀ (by norm_num)]
  push_cast
  have e : (2 : ℚ) ^ (52 : ℤ) = 2 ^ 52 := by norm_cast
  rw [e]
  ring

/-- Rounding is monotone on non-negative values. -/
theorem fl_mono {q1 q2 : ℚ} (h0 : 0 ≤ q1) (h : q1 ≤ q2) : fl q1 ≤ fl q2 := by
  rcases eq_or_lt_of_le h0 with hz | hpos
  · rw [← hz, fl_zero]
    exact fl_nonneg (le_trans h0 h)
  · have hpos2 : 0 < q2 := lt_of_lt_of_le hpos h
    have hu := ulpExp_mono hpos h
    rcases eq_or_lt_of_le hu with he | hlt
    · unfold fl
      rw [← he]
      have hp := two_zpow_pos (ulpExp q1)
      have h1 : q1 / 2 ^ ulpExp q1 ≤ q2 / 2 ^ ulpExp q1 := div_le_div_of_nonneg_right h (le_of_lt hp)
      have h2 := roundEven_mono h1
      have h3 : (roundEven (q1 / 2 ^ ulpExp q1) : ℚ) ≤ (roundEven (q2 / 2 ^ ulpExp q1) : ℚ) := by
        exact_mod_cast h2
      exact mul_le_mul_of_nonneg_right h3 (le_of_lt hp)
    · have hlow : -1074 ≤ ulpExp q1 := by unfold ulpExp; omega
      have h1 := fl_le_top q1 hpos
      have h2 := bottom_le_fl q2 hpos2 (by omega)
      have h3 : (2 : ℚ) ^ (ulpExp q1 + 53) ≤ 2 ^ (ulpExp q2 + 52) :=
        zpow_le_zpow_right₀ (by norm_num) (by omega)
      linarith

/-- Evaluation of `fl` at a positive value of the normal range. -/
theorem fl_pos (q : ℚ) (e n : ℤ) (he : -1022 ≤ e) (h1 : 2 ^ e ≤ q) (h2 : q < 2 ^ (e + 1))
    (hn : roundEven (q / 2 ^ (e - 52)) = n) : fl q = n * 2 ^ (e - 52) := by
  have hq : 0 < q := lt_of_lt_of_le (two_zpow_pos e) h1
  exact fl_eq q e n he (by rw [abs_of_pos hq]; exact h1) (by rw [abs_of_pos hq]; exact h2) hn

/-- Evaluation of `fl` at a negative value of the normal range. -/
theorem fl_neg (q : ℚ) (e n : ℤ) (he : -1022 ≤ e) (h1 : 2 ^ e ≤ -q) (h2 : -q < 2 ^ (e + 1))
    (hn : roundEven (q / 2 ^ (e - 52)) = n) : fl q = n * 2 ^ (e - 52) := by
  have hq : q < 0 := by linarith [lt_of_lt_of_le (two_zpow_pos e) h1]
  exact fl_eq q e n he (by rw [abs_of_neg hq]; exact h1) (by rw [abs_of_neg hq]; exact h2) hn

/-- A positive value on the grid of its binade is its own rounding. -/
theorem fl_exact (q : ℚ) (e n : ℤ) (he : -1022 ≤ e) (h1 : 2 ^ e ≤ q) (h2 : q < 2 ^ (e + 1))
    (hq : q = n * 2 ^ (e - 52)) : fl q = q := by
  have hn : roundEven (q / 2 ^ (e - 52)) = n := by
    apply roundEven_eq_of_abs_lt
    rw [hq, mul_div_assoc, div_self (ne_of_gt (two_zpow_pos _))]
    norm_num
  rw [fl_pos q e n he h1 h2 hn, ← hq]

/-- Evaluation of `fl` at a positive value that is no tie. -/
theorem fl_val (q v : ℚ) (e n : ℤ) (he : -1022 ≤ e) (h1 : 2 ^ e ≤ q) (h2 : q < 2 ^ (e + 1))
    (hn : |q / 2 ^ (e - 52) - n| < 1 / 2) (hv : (n : ℚ) * 2 ^ (e - 52) = v) : fl q = v := by
  rw [fl_pos q e n he h1 h2 (roundEven_eq_of_abs_lt _ n hn), hv]

/-- Evaluation of `fl` at a negative value that is no tie. -/
theorem fl_val_neg (q v : ℚ) (e n : ℤ) (he : -1022 ≤ e) (h1 : 2 ^ e ≤ -q)
    (h2 : -q < 2 ^ (e + 1)) (hn : |q / 2 ^ (e - 52) - n| < 1 / 2)
    (hv : (n : ℚ) * 2 ^ (e - 52) = v) : fl q = v := by
  rw [fl_neg q e n he h1 h2 (roundEven_eq_of_abs_lt _ n hn), hv]

/-- Evaluation of `fl` at a positive tie below an even multiple of the spacing. -/
theorem fl_val_up (q v : ℚ) (e n : ℤ) (he : -1022 ≤ e) (h1 : 2 ^ e ≤ q) (h2 : q < 2 ^ (e + 1))
    (hx : q / 2 ^ (e - 52) = n - 1 / 2) (hn : n % 2 = 0) (hv : (n : ℚ) * 2 ^ (e - 52) = v) :
    fl q = v := by
  rw [fl_pos q e n he h1 h2 (roundEven_tie_up _ n hx hn), hv]

/-- Evaluation of `fl` at a positive tie above an even multiple of the spacing. -/
theorem fl_val_down (q v : ℚ) (e n : ℤ) (he : -1022 ≤ e) (h1 : 2 ^ e ≤ q)
    (h2 : q < 2 ^ (e + 1)) (hx : q / 2 ^ (e - 52) = n + 1 / 2) (hn : n % 2 = 0)
    (hv : (n : ℚ) * 2 ^ (e - 52) = v) : fl q = v := by
  rw [fl_pos q e n he h1 h2 (roundEven_tie_down _ n hx hn), hv]

/-! ### The constants of the animation -/

theorem fl_one : fl 1 = 1 :=
  fl_exact 1 0 (2 ^ 52) (by norm_num) (by norm_num) (by norm_num) (by norm_num)

theorem fl_11 : fl 11 = 11 :=
  fl_exact 11 3 (11 * 2 ^ 49) (by norm_num) (by norm_num) (by norm_num) (by norm_num)

theorem fl_12 : fl 12 = 12 :=
  fl_exact 12 3 (12 * 2 ^ 49) (by norm_num) (by norm_num) (by norm_num) (by norm_num)

theorem fl_23 : fl 23 = 23 :=
  fl_exact 23 4 (23 * 2 ^ 48) (by norm_num) (by norm_num) (by norm_num) (by norm_num)

theorem fl_620 : fl 620 = 620 :=
  fl_exact 620 9 (620 * 2 ^ 43) (by norm_num) (by norm_num) (by norm_num) (by norm_num)

theorem fl_26000 : fl 26000 = 26000 :=
  fl_exact 26000 14 (26000 * 2 ^ 38) (by norm_num) (by norm_num) (by norm_num) (by norm_num)

theorem fl_quarter : fl 0.25 = 0.25 :=
  fl_exact 0.25 (-2) (2 ^ 52) (by norm_num) (by norm_num) (by norm_num) (by norm_num)

/-- The binary64 value of the literal `0.1`. -/
theorem fl_tenth : fl 0.1 = 3602879701896397 / 36028797018963968 :=
  fl_val 0.1 _ (-4) 7205759403792794 (by norm_num) (by norm_num) (by norm_num)
    (by norm_num [abs_lt]) (by norm_num)

/-- The binary64 value of the literal `0.035`. -/
theorem fl_035 : fl 0.035 = 1261007895663739 / 36028797018963968 :=
  fl_val 0.035 _ (-5) 5044031582654956 (by norm_num) (by norm_num) (by norm_num)
    (by norm_num [abs_lt]) (by norm_num)

/-- The binary64 value of the literal `0.135`. -/
theorem fl_135 : fl 0.135 = 607985949695017 / 4503599627370496 :=
  fl_val 0.135 _ (-3) 4863887597560136 (by norm_num) (by norm_num) (by norm_num)
    (by norm_num [abs_lt]) (by norm_num)

/-- The binary64 value of the literal `0.35`, which lies below `0.35`. -/
theorem fl_35 : fl 0.35 = 3152519739159347 / 9007199254740992 :=
  fl_val 0.35 _ (-2) 6305039478318694 (by norm_num) (by norm_num) (by norm_num)
    (by norm_num [abs_lt]) (by norm_num)

theorem fl_tenth_idem :
    fl (3602879701896397 / 36028797018963968) = 3602879701896397 / 36028797018963968 :=
  fl_exact _ (-4) 7205759403792794 (by norm_num) (by norm_num) (by norm_num) (by norm_num)

theorem fl_035_idem :
    fl (1261007895663739 / 36028797018963968) = 1261007895663739 / 36028797018963968 :=
  fl_exact _ (-5) 5044031582654956 (by norm_num) (by norm_num) (by norm_num) (by norm_num)

/-- The largest opacity: `0.035 + 0.1` is the binary64 number `0.135`. -/
theorem fl_opacity_top :
    fl (1261007895663739 / 36028797018963968 + 3602879701896397 / 36028797018963968) =
      607985949695017 / 4503599627370496 :=
  fl_val _ _ (-3) 4863887597560136 (by norm_num) (by norm_num) (by norm_num)
    (by norm_num [abs_lt]) (by norm_num)

/-- The largest speed: `0.1 + 0.25` is a tie and rounds to the binary64 number
`0.35`. -/
theorem fl_speed_top :
    fl (3602879701896397 / 36028797018963968 + 0.25) = 3152519739159347 / 9007199254740992 :=
  fl_val_down _ _ (-2) 6305039478318694 (by norm_num) (by norm_num) (by norm_num)
    (by norm_num) (by norm_num) (by norm_num)

theorem fl_pi : fl (884279719003555 / 281474976710656) = 884279719003555 / 281474976710656 :=
  fl_exact _ 1 7074237752028440 (by norm_num) (by norm_num) (by norm_num) (by norm_num)

theorem fl_two_pi :
    fl (884279719003555 / 281474976710656 * 2) = 884279719003555 / 281474976710656 * 2 :=
  fl_exact _ 2 7074237752028440 (by norm_num) (by norm_num) (by norm_num) (by norm_num)

/-! ### The largest draw -/

theorem fl_top_times_12 : fl ((1 - 1 / 2 ^ 53) * 12) = 12 - 1 / 2 ^ 49 :=
  fl_val _ _ 3 (12 * 2 ^ 49 - 1) (by norm_num) (by norm_num) (by norm_num)
    (by norm_num [abs_lt]) (by norm_num)

/-- The sum `11 + (12 - 2^-49)` is a tie between `23 - 2^-48` and `23`. -/
theorem fl_size_top : fl (11 + (12 - 1 / 2 ^ 49)) = 23 :=
  fl_val_up _ _ 4 (23 * 2 ^ 48) (by norm_num) (by norm_num) (by norm_num)
    (by norm_num) (by norm_num) (by norm_num)

theorem fl_top_times_tenth :
    fl ((1 - 1 / 2 ^ 53) * (3602879701896397 / 36028797018963968)) =
      7205759403792793 / 72057594037927936 :=
  fl_val _ _ (-4) 7205759403792793 (by norm_num) (by norm_num) (by norm_num)
    (by norm_num [abs_lt]) (by norm_num)

/-- The sum `0.035 + (0.1 - 2^-56)` is a tie and rounds up to `0.135`. -/
theorem fl_opacity_at_top :
    fl (1261007895663739 / 36028797018963968 + 7205759403792793 / 72057594037927936) =
      607985949695017 / 4503599627370496 :=
  fl_val_up _ _ (-3) 4863887597560136 (by norm_num) (by norm_num) (by norm_num)
    (by norm_num) (by norm_num) (by norm_num)

theorem fl_top_times_quarter : fl ((1 - 1 / 2 ^ 53) * 0.25) = 0.25 - 1 / 2 ^ 55 :=
  fl_val _ _ (-3) (2 ^ 53 - 1) (by norm_num) (by norm_num) (by norm_num)
    (by norm_num [abs_lt]) (by norm_num)

theorem fl_speed_at_top :
    fl (3602879701896397 / 36028797018963968 + (0.25 - 1 / 2 ^ 55)) =
      3152519739159347 / 9007199254740992 :=
  fl_val _ _ (-2) 6305039478318694 (by norm_num) (by norm_num) (by norm_num)
    (by norm_num [abs_lt]) (by norm_num)

/-! ### Three updates towards the respawn line -/

theorem fl_drift_1 :
    fl (-1745813358675755 / 35184372088832 - 571957152676053 / 4503599627370496) =
      -7001127095724147 / 140737488355328 :=
  fl_val_neg _ _ 5 (-7001127095724147) (by norm_num) (by norm_num) (by norm_num)
    (by norm_num [abs_lt]) (by norm_num)

theorem fl_drift_2 :
    fl (-7001127095724147 / 140737488355328 - 571957152676053 / 4503599627370496) =
      -3509500378372637 / 70368744177664 :=
  fl_val_neg _ _ 5 (-7019000756745274) (by norm_num) (by norm_num) (by norm_num)
    (by norm_num [abs_lt]) (by norm_num)

theorem fl_drift_3 :
    fl (-3509500378372637 / 70368744177664 - 571957152676053 / 4503599627370496) =
      -7036874417766401 / 140737488355328 :=
  fl_val_neg _ _ 5 (-7036874417766401) (by norm_num) (by norm_num) (by norm_num)
    (by norm_num [abs_lt]) (by norm_num)

theorem fl_three_speeds :
    fl (3 * (571957152676053 / 4503599627370496)) = 1715871458028159 / 4503599627370496 :=
  fl_val _ _ (-2) 6863485832112636 (by norm_num) (by norm_num) (by norm_num)
    (by norm_num [abs_lt]) (by norm_num)

theorem fl_drift_direct :
    fl (-1745813358675755 / 35184372088832 - 1715871458028159 / 4503599627370496) = -50 :=
  fl_val_neg _ _ 5 (-7036874417766400) (by norm_num) (by norm_num) (by norm_num)
    (by norm_num [abs_lt]) (by norm_num)

end Double

namespace CanvasAnimation.Binary64

/-! ## The binary64 animator: spawn, loop, resize and frame -/

theorem createParticle_true_rounded (a : Animator) (pg : Page) (cv : Canvas)
    (hc : a.canvas = some cv) :
    createParticle a pg true =
      .ok ({ x := Double.fl (pg.rnd pg.cursor * cv.width)
             y := Double.fl (pg.rnd (pg.cursor + 1) * cv.height)
             text := index a.symbols (Rat.floor (Double.fl (pg.rnd (pg.cursor + 2) * a.symbols.length)))
             size := Double.fl (11 + Double.fl (pg.rnd (pg.cursor + 3) * 12))
             opacity := Double.fl (Double.fl 0.035 + Double.fl (pg.rnd (pg.cursor + 4) * Double.fl 0.1))
             speed := Double.fl (Double.fl 0.1 + Double.fl (pg.rnd (pg.cursor + 5) * 0.25))
             angle := Double.fl (Double.fl (pg.rnd (pg.cursor + 6) * MathPI) * 2) },
           pg.seek (pg.cursor + 7)) := by
  unfold createParticle
  rw [hc]
  rfl

theorem createParticle_false_rounded (a : Animator) (pg : Page) (cv : Canvas)
    (hc : a.canvas = some cv) :
    createParticle a pg false =
      .ok ({ x := Double.fl (pg.rnd pg.cursor * cv.width)
             y := Double.fl (cv.height + 20)
             text := index a.symbols (Rat.floor (Double.fl (pg.rnd (pg.cursor + 1) * a.symbols.length)))
             size := Double.fl (11 + Double.fl (pg.rnd (pg.cursor + 2) * 12))
             opacity := Double.fl (Double.fl 0.035 + Double.fl (pg.rnd (pg.cursor + 3) * Double.fl 0.1))
             speed := Double.fl (Double.fl 0.1 + Double.fl (pg.rnd (pg.cursor + 4) * 0.25))
             angle := Double.fl (Double.fl (pg.rnd (pg.cursor + 5) * MathPI) * 2) },
           pg.seek (pg.cursor + 6)) := by
  unfold createParticle
  rw [hc]
  rfl

/-- The result of `createParticle` only depends on the canvas and the catalog. -/
theorem createParticle_congr_rounded (a b : Animator) (pg : Page) (fromTop : Bool)
    (hc : a.canvas = b.canvas) (hs : a.symbols = b.symbols) :
    createParticle a pg fromTop = createParticle b pg fromTop := by
  unfold createParticle
  rw [hc, hs]

theorem createParticle_none_rounded (a : Animator) (pg : Page) (fromTop : Bool)
    (hc : a.canvas = none) :
    createParticle a pg fromTop =
      .error (.typeError "Cannot read properties of null (reading width)") := by
  unfold createParticle
  rw [hc]

/-- A spawn reads the page only through the random source and its cursor. -/
theorem createParticle_transport_rounded (a b : Animator) (pg pg2 : Page) (fromTop : Bool)
    (p : Particle) (c : ℕ) (hc : a.canvas = b.canvas) (hs : a.symbols = b.symbols)
    (hr : pg2.rnd = pg.rnd) (hk : pg2.cursor = pg.cursor)
    (h : createParticle a pg fromTop = .ok (p, pg.seek c)) :
    createParticle b pg2 fromTop = .ok (p, pg2.seek c) := by
  cases hcv : a.canvas with
  | none => rw [createParticle_none_rounded a pg fromTop hcv] at h; cases h
  | some cv =>
    have hb : b.canvas = some cv := by rw [← hc, hcv]
    cases fromTop with
    | true =>
      rw [createParticle_true_rounded a pg cv hcv] at h
      rw [createParticle_true_rounded b pg2 cv hb]
      injection h with h
      injection h with hp hpg
      have hcc : pg.cursor + 7 = c := congrArg Page.cursor hpg
      rw [← hp, ← hcc, hr, hk, hs]
    | false =>
      rw [createParticle_false_rounded a pg cv hcv] at h
      rw [createParticle_false_rounded b pg2 cv hb]
      injection h with h
      injection h with hp hpg
      have hcc : pg.cursor + 6 = c := congrArg Page.cursor hpg
      rw [← hp, ← hcc, hr, hk, hs]

theorem arrayFrom_spec_rounded (a : Animator) (cv : Canvas) (hc : a.canvas = some cv) :
    ∀ (n : ℕ) (pg : Page), ∃ ps : List Particle,
      arrayFrom a n pg = .ok (ps, pg.seek (pg.cursor + 7 * n)) ∧
      ps.length = n ∧
      ∀ (j : ℕ) (p : Particle), ps[j]? = some p →
        createParticle a (pg.seek (pg.cursor + 7 * j)) true =
          .ok (p, pg.seek (pg.cursor + 7 * j + 7)) := by
  intro n
  induction n with
  | zero =>
    intro pg
    exact ⟨[], by simp [arrayFrom], rfl, by simp⟩
  | succ n ih =>
    intro pg
    obtain ⟨q, hq⟩ : ∃ q, createParticle a pg true = .ok (q, pg.seek (pg.cursor + 7)) :=
      ⟨_, createParticle_true_rounded a pg cv hc⟩
    obtain ⟨ps, hps, hlen, hget⟩ := ih (pg.seek (pg.cursor + 7))
    refine ⟨q :: ps, ?_, by simp [hlen], ?_⟩
    · simp only [arrayFrom, hq, hps, seek_seek, seek_cursor]
      have : pg.cursor + 7 + 7 * n = pg.cursor + 7 * (n + 1) := by ring
      rw [this]
    · intro j p hj
      cases j with
      | zero =>
        simp only [List.getElem?_cons_zero, Option.some.injEq] at hj
        subst hj
        simpa using hq
      | succ j =>
        simp only [List.getElem?_cons_succ] at hj
        have h := hget j p hj
        simp only [seek_seek, seek_cursor] at h
        have e1 : pg.cursor + 7 + 7 * j = pg.cursor + 7 * (j + 1) := by ring
        rw [e1] at h
        exact h

theorem animateLoop_done_rounded (a : Animator) (pg : Page) (i : ℕ) (h : a.particles.length ≤ i) :
    animateLoop a pg i = .ok (a, pg) := by
  unfold animateLoop
  rw [Nat.sub_eq_zero_of_le h]
  rfl

theorem animateLoop_keep_rounded (a : Animator) (pg : Page) (i : ℕ) (p : Particle)
    (hp : a.particles[i]? = some p) (hy : ¬ (advance p).y < -50) :
    animateLoop a pg i =
      animateLoop { a with particles := a.particles.set i (advance p) } pg (i + 1) := by
  obtain ⟨hi, hpe⟩ := List.getElem?_eq_some.mp hp
  unfold animateLoop
  have e : a.particles.length - i = (a.particles.length - (i + 1)) + 1 := by omega
  rw [e]
  simp only [animateLoopN, dif_pos hi, hpe, if_neg hy, List.length_set]

theorem animateLoop_respawn_rounded (a : Animator) (pg : Page) (i : ℕ) (p q : Particle)
    (hp : a.particles[i]? = some p) (hy : (advance p).y < -50)
    (hq : createParticle a pg false = .ok (q, pg.seek (pg.cursor + 6))) :
    animateLoop a pg i =
      animateLoop { a with particles := a.particles.set i q } (pg.seek (pg.cursor + 6))
        (i + 1) := by
  obtain ⟨hi, hpe⟩ := List.getElem?_eq_some.mp hp
  unfold animateLoop
  have e : a.particles.length - i = (a.particles.length - (i + 1)) + 1 := by omega
  rw [e]
  simp only [animateLoopN, dif_pos hi, hpe, if_pos hy]
  rw [createParticle_congr_rounded
    { a with particles := a.particles.set i (advance p) } a pg false rfl rfl, hq]
  simp only [List.set_set, List.length_set]

/-- What the loop of `animate` does, started at index `i`: it returns, only
the particles and the random cursor change, the length is kept, slots below
`i` are untouched, and each later slot is either advanced or respawned. -/
theorem animateLoop_spec_rounded (cv : Canvas) :
    ∀ (n : ℕ) (a : Animator) (pg : Page) (i : ℕ),
      a.particles.length - i = n → a.canvas = some cv →
      ∃ (a1 : Animator) (c : ℕ),
        animateLoop a pg i = .ok (a1, pg.seek c) ∧ pg.cursor ≤ c ∧
        a1.canvas = a.canvas ∧ a1.ctx = a.ctx ∧ a1.symbols = a.symbols ∧
        a1.animationFrameId = a.animationFrameId ∧
        a1.particles.length = a.particles.length ∧
        ∀ (j : ℕ) (p : Particle), a.particles[j]? = some p →
          (j < i → a1.particles[j]? = some p) ∧
          (i ≤ j → ¬ (advance p).y < -50 → a1.particles[j]? = some (advance p)) ∧
          (i ≤ j → (advance p).y < -50 →
            ∃ (k : ℕ) (q : Particle), pg.cursor ≤ k ∧
              createParticle a (pg.seek k) false = .ok (q, pg.seek (k + 6)) ∧
              a1.particles[j]? = some q) := by
  intro n
  induction n with
  | zero =>
    intro a pg i hn hc
    have hle : a.particles.length ≤ i := by omega
    refine ⟨a, pg.cursor, ?_, le_refl _, rfl, rfl, rfl, rfl, rfl, ?_⟩
    · rw [animateLoop_done_rounded a pg i hle]; rfl
    · intro j p hj
      have hjl : j < a.particles.length := (List.getElem?_eq_some.mp hj).1
      exact ⟨fun _ => hj, fun h => absurd h (by omega), fun h => absurd h (by omega)⟩
  | succ n ih =>
    intro a pg i hn hc
    have hi : i < a.particles.length := by omega
    have hpi : a.particles[i]? = some a.particles[i] := List.getElem?_eq_getElem hi
    by_cases hy : (advance a.particles[i]).y < -50
    · -- the slot is respawned
      have hq := createParticle_false_rounded a pg cv hc
      generalize hqd : ({ x := Double.fl (pg.rnd pg.cursor * (cv.width : ℚ))
                          y := Double.fl ((cv.height : ℚ) + 20)
                          text := index a.symbols
                            (Rat.floor (Double.fl (pg.rnd (pg.cursor + 1) * a.symbols.length)))
                          size := Double.fl (11 + Double.fl (pg.rnd (pg.cursor + 2) * 12))
                          opacity := Double.fl (Double.fl 0.035 + Double.fl (pg.rnd (pg.cursor + 3) * Double.fl 0.1))
                          speed := Double.fl (Double.fl 0.1 + Double.fl (pg.rnd (pg.cursor + 4) * 0.25))
                          angle := Double.fl (Double.fl (pg.rnd (pg.cursor + 5) * MathPI) * 2) } : Particle) = q at hq
      obtain ⟨a1, c, hrun, hc1, h1, h2, h3, h4, h5, h6⟩ :=
        ih { a with particles := a.particles.set i q } (pg.seek (pg.cursor + 6)) (i + 1)
          (by simp only [List.length_set]; omega) hc
      simp only [seek_seek, seek_cursor, List.length_set] at hrun hc1 h5 h6
      refine ⟨a1, c, ?_, by omega, h1, h2, h3, h4, h5, ?_⟩
      · rw [animateLoop_respawn_rounded a pg i _ q hpi hy hq, hrun]
      · intro j p hj
        have hjl : j < a.particles.length := (List.getElem?_eq_some.mp hj).1
        rcases Nat.lt_trichotomy j i with hlt | heq | hgt
        · have hset : (a.particles.set i q)[j]? = some p := by
            rw [List.getElem?_set_ne (by omega)]; exact hj
          exact ⟨fun _ => (h6 j p hset).1 (by omega), fun h => absurd h (by omega),
            fun h => absurd h (by omega)⟩
        · subst heq
          have hpe : p = a.particles[j] := by
            rw [hpi] at hj; exact (Option.some.inj hj).symm
          have hset : (a.particles.set j q)[j]? = some q := by
            rw [List.getElem?_set_self hjl]
          refine ⟨fun h => absurd h (by omega), fun _ hny => absurd (hpe ▸ hy) hny, fun _ _ => ?_⟩
          refine ⟨pg.cursor, q, le_refl _, ?_, (h6 j q hset).1 (by omega)⟩
          simpa using hq
        · have hset : (a.particles.set i q)[j]? = some p := by
            rw [List.getElem?_set_ne (by omega)]; exact hj
          obtain ⟨_, hb, hcse⟩ := h6 j p hset
          refine ⟨fun h => absurd h (by omega), fun _ hny => hb (by omega) hny, fun _ hyp => ?_⟩
          obtain ⟨k, r, hk, hr, hget⟩ := hcse (by omega) hyp
          refine ⟨k, r, by omega, ?_, hget⟩
          rw [← hr]
          exact createParticle_congr_rounded _ _ _ _ rfl rfl
    · -- the slot is advanced in place
      obtain ⟨a1, c, hrun, hc1, h1, h2, h3, h4, h5, h6⟩ :=
        ih { a with particles := a.particles.set i (advance a.particles[i]) } pg (i + 1)
          (by simp only [List.length_set]; omega) hc
      simp only [List.length_set] at hrun hc1 h5 h6
      refine ⟨a1, c, ?_, hc1, h1, h2, h3, h4, h5, ?_⟩
      · rw [animateLoop_keep_rounded a pg i _ hpi hy, hrun]
      · intro j p hj
        have hjl : j < a.particles.length := (List.getElem?_eq_some.mp hj).1
        rcases Nat.lt_trichotomy j i with hlt | heq | hgt
        · have hset : (a.particles.set i (advance a.particles[i]))[j]? = some p := by
            rw [List.getElem?_set_ne (by omega)]; exact hj
          exact ⟨fun _ => (h6 j p hset).1 (by omega), fun h => absurd h (by omega),
            fun h => absurd h (by omega)⟩
        · subst heq
          have hpe : p = a.particles[j] := by
            rw [hpi] at hj; exact (Option.some.inj hj).symm
          have hset : (a.particles.set j (advance a.particles[j]))[j]? =
              some (advance a.particles[j]) := by
            rw [List.getElem?_set_self hjl]
          refine ⟨fun h => absurd h (by omega), fun _ _ => ?_, fun _ hyp => absurd (hpe ▸ hyp) hy⟩
          rw [hpe]
          exact (h6 j _ hset).1 (by omega)
        · have hset : (a.particles.set i (advance a.particles[i]))[j]? = some p := by
            rw [List.getElem?_set_ne (by omega)]; exact hj
          obtain ⟨_, hb, hcse⟩ := h6 j p hset
          refine ⟨fun h => absurd h (by omega), fun _ hny => hb (by omega) hny, fun _ hyp => ?_⟩
          obtain ⟨k, r, hk, hr, hget⟩ := hcse (by omega) hyp
          refine ⟨k, r, hk, ?_, hget⟩
          rw [← hr]
          exact createParticle_congr_rounded _ _ _ _ rfl rfl

/-- What `resizeCanvas()` does on a located canvas. -/
theorem resizeCanvas_spec_rounded (a : Animator) (pg : Page) (cv : Canvas) (hc : a.canvas = some cv) :
    ∃ (a1 : Animator) (pg1 : Page),
      resizeCanvas a pg = .ok (a1, pg1) ∧
      a1.canvas = some { width := pg.innerWidth, height := pg.innerHeight } ∧
      a1.ctx = a.ctx ∧ a1.symbols = a.symbols ∧
      a1.animationFrameId = a.animationFrameId ∧
      a1.particles.length = count pg.innerWidth pg.innerHeight ∧
      pg.Extends pg1 ∧ pg1.nextHandle = pg.nextHandle ∧ pg1.pending = pg.pending ∧
      pg1.surface = pg.surface ++ [.setWidth pg.innerWidth, .setHeight pg.innerHeight]
        ++ paint a1 { width := pg.innerWidth, height := pg.innerHeight } pg.theme ∧
      ∀ (j : ℕ) (p : Particle), a1.particles[j]? = some p →
        ∃ k : ℕ, pg.cursor ≤ k ∧
          createParticle a1 (pg.seek k) true = .ok (p, pg.seek (k + 7)) := by
  obtain ⟨ps, hps, hlen, hget⟩ :=
    arrayFrom_spec_rounded { a with canvas := some { width := pg.innerWidth, height := pg.innerHeight } }
      { width := pg.innerWidth, height := pg.innerHeight } rfl
      (count pg.innerWidth pg.innerHeight)
      (pg.emit [.setWidth pg.innerWidth, .setHeight pg.innerHeight])
  refine ⟨{ a with canvas := some { width := pg.innerWidth, height := pg.innerHeight },
                   particles := ps },
    ((pg.emit [.setWidth pg.innerWidth, .setHeight pg.innerHeight]).seek
        (pg.cursor + 7 * (count pg.innerWidth pg.innerHeight))).emit
      (paint { a with canvas := some { width := pg.innerWidth, height := pg.innerHeight },
                      particles := ps }
        { width := pg.innerWidth, height := pg.innerHeight } pg.theme),
    ?_, rfl, rfl, rfl, rfl, hlen, ?_, rfl, rfl, rfl, ?_⟩
  · unfold resizeCanvas
    simp only [hc]
    have hps1 : arrayFrom
        { a with canvas := some { width := pg.innerWidth, height := pg.innerHeight } }
        (count pg.innerWidth pg.innerHeight)
        { pg with
          surface := pg.surface ++ [.setWidth pg.innerWidth, .setHeight pg.innerHeight] } = _ :=
      hps
    rw [hps1]
    simp only
    rw [draw_eq _ _ { width := pg.innerWidth, height := pg.innerHeight } rfl]
    rfl
  · exact ⟨rfl, rfl, rfl, rfl, by simp, ⟨_, by simp [List.append_assoc]; rfl⟩, rfl⟩
  · intro j p hj
    have h := hget j p hj
    refine ⟨pg.cursor + 7 * j, by omega, ?_⟩
    simp only [emit_cursor] at h
    exact createParticle_transport_rounded _ _
      ((pg.emit [.setWidth pg.innerWidth, .setHeight pg.innerHeight]).seek (pg.cursor + 7 * j))
      (pg.seek (pg.cursor + 7 * j)) true p (pg.cursor + 7 * j + 7) rfl rfl rfl rfl h

/-- What `animate()` does on a located canvas. -/
theorem animate_spec_rounded (a : Animator) (pg : Page) (cv : Canvas) (hc : a.canvas = some cv) :
    ∃ (a1 : Animator) (pg1 : Page),
      animate a pg = .ok (a1, pg1) ∧
      a1.canvas = a.canvas ∧ a1.ctx = a.ctx ∧ a1.symbols = a.symbols ∧
      a1.animationFrameId = some pg.nextHandle ∧
      a1.particles.length = a.particles.length ∧
      pg.Extends pg1 ∧ pg1.nextHandle = pg.nextHandle + 1 ∧
      pg1.pending = pg.pending ++ [pg.nextHandle] ∧
      pg1.surface = pg.surface ++ paint a1 cv pg.theme ∧
      ∀ (j : ℕ) (p : Particle), a.particles[j]? = some p →
        (¬ (advance p).y < -50 → a1.particles[j]? = some (advance p)) ∧
        ((advance p).y < -50 →
          ∃ (k : ℕ) (q : Particle), pg.cursor ≤ k ∧
            createParticle a (pg.seek k) false = .ok (q, pg.seek (k + 6)) ∧
            a1.particles[j]? = some q) := by
  obtain ⟨a1, c, hrun, hc1, h1, h2, h3, h4, h5, h6⟩ :=
    animateLoop_spec_rounded cv (a.particles.length - 0) a pg 0 rfl hc
  have hc2 : a1.canvas = some cv := by rw [h1, hc]
  refine ⟨{ a1 with animationFrameId := some pg.nextHandle },
    { (pg.seek c).emit (paint a1 cv pg.theme) with
      nextHandle := pg.nextHandle + 1
      pending := pg.pending ++ [pg.nextHandle] },
    ?_, h1, h2, h3, rfl, h5, ?_, rfl, rfl, rfl, ?_⟩
  · unfold animate
    simp only [hc, hrun]
    rw [draw_eq a1 (pg.seek c) cv hc2]
    rfl
  · exact ⟨rfl, rfl, rfl, rfl, hc1, ⟨_, rfl⟩, rfl⟩
  · intro j p hj
    obtain ⟨_, hb, hcse⟩ := h6 j p hj
    exact ⟨fun hny => hb (Nat.zero_le _) hny, fun hy => hcse (Nat.zero_le _) hy⟩

theorem animate_none_rounded (a : Animator) (pg : Page) (hc : a.canvas = none) :
    animate a pg = .ok (a, pg) := by
  unfold animate
  rw [hc]

theorem resizeCanvas_none_rounded (a : Animator) (pg : Page) (hc : a.canvas = none) :
    resizeCanvas a pg = .ok (a, pg) := by
  unfold resizeCanvas
  rw [hc]

theorem init_eq_rounded (a : Animator) (pg : Page) (cv : Canvas) (a1 : Animator) (pg1 : Page)
    (hc : a.canvas = some cv) (h : resizeCanvas a pg = .ok (a1, pg1)) :
    init a pg = animate a1 { pg1 with resizeListeners := pg1.resizeListeners + 1 } := by
  unfold init
  rw [hc]
  simp only [h]

end CanvasAnimation.Binary64

namespace CanvasAnimation.Binary64

/-! ## Creation bounds in binary64 -/

theorem size_bounds (r : ℚ) (h0 : 0 ≤ r) (h1 : r < 1) :
    11 ≤ Double.fl (11 + Double.fl (r * 12)) ∧ Double.fl (11 + Double.fl (r * 12)) ≤ 23 := by
  have t0 : 0 ≤ Double.fl (r * 12) := Double.fl_nonneg (by positivity)
  have t1 : Double.fl (r * 12) ≤ 12 := by
    have h := Double.fl_mono (by positivity : (0 : ℚ) ≤ r * 12) (by linarith : r * 12 ≤ 12)
    rwa [Double.fl_12] at h
  constructor
  · have h := Double.fl_mono (by norm_num : (0 : ℚ) ≤ 11)
      (by linarith : (11 : ℚ) ≤ 11 + Double.fl (r * 12))
    rwa [Double.fl_11] at h
  · have h := Double.fl_mono (by linarith : (0 : ℚ) ≤ 11 + Double.fl (r * 12))
      (by linarith : 11 + Double.fl (r * 12) ≤ 23)
    rwa [Double.fl_23] at h

theorem opacity_bounds (r : ℚ) (h0 : 0 ≤ r) (h1 : r < 1) :
    Double.fl 0.035 ≤ Double.fl (Double.fl 0.035 + Double.fl (r * Double.fl 0.1)) ∧
      Double.fl (Double.fl 0.035 + Double.fl (r * Double.fl 0.1)) ≤ Double.fl 0.135 := by
  rw [Double.fl_tenth, Double.fl_035, Double.fl_135]
  have t0 : 0 ≤ Double.fl (r * (3602879701896397 / 36028797018963968)) :=
    Double.fl_nonneg (by positivity)
  have t1 : Double.fl (r * (3602879701896397 / 36028797018963968)) ≤
      3602879701896397 / 36028797018963968 := by
    have h := Double.fl_mono
      (by positivity : (0 : ℚ) ≤ r * (3602879701896397 / 36028797018963968))
      (by linarith : r * (3602879701896397 / 36028797018963968) ≤
        3602879701896397 / 36028797018963968)
    rwa [Double.fl_tenth_idem] at h
  constructor
  · have h := Double.fl_mono (by norm_num : (0 : ℚ) ≤ 1261007895663739 / 36028797018963968)
      (by linarith : (1261007895663739 / 36028797018963968 : ℚ) ≤
        1261007895663739 / 36028797018963968 +
          Double.fl (r * (3602879701896397 / 36028797018963968)))
    rwa [Double.fl_035_idem] at h
  · have h := Double.fl_mono
      (by linarith : (0 : ℚ) ≤ 1261007895663739 / 36028797018963968 +
          Double.fl (r * (3602879701896397 / 36028797018963968)))
      (by linarith : 1261007895663739 / 36028797018963968 +
          Double.fl (r * (3602879701896397 / 36028797018963968)) ≤
        1261007895663739 / 36028797018963968 + 3602879701896397 / 36028797018963968)
    rwa [Double.fl_opacity_top] at h

theorem speed_bounds (r : ℚ) (h0 : 0 ≤ r) (h1 : r < 1) :
    Double.fl 0.1 ≤ Double.fl (Double.fl 0.1 + Double.fl (r * 0.25)) ∧
      Double.fl (Double.fl 0.1 + Double.fl (r * 0.25)) ≤ Double.fl 0.35 := by
  rw [Double.fl_tenth, Double.fl_35]
  have t0 : 0 ≤ Double.fl (r * 0.25) := Double.fl_nonneg (by positivity)
  have t1 : Double.fl (r * 0.25) ≤ 0.25 := by
    have h := Double.fl_mono (by positivity : (0 : ℚ) ≤ r * 0.25)
      (by linarith : r * 0.25 ≤ 0.25)
    rwa [Double.fl_quarter] at h
  constructor
  · have h := Double.fl_mono (by norm_num : (0 : ℚ) ≤ 3602879701896397 / 36028797018963968)
      (by linarith : (3602879701896397 / 36028797018963968 : ℚ) ≤
        3602879701896397 / 36028797018963968 + Double.fl (r * 0.25))
    rwa [Double.fl_tenth_idem] at h
  · have h := Double.fl_mono
      (by linarith : (0 : ℚ) ≤ 3602879701896397 / 36028797018963968 + Double.fl (r * 0.25))
      (by linarith : 3602879701896397 / 36028797018963968 + Double.fl (r * 0.25) ≤
        3602879701896397 / 36028797018963968 + 0.25)
    rwa [Double.fl_speed_top] at h

theorem angle_bounds (r : ℚ) (h0 : 0 ≤ r) (h1 : r < 1) :
    0 ≤ Double.fl (Double.fl (r * MathPI) * 2) ∧
      Double.fl (Double.fl (r * MathPI) * 2) ≤ MathPI * 2 ∧
      ((Double.fl (Double.fl (r * MathPI) * 2) : ℚ) : ℝ) < 2 * Real.pi := by
  have hpi : (0 : ℚ) < MathPI := by unfold MathPI; norm_num
  have t0 : 0 ≤ Double.fl (r * MathPI) := Double.fl_nonneg (by positivity)
  have t1 : Double.fl (r * MathPI) ≤ MathPI := by
    have h := Double.fl_mono (by positivity : (0 : ℚ) ≤ r * MathPI)
      (by nlinarith : r * MathPI ≤ MathPI)
    unfold MathPI at h ⊢
    rwa [Double.fl_pi] at h
  have t2 : Double.fl (Double.fl (r * MathPI) * 2) ≤ MathPI * 2 := by
    have h := Double.fl_mono (by linarith : (0 : ℚ) ≤ Double.fl (r * MathPI) * 2)
      (by linarith : Double.fl (r * MathPI) * 2 ≤ MathPI * 2)
    have e : Double.fl (MathPI * 2) = MathPI * 2 := by
      unfold MathPI
      exact Double.fl_two_pi
    rwa [e] at h
  refine ⟨Double.fl_nonneg (by linarith), t2, ?_⟩
  have h2 : ((Double.fl (Double.fl (r * MathPI) * 2) : ℚ) : ℝ) ≤ ((MathPI * 2 : ℚ) : ℝ) := by
    exact_mod_cast t2
  have h3 := mathPI_lt_pi
  push_cast at h2
  linarith

theorem inBounds_of_createParticle_rounded (a : Animator) (pg pg1 : Page) (fromTop : Bool)
    (p : Particle) (hr : UnitDraws pg.rnd)
    (h : createParticle a pg fromTop = .ok (p, pg1)) : InBounds p := by
  cases hc : a.canvas with
  | none => rw [createParticle_none_rounded a pg fromTop hc] at h; cases h
  | some cv =>
    cases fromTop with
    | true =>
      rw [createParticle_true_rounded a pg cv hc] at h
      injection h with h
      injection h with hp _
      subst hp
      obtain ⟨s1, s2⟩ := size_bounds _ (hr (pg.cursor + 3)).1 (hr (pg.cursor + 3)).2
      obtain ⟨o1, o2⟩ := opacity_bounds _ (hr (pg.cursor + 4)).1 (hr (pg.cursor + 4)).2
      obtain ⟨v1, v2⟩ := speed_bounds _ (hr (pg.cursor + 5)).1 (hr (pg.cursor + 5)).2
      exact ⟨s1, s2, o1, o2, v1, v2⟩
    | false =>
      rw [createParticle_false_rounded a pg cv hc] at h
      injection h with h
      injection h with hp _
      subst hp
      obtain ⟨s1, s2⟩ := size_bounds _ (hr (pg.cursor + 2)).1 (hr (pg.cursor + 2)).2
      obtain ⟨o1, o2⟩ := opacity_bounds _ (hr (pg.cursor + 3)).1 (hr (pg.cursor + 3)).2
      obtain ⟨v1, v2⟩ := speed_bounds _ (hr (pg.cursor + 4)).1 (hr (pg.cursor + 4)).2
      exact ⟨s1, s2, o1, o2, v1, v2⟩

theorem unitDraws_pageTop : UnitDraws pageTop.rnd := by
  intro i
  show (0 : ℚ) ≤ topDraw ∧ topDraw < 1
  unfold topDraw
  norm_num

/-- The largest draw is a binary64 number. -/
theorem fl_topDraw : Double.fl topDraw = topDraw := by
  unfold topDraw
  exact Double.fl_exact _ (-1) (2 ^ 53 - 1) (by norm_num) (by norm_num) (by norm_num)
    (by norm_num)

/-- With every draw equal to `draw`, each spawn has the size, opacity and
speed this draw gives. -/
theorem createParticle_const_rounded (a : Animator) (pg pg1 : Page) (fromTop : Bool)
    (p : Particle) (r : ℚ) (hr : pg.rnd = fun _ => r)
    (h : createParticle a pg fromTop = .ok (p, pg1)) :
    p.size = Double.fl (11 + Double.fl (r * 12)) ∧
    p.opacity = Double.fl (Double.fl 0.035 + Double.fl (r * Double.fl 0.1)) ∧
    p.speed = Double.fl (Double.fl 0.1 + Double.fl (r * 0.25)) := by
  cases hc : a.canvas with
  | none => rw [createParticle_none_rounded a pg fromTop hc] at h; cases h
  | some cv =>
    cases fromTop with
    | true =>
      rw [createParticle_true_rounded a pg cv hc] at h
      injection h with h
      injection h with hp _
      subst hp
      simp only [hr]
      exact ⟨trivial, trivial, trivial⟩
    | false =>
      rw [createParticle_false_rounded a pg cv hc] at h
      injection h with h
      injection h with hp _
      subst hp
      simp only [hr]
      exact ⟨trivial, trivial, trivial⟩

/-- At the largest draw the sums round up to the excluded ends of the ranges. -/
theorem top_values :
    Double.fl (11 + Double.fl (topDraw * 12)) = 23 ∧
    Double.fl (Double.fl 0.035 + Double.fl (topDraw * Double.fl 0.1)) = Double.fl 0.135 ∧
    Double.fl (Double.fl 0.1 + Double.fl (topDraw * 0.25)) = Double.fl 0.35 := by
  unfold topDraw
  refine ⟨?_, ?_, ?_⟩
  · rw [Double.fl_top_times_12, Double.fl_size_top]
  · rw [Double.fl_tenth, Double.fl_035, Double.fl_135, Double.fl_top_times_tenth,
      Double.fl_opacity_at_top]
  · rw [Double.fl_tenth, Double.fl_35, Double.fl_top_times_quarter, Double.fl_speed_at_top]

/-! ## Invariants of the binary64 animator -/

theorem animate_keeps_rounded (P : Particle → Prop) (rnd : ℕ → ℚ)
    (hadv : ∀ p, P p → P (advance p))
    (hnew : ∀ (b : Animator) (pgx pgy : Page) (ft : Bool) (q : Particle),
      pgx.rnd = rnd → createParticle b pgx ft = .ok (q, pgy) → P q)
    (a : Animator) (pg : Page) (hr : pg.rnd = rnd) (hinv : ∀ p ∈ a.particles, P p) :
    ∃ (a1 : Animator) (pg1 : Page),
      animate a pg = .ok (a1, pg1) ∧ pg1.rnd = rnd ∧
        a1.particles.length = a.particles.length ∧ ∀ p ∈ a1.particles, P p := by
  cases hc : a.canvas with
  | none => exact ⟨a, pg, animate_none_rounded a pg hc, hr, rfl, hinv⟩
  | some cv =>
    obtain ⟨a1, pg1, hrun, _, _, _, _, hlen, hext, _, _, _, hslots⟩ :=
      animate_spec_rounded a pg cv hc
    refine ⟨a1, pg1, hrun, hext.rnd.trans hr, hlen, ?_⟩
    intro q hq
    obtain ⟨j, hj⟩ := List.mem_iff_getElem?.mp hq
    have hjl : j < a.particles.length := by
      rw [← hlen]; exact (List.getElem?_eq_some.mp hj).1
    have hpj : a.particles[j]? = some a.particles[j] := List.getElem?_eq_getElem hjl
    have hpin : P a.particles[j] := hinv _ (List.getElem_mem hjl)
    obtain ⟨hkeep, hspawn⟩ := hslots j _ hpj
    by_cases hy : (advance a.particles[j]).y < -50
    · obtain ⟨k, r, _, hr2, hget⟩ := hspawn hy
      have hqr : q = r := by rw [hj] at hget; exact Option.some.inj hget
      rw [hqr]
      exact hnew a (pg.seek k) _ false r hr hr2
    · have hget := hkeep hy
      have hqr : q = advance a.particles[j] := by rw [hj] at hget; exact Option.some.inj hget
      rw [hqr]
      exact hadv _ hpin

theorem resizeCanvas_keeps_rounded (P : Particle → Prop) (rnd : ℕ → ℚ)
    (hnew : ∀ (b : Animator) (pgx pgy : Page) (ft : Bool) (q : Particle),
      pgx.rnd = rnd → createParticle b pgx ft = .ok (q, pgy) → P q)
    (a : Animator) (pg : Page) (hr : pg.rnd = rnd) (hinv : ∀ p ∈ a.particles, P p) :
    ∃ (a1 : Animator) (pg1 : Page),
      resizeCanvas a pg = .ok (a1, pg1) ∧ pg1.rnd = rnd ∧ ∀ p ∈ a1.particles, P p := by
  cases hc : a.canvas with
  | none => exact ⟨a, pg, resizeCanvas_none_rounded a pg hc, hr, hinv⟩
  | some cv =>
    obtain ⟨a1, pg1, hrun, _, _, _, _, _, hext, _, _, _, hslots⟩ :=
      resizeCanvas_spec_rounded a pg cv hc
    refine ⟨a1, pg1, hrun, hext.rnd.trans hr, ?_⟩
    intro q hq
    obtain ⟨j, hj⟩ := List.mem_iff_getElem?.mp hq
    obtain ⟨k, _, hk⟩ := hslots j q hj
    exact hnew a1 (pg.seek k) _ true q hr hk

theorem fireResize_keeps_rounded (P : Particle → Prop) (rnd : ℕ → ℚ)
    (hnew : ∀ (b : Animator) (pgx pgy : Page) (ft : Bool) (q : Particle),
      pgx.rnd = rnd → createParticle b pgx ft = .ok (q, pgy) → P q) (n : ℕ) :
    ∀ (a : Animator) (pg : Page), pg.rnd = rnd → (∀ p ∈ a.particles, P p) →
      ∃ (a1 : Animator) (pg1 : Page),
        fireResize a pg n = .ok (a1, pg1) ∧ pg1.rnd = rnd ∧ ∀ p ∈ a1.particles, P p := by
  induction n with
  | zero =>
    intro a pg hr hinv
    exact ⟨a, pg, rfl, hr, hinv⟩
  | succ n ih =>
    intro a pg hr hinv
    obtain ⟨a1, pg1, h1, hr1, hinv1⟩ := resizeCanvas_keeps_rounded P rnd hnew a pg hr hinv
    obtain ⟨a2, pg2, h2, hr2, hinv2⟩ := ih a1 pg1 hr1 hinv1
    refine ⟨a2, pg2, ?_, hr2, hinv2⟩
    simp only [fireResize, h1, h2]

theorem step_keeps_rounded (P : Particle → Prop) (rnd : ℕ → ℚ)
    (hadv : ∀ p, P p → P (advance p))
    (hnew : ∀ (b : Animator) (pgx pgy : Page) (ft : Bool) (q : Particle),
      pgx.rnd = rnd → createParticle b pgx ft = .ok (q, pgy) → P q)
    (a : Animator) (pg : Page) (e : Event) (hr : pg.rnd = rnd)
    (hinv : ∀ p ∈ a.particles, P p) :
    ∃ (a1 : Animator) (pg1 : Page),
      step a pg e = .ok (a1, pg1) ∧ pg1.rnd = rnd ∧ ∀ p ∈ a1.particles, P p := by
  cases e with
  | frame id =>
    by_cases hid : id ∈ pg.pending
    · obtain ⟨a1, pg1, h1, hr1, _, hinv1⟩ :=
        animate_keeps_rounded P rnd hadv hnew a { pg with pending := pg.pending.erase id } hr hinv
      exact ⟨a1, pg1, by simp only [step, if_pos hid, h1], hr1, hinv1⟩
    · exact ⟨a, pg, by simp only [step, if_neg hid], hr, hinv⟩
  | resize w h =>
    exact fireResize_keeps_rounded P rnd hnew pg.resizeListeners a
      { pg with innerWidth := w, innerHeight := h } hr hinv
  | destroy =>
    obtain ⟨pg1, h1, hr1, _⟩ := destroy_eq a pg
    exact ⟨a, pg1, h1, hr1.trans hr, hinv⟩

theorem run_keeps_rounded (P : Particle → Prop) (rnd : ℕ → ℚ)
    (hadv : ∀ p, P p → P (advance p))
    (hnew : ∀ (b : Animator) (pgx pgy : Page) (ft : Bool) (q : Particle),
      pgx.rnd = rnd → createParticle b pgx ft = .ok (q, pgy) → P q) (es : List Event) :
    ∀ (a : Animator) (pg : Page), pg.rnd = rnd → (∀ p ∈ a.particles, P p) →
      ∃ (a1 : Animator) (pg1 : Page),
        run a pg es = .ok (a1, pg1) ∧ ∀ p ∈ a1.particles, P p := by
  induction es with
  | nil =>
    intro a pg _ hinv
    exact ⟨a, pg, rfl, hinv⟩
  | cons e es ih =>
    intro a pg hr hinv
    obtain ⟨a1, pg1, h1, hr1, hinv1⟩ := step_keeps_rounded P rnd hadv hnew a pg e hr hinv
    obtain ⟨a2, pg2, h2, hinv2⟩ := ih a1 pg1 hr1 hinv1
    exact ⟨a2, pg2, by simp only [run, h1, h2], hinv2⟩

theorem new_keeps_rounded (P : Particle → Prop) (rnd : ℕ → ℚ)
    (hadv : ∀ p, P p → P (advance p))
    (hnew : ∀ (b : Animator) (pgx pgy : Page) (ft : Bool) (q : Particle),
      pgx.rnd = rnd → createParticle b pgx ft = .ok (q, pgy) → P q)
    (found : Option (Canvas × Bool)) (pg : Page) (hr : pg.rnd = rnd) :
    ∃ (a1 : Animator) (pg1 : Page),
      new found pg = .ok (a1, pg1) ∧ pg1.rnd = rnd ∧ ∀ p ∈ a1.particles, P p := by
  cases found with
  | none => exact ⟨_, pg, rfl, hr, by intro p hp; cases hp⟩
  | some f =>
    obtain ⟨cv, has2d⟩ := f
    obtain ⟨a1, pg1, h1, hr1, hinv1⟩ :=
      resizeCanvas_keeps_rounded P rnd hnew
        { canvas := some cv, ctx := has2d, symbols := symbols, particles := [],
          animationFrameId := none } pg hr (by intro p hp; cases hp)
    obtain ⟨a2, pg2, h2, hr2, _, hinv2⟩ :=
      animate_keeps_rounded P rnd hadv hnew a1
        { pg1 with resizeListeners := pg1.resizeListeners + 1 } hr1 hinv1
    have hinit := init_eq_rounded _ pg cv a1 pg1 rfl h1
    rw [h2] at hinit
    exact ⟨a2, pg2, hinit, hr2, hinv2⟩

/-! ## C3: the creation bounds -/

/-- C3 (binary64): on a located canvas `createParticle` returns, for either
value of `fromTop` and all draws in `[0, 1)`, a particle with `11 ≤ size ≤ 23`,
`0.035 ≤ opacity ≤ 0.135`, `0.1 ≤ speed ≤ 0.35` (the literals read as binary64
numbers) and `0 ≤ angle ≤ Math.PI * 2 < 2π`. -/
theorem createParticle_bounds_rounded (a : Animator) (pg : Page) (cv : Canvas)
    (fromTop : Bool) (hc : a.canvas = some cv) (hr : UnitDraws pg.rnd) :
    ∃ (p : Particle) (pg1 : Page),
      createParticle a pg fromTop = .ok (p, pg1) ∧
      11 ≤ p.size ∧ p.size ≤ 23 ∧
      Double.fl 0.035 ≤ p.opacity ∧ p.opacity ≤ Double.fl 0.135 ∧
      Double.fl 0.1 ≤ p.speed ∧ p.speed ≤ Double.fl 0.35 ∧
      0 ≤ p.angle ∧ p.angle ≤ MathPI * 2 ∧ ((p.angle : ℚ) : ℝ) < 2 * Real.pi := by
  cases fromTop with
  | true =>
    have he := createParticle_true_rounded a pg cv hc
    obtain ⟨b1, b2, b3, b4, b5, b6⟩ := inBounds_of_createParticle_rounded a pg _ true _ hr he
    obtain ⟨k1, k2, k3⟩ := angle_bounds _ (hr (pg.cursor + 6)).1 (hr (pg.cursor + 6)).2
    exact ⟨_, _, he, b1, b2, b3, b4, b5, b6, k1, k2, k3⟩
  | false =>
    have he := createParticle_false_rounded a pg cv hc
    obtain ⟨b1, b2, b3, b4, b5, b6⟩ := inBounds_of_createParticle_rounded a pg _ false _ hr he
    obtain ⟨k1, k2, k3⟩ := angle_bounds _ (hr (pg.cursor + 5)).1 (hr (pg.cursor + 5)).2
    exact ⟨_, _, he, b1, b2, b3, b4, b5, b6, k1, k2, k3⟩

theorem createParticle_bounds_rounded_witness :
    animator1.canvas = some { width := 800, height := 600 } ∧ UnitDraws pageTop.rnd ∧
    ∃ (p : Particle) (pg1 : Page),
      createParticle animator1 pageTop true = .ok (p, pg1) ∧
      11 ≤ p.size ∧ p.size ≤ 23 ∧
      Double.fl 0.035 ≤ p.opacity ∧ p.opacity ≤ Double.fl 0.135 ∧
      Double.fl 0.1 ≤ p.speed ∧ p.speed ≤ Double.fl 0.35 ∧
      0 ≤ p.angle ∧ p.angle ≤ MathPI * 2 ∧ ((p.angle : ℚ) : ℝ) < 2 * Real.pi :=
  ⟨rfl, unitDraws_pageTop,
    createParticle_bounds_rounded animator1 pageTop { width := 800, height := 600 } true rfl
      unitDraws_pageTop⟩

/-- C3, counterexample: when `Math.random()` returns its largest value
`1 - 2^-53`, `createParticle(true)` on an 800x600 canvas returns a particle
with `size = 23`, `opacity = 0.135` and `speed = 0.35`, so the upper ends of
the three ranges are attained and `size < 23` fails. -/
theorem createParticle_reaches_upper_ends :
    animator1.canvas = some { width := 800, height := 600 } ∧ UnitDraws pageTop.rnd ∧
    Double.fl topDraw = topDraw ∧
    ∃ (p : Particle) (pg1 : Page),
      createParticle animator1 pageTop true = .ok (p, pg1) ∧
      p.size = 23 ∧ ¬ p.size < 23 ∧
      p.opacity = Double.fl 0.135 ∧ ¬ p.opacity < Double.fl 0.135 ∧
      p.speed = Double.fl 0.35 ∧ ¬ p.speed < Double.fl 0.35 := by
  have he := createParticle_true_rounded animator1 pageTop { width := 800, height := 600 } rfl
  obtain ⟨h1, h2, h3⟩ := createParticle_const_rounded animator1 pageTop _ true _ topDraw rfl he
  obtain ⟨t1, t2, t3⟩ := top_values
  rw [t1] at h1
  rw [t2] at h2
  rw [t3] at h3
  exact ⟨rfl, unitDraws_pageTop, fl_topDraw, _, _, he, h1, by rw [h1]; exact lt_irrefl _, h2,
    by rw [h2]; exact lt_irrefl _, h3, by rw [h3]; exact lt_irrefl _⟩

/-! ## C9: the creation bounds as an invariant -/

theorem inBounds_advance_rounded (p : Particle) (h : InBounds p) : InBounds (advance p) := h

/-- C9 (binary64): with draws in `[0, 1)`, the bounds `11 ≤ size ≤ 23`,
`0.035 ≤ opacity ≤ 0.135`, `0.1 ≤ speed ≤ 0.35` are kept by `animate()` and by
`resizeCanvas()`, both of which return, and they hold for every particle in
every state reached from construction by frame, resize and destroy events. -/
theorem creation_bounds_invariant_rounded (pg : Page) (hr : UnitDraws pg.rnd) :
    (∀ a : Animator, (∀ p ∈ a.particles, InBounds p) →
      ∃ (a1 : Animator) (pg1 : Page),
        animate a pg = .ok (a1, pg1) ∧ ∀ p ∈ a1.particles, InBounds p) ∧
    (∀ a : Animator, (∀ p ∈ a.particles, InBounds p) →
      ∃ (a1 : Animator) (pg1 : Page),
        resizeCanvas a pg = .ok (a1, pg1) ∧ ∀ p ∈ a1.particles, InBounds p) ∧
    (∀ (found : Option (Canvas × Bool)) (es : List Event),
      ∃ (a0 : Animator) (pg0 : Page) (a1 : Animator) (pg1 : Page),
        new found pg = .ok (a0, pg0) ∧ run a0 pg0 es = .ok (a1, pg1) ∧
          ∀ p ∈ a1.particles, InBounds p) := by
  have hnew : ∀ (b : Animator) (pgx pgy : Page) (ft : Bool) (q : Particle),
      pgx.rnd = pg.rnd → createParticle b pgx ft = .ok (q, pgy) → InBounds q := by
    intro b pgx pgy ft q hx hq
    exact inBounds_of_createParticle_rounded b pgx pgy ft q (hx ▸ hr) hq
  refine ⟨?_, ?_, ?_⟩
  · intro a hinv
    obtain ⟨a1, pg1, h1, _, _, hinv1⟩ :=
      animate_keeps_rounded InBounds pg.rnd inBounds_advance_rounded hnew a pg rfl hinv
    exact ⟨a1, pg1, h1, hinv1⟩
  · intro a hinv
    obtain ⟨a1, pg1, h1, _, hinv1⟩ :=
      resizeCanvas_keeps_rounded InBounds pg.rnd hnew a pg rfl hinv
    exact ⟨a1, pg1, h1, hinv1⟩
  · intro found es
    obtain ⟨a0, pg0, h0, hr0, hinv0⟩ :=
      new_keeps_rounded InBounds pg.rnd inBounds_advance_rounded hnew found pg rfl
    obtain ⟨a1, pg1, h1, hinv1⟩ :=
      run_keeps_rounded InBounds pg.rnd inBounds_advance_rounded hnew es a0 pg0 hr0 hinv0
    exact ⟨a0, pg0, a1, pg1, h0, h1, hinv1⟩

theorem creation_bounds_invariant_rounded_witness :
    UnitDraws pageTop.rnd ∧
    ∃ (a0 : Animator) (pg0 : Page) (a1 : Animator) (pg1 : Page),
      new (some ({ width := 300, height := 150 }, true)) pageTop = .ok (a0, pg0) ∧
      run a0 pg0 [.frame 1, .resize 400 300, .frame 2, .destroy] = .ok (a1, pg1) ∧
        ∀ p ∈ a1.particles, InBounds p :=
  ⟨unitDraws_pageTop,
    (creation_bounds_invariant_rounded pageTop unitDraws_pageTop).2.2
      (some ({ width := 300, height := 150 }, true))
      [.frame 1, .resize 400 300, .frame 2, .destroy]⟩

theorem count_200_130 : count 200 130 = 1 := by
  unfold count
  have e1 : ((200 : ℕ) : ℚ) * ((130 : ℕ) : ℚ) = 26000 := by norm_num
  rw [e1, Double.fl_26000]
  have e2 : (26000 : ℚ) / 26000 = 1 := by norm_num
  rw [e2, Double.fl_one]
  rfl

/-- C9, counterexample: the strict bounds do not survive `resizeCanvas()`, and
fail in a state reached from construction.  On a 200x130 viewport with every
draw equal to `1 - 2^-53`, an animator with no particle (all bounds hold)
has after `resizeCanvas()` one particle, of size `23`; the animator just
constructed holds one particle, of size `23`. -/
theorem creation_bounds_not_strict :
    UnitDraws pageTop.rnd ∧
    (∃ (a1 : Animator) (pg1 : Page) (p : Particle),
      resizeCanvas animator0 pageTop = .ok (a1, pg1) ∧
      (∀ q ∈ animator0.particles, 11 ≤ q.size ∧ q.size < 23) ∧
      a1.particles = [p] ∧ p.size = 23 ∧ ¬ p.size < 23) ∧
    (∃ (a0 : Animator) (pg0 : Page) (p : Particle),
      new (some ({ width := 300, height := 150 }, true)) pageTop = .ok (a0, pg0) ∧
      a0.particles = [p] ∧ p.size = 23 ∧ ¬ p.size < 23) := by
  have hadv : ∀ p : Particle, p.size = 23 → (advance p).size = 23 := fun _ h => h
  have hnew : ∀ (b : Animator) (pgx pgy : Page) (ft : Bool) (q : Particle),
      pgx.rnd = pageTop.rnd → createParticle b pgx ft = .ok (q, pgy) → q.size = 23 := by
    intro b pgx pgy ft q hx hq
    rw [(createParticle_const_rounded b pgx pgy ft q topDraw hx hq).1]
    exact top_values.1
  have single : ∀ l : List Particle, l.length = 1 → (∀ p ∈ l, p.size = 23) →
      ∃ p, l = [p] ∧ p.size = 23 ∧ ¬ p.size < 23 := by
    intro l hl hall
    match l, hl with
    | [p], _ =>
      have hp := hall p (List.mem_singleton.mpr rfl)
      exact ⟨p, rfl, hp, by rw [hp]; exact lt_irrefl _⟩
  refine ⟨unitDraws_pageTop, ?_, ?_⟩
  · obtain ⟨a1, pg1, h1, _, _, _, _, hlen, _, _, _, _, _⟩ :=
      resizeCanvas_spec_rounded animator0 pageTop { width := 300, height := 150 } rfl
    obtain ⟨a2, pg2, h2, _, hinv⟩ :=
      resizeCanvas_keeps_rounded (fun p => p.size = 23) pageTop.rnd hnew animator0 pageTop rfl
        (by intro p hp; cases hp)
    rw [h1] at h2
    injection h2 with h2
    injection h2 with ha _
    subst ha
    have hl : a1.particles.length = 1 := by
      rw [hlen]
      exact count_200_130
    obtain ⟨p, hp1, hp2, hp3⟩ := single a1.particles hl hinv
    exact ⟨a1, pg1, p, h1, (by intro q hq; cases hq), hp1, hp2, hp3⟩
  · obtain ⟨a1, pg1, h1, _, _, _, _, hlen, _, _, _, _, _⟩ :=
      resizeCanvas_spec_rounded
        { canvas := some { width := 300, height := 150 }, ctx := true, symbols := symbols,
          particles := [], animationFrameId := none } pageTop { width := 300, height := 150 } rfl
    obtain ⟨a1b, pg1b, h1b, hr1, hinv1⟩ :=
      resizeCanvas_keeps_rounded (fun p => p.size = 23) pageTop.rnd hnew
        { canvas := some { width := 300, height := 150 }, ctx := true, symbols := symbols,
          particles := [], animationFrameId := none } pageTop rfl (by intro p hp; cases hp)
    rw [h1] at h1b
    injection h1b with h1b
    injection h1b with ha hpg
    subst ha
    subst hpg
    obtain ⟨a2, pg2, h2, _, hlen2, hinv2⟩ :=
      animate_keeps_rounded (fun p => p.size = 23) pageTop.rnd hadv hnew a1
        { pg1 with resizeListeners := pg1.resizeListeners + 1 } hr1 hinv1
    have hinit := init_eq_rounded
      { canvas := some { width := 300, height := 150 }, ctx := true, symbols := symbols,
        particles := [], animationFrameId := none } pageTop { width := 300, height := 150 }
      a1 pg1 rfl h1
    rw [h2] at hinit
    have hl : a2.particles.length = 1 := by
      rw [hlen2, hlen]
      exact count_200_130
    obtain ⟨p, hp1, hp2, hp3⟩ := single a2.particles hl hinv2
    exact ⟨a2, pg2, p, hinit, hp1, hp2, hp3⟩

/-! ## C20: the update repeated -/

theorem advance_y (p : Particle) : (advance p).y = Double.fl (p.y - p.speed) := rfl

theorem advance_speed (p : Particle) : (advance p).speed = p.speed := rfl

theorem advanceTimes_succ (n : ℕ) (p : Particle) :
    advanceTimes (n + 1) p = advanceTimes n (advance p) := rfl

theorem advanceTimes_fields (n : ℕ) :
    ∀ p : Particle, (advanceTimes n p).x = p.x ∧ (advanceTimes n p).text = p.text ∧
      (advanceTimes n p).size = p.size ∧ (advanceTimes n p).opacity = p.opacity ∧
      (advanceTimes n p).speed = p.speed := by
  induction n with
  | zero => intro p; exact ⟨rfl, rfl, rfl, rfl, rfl⟩
  | succ n ih => intro p; exact ih (advance p)

theorem animateTimes_step_rounded (a : Animator) (pg : Page) (a1 : Animator) (pg1 : Page)
    (n : ℕ) (h : animate a pg = .ok (a1, pg1)) :
    animateTimes a pg (n + 1) = animateTimes a1 pg1 n := by
  simp only [animateTimes, h]

/-- A particle whose rounded position stays at or above `-50` keeps its slot
through `n` calls. -/
theorem animateTimes_keep_rounded (n : ℕ) :
    ∀ (a : Animator) (pg : Page) (cv : Canvas) (i : ℕ) (p : Particle),
      a.canvas = some cv → a.particles[i]? = some p →
      (∀ k, 1 ≤ k → k ≤ n → -50 ≤ (advanceTimes k p).y) →
      ∃ (a1 : Animator) (pg1 : Page),
        animateTimes a pg n = .ok (a1, pg1) ∧ a1.canvas = some cv ∧
        pg1.rnd = pg.rnd ∧ a1.particles[i]? = some (advanceTimes n p) := by
  induction n with
  | zero =>
    intro a pg cv i p hc hp _
    exact ⟨a, pg, rfl, hc, rfl, hp⟩
  | succ n ih =>
    intro a pg cv i p hc hp hy
    obtain ⟨a1, pg1, h1, hc1, _, _, _, _, hext, _, _, _, hslots⟩ := animate_spec_rounded a pg cv hc
    have hy1 : ¬ (advance p).y < -50 := not_lt.mpr (hy 1 (le_refl _) (by omega))
    have hkeep : a1.particles[i]? = some (advance p) := (hslots i p hp).1 hy1
    obtain ⟨a2, pg2, h2, hc2, hr2, hget⟩ :=
      ih a1 pg1 cv i (advance p) (hc1.trans hc) hkeep
        (fun k hk1 hk2 => hy (k + 1) (by omega) (by omega))
    exact ⟨a2, pg2, by rw [animateTimes_step_rounded a pg a1 pg1 n h1, h2], hc2,
      hr2.trans hext.rnd, hget⟩

/-- C20 (binary64): on a located canvas, a particle whose position stays at or
above `-50` through `n` updates is, after `n` consecutive `animate()` calls,
still in its slot; its `y` is the result of `n` rounded subtractions of its
speed and its `angle` the result of `n` rounded additions of `0.0008`, all
other fields unchanged; no elapsed time enters the update. -/
theorem animateTimes_rounded (n : ℕ) (a : Animator) (pg : Page) (cv : Canvas) (i : ℕ)
    (p : Particle) (hc : a.canvas = some cv) (hp : a.particles[i]? = some p)
    (hy : ∀ k, 1 ≤ k → k ≤ n → -50 ≤ (advanceTimes k p).y) :
    ∃ (a1 : Animator) (pg1 : Page),
      animateTimes a pg n = .ok (a1, pg1) ∧
      a1.particles[i]? = some (advanceTimes n p) ∧
      (advanceTimes n p).x = p.x ∧ (advanceTimes n p).text = p.text ∧
      (advanceTimes n p).size = p.size ∧ (advanceTimes n p).opacity = p.opacity ∧
      (advanceTimes n p).speed = p.speed ∧
      (advanceTimes (n + 1) p).y = Double.fl ((advanceTimes n p).y - p.speed) ∧
      (advanceTimes (n + 1) p).angle =
        Double.fl ((advanceTimes n p).angle + Double.fl 0.0008) := by
  obtain ⟨a1, pg1, h1, _, _, hget⟩ := animateTimes_keep_rounded n a pg cv i p hc hp hy
  obtain ⟨f1, f2, f3, f4, f5⟩ := advanceTimes_fields n p
  have step : ∀ (m : ℕ) (q : Particle),
      advanceTimes (m + 1) q = advance (advanceTimes m q) := by
    intro m
    induction m with
    | zero => intro q; rfl
    | succ m ih => intro q; exact ih (advance q)
  refine ⟨a1, pg1, h1, hget, f1, f2, f3, f4, f5, ?_, ?_⟩
  · rw [step n p, advance_y, f5]
  · rw [step n p]
    rfl

theorem drifting_1 : (advanceTimes 1 drifting).y = -7001127095724147 / 140737488355328 := by
  show Double.fl (drifting.y - drifting.speed) = _
  exact Double.fl_drift_1

theorem drifting_2 : (advanceTimes 2 drifting).y = -3509500378372637 / 70368744177664 := by
  show Double.fl ((advanceTimes 1 drifting).y - drifting.speed) = _
  rw [drifting_1]
  exact Double.fl_drift_2

theorem drifting_3 : (advanceTimes 3 drifting).y = -7036874417766401 / 140737488355328 := by
  show Double.fl ((advanceTimes 2 drifting).y - drifting.speed) = _
  rw [drifting_2]
  exact Double.fl_drift_3

theorem animateTimes_rounded_witness :
    animator2.canvas = some { width := 800, height := 600 } ∧
    animator2.particles[0]? = some drifting ∧
    (∀ k, 1 ≤ k → k ≤ 2 → -50 ≤ (advanceTimes k drifting).y) ∧
    ∃ (a1 : Animator) (pg1 : Page),
      animateTimes animator2 page0 2 = .ok (a1, pg1) ∧
      a1.particles[0]? = some (advanceTimes 2 drifting) ∧
      (advanceTimes 2 drifting).x = drifting.x ∧ (advanceTimes 2 drifting).text = drifting.text ∧
      (advanceTimes 2 drifting).size = drifting.size ∧
      (advanceTimes 2 drifting).opacity = drifting.opacity ∧
      (advanceTimes 2 drifting).speed = drifting.speed ∧
      (advanceTimes (2 + 1) drifting).y =
        Double.fl ((advanceTimes 2 drifting).y - drifting.speed) ∧
      (advanceTimes (2 + 1) drifting).angle =
        Double.fl ((advanceTimes 2 drifting).angle + Double.fl 0.0008) :=
  have hy : ∀ k, 1 ≤ k → k ≤ 2 → -50 ≤ (advanceTimes k drifting).y := by
    intro k h1 h2
    have hk : k = 1 ∨ k = 2 := by omega
    rcases hk with rfl | rfl
    · rw [drifting_1]; norm_num
    · rw [drifting_2]; norm_num
  ⟨rfl, rfl, hy,
    animateTimes_rounded 2 animator2 page0 { width := 800, height := 600 } 0 drifting rfl rfl hy⟩

/-- C20, counterexample: the particle `drifting` has `speed ≥ 0` and
`y0 - 3 * speed ≥ -50` (exactly, and as the binary64 expression), yet after
three `animate()` calls its slot holds a respawned particle at
`y = canvas.height + 20 = 620`: the three rounded subtractions end below
`-50`.  After two calls `y` already differs from `y0 - 2 * speed`. -/
theorem animateTimes_not_linear :
    animator2.canvas = some { width := 800, height := 600 } ∧
    animator2.particles[0]? = some drifting ∧ 0 ≤ drifting.speed ∧
    -50 ≤ drifting.y - 3 * drifting.speed ∧
    -50 ≤ Double.fl (drifting.y - Double.fl (3 * drifting.speed)) ∧
    ∃ (a1 : Animator) (pg1 : Page) (q : Particle),
      animateTimes animator2 page0 3 = .ok (a1, pg1) ∧ a1.particles[0]? = some q ∧
      q.y = 620 ∧ q.y ≠ drifting.y - 3 * drifting.speed := by
  have hy : ∀ k, 1 ≤ k → k ≤ 2 → -50 ≤ (advanceTimes k drifting).y := by
    intro k h1 h2
    have hk : k = 1 ∨ k = 2 := by omega
    rcases hk with rfl | rfl
    · rw [drifting_1]; norm_num
    · rw [drifting_2]; norm_num
  obtain ⟨a1, pg1, h1, hc1, hr1, hget1⟩ :=
    animateTimes_keep_rounded 2 animator2 page0 { width := 800, height := 600 } 0 drifting
      rfl rfl hy
  obtain ⟨a2, pg2, h2, _, _, _, _, _, _, _, _, _, hslots⟩ :=
    animate_spec_rounded a1 pg1 { width := 800, height := 600 } hc1
  have hlow : (advance (advanceTimes 2 drifting)).y < -50 := by
    have e : (advance (advanceTimes 2 drifting)).y = (advanceTimes 3 drifting).y := rfl
    rw [e, drifting_3]
    norm_num
  obtain ⟨k, q, _, hq, hget2⟩ := (hslots 0 _ hget1).2 hlow
  rw [createParticle_false_rounded a1 (pg1.seek k) { width := 800, height := 600 } hc1] at hq
  injection hq with hq
  injection hq with hq _
  have hqy : q.y = 620 := by
    rw [← hq]
    show Double.fl (((600 : ℕ) : ℚ) + 20) = 620
    have e : ((600 : ℕ) : ℚ) + 20 = 620 := by norm_num
    rw [e]
    exact Double.fl_620
  have h3 : animateTimes animator2 page0 3 = .ok (a2, pg2) := by
    have split : ∀ (m : ℕ) (a : Animator) (pg : Page) (b : Animator) (pgb : Page),
        animateTimes a pg m = .ok (b, pgb) →
        animateTimes a pg (m + 1) = animate b pgb := by
      intro m
      induction m with
      | zero =>
        intro a pg b pgb h
        simp only [animateTimes] at h
        injection h with h
        injection h with ha hpg
        subst ha
        subst hpg
        simp only [animateTimes]
        cases animate a pg with
        | error e => rfl
        | ok r => rfl
      | succ m ih =>
        intro a pg b pgb h
        cases hs : animate a pg with
        | error e => simp only [animateTimes, hs] at h; cases h
        | ok r =>
          obtain ⟨a', pg'⟩ := r
          rw [animateTimes_step_rounded a pg a' pg' m hs] at h
          rw [animateTimes_step_rounded a pg a' pg' (m + 1) hs]
          exact ih a' pg' b pgb h
    rw [split 2 animator2 page0 a1 pg1 h1, h2]
  refine ⟨rfl, rfl, ?_, ?_, ?_, a2, pg2, q, h3, hget2, hqy, ?_⟩
  · norm_num [drifting]
  · norm_num [drifting]
  · have e1 : drifting.speed = 571957152676053 / 4503599627370496 := rfl
    have e2 : drifting.y = -1745813358675755 / 35184372088832 := rfl
    rw [e1, e2, Double.fl_three_speeds, Double.fl_drift_direct]
  · rw [hqy]
    norm_num [drifting]

end CanvasAnimation.Binary64

namespace Helpers

open CanvasAnimation (JsError)

/-! ## The aliases of `EventUtils` in `helpers.js` -/

/-- C16: evaluation at the failing input.  `helpers.js` imports nothing, so in
its module scope and on the page the identifier `EventUtils` is unbound:
`Helpers.debounce`, `Helpers.throttle` and `Helpers.sleep` raise a
`ReferenceError` for all arguments, while the `EventUtils` methods return.
Were the name bound, each would return what the `EventUtils` method returns. -/
theorem aliases_raise_referenceError (func : ℕ) (wait limit ms : ℚ) (immediate : Bool) :
    debounce pageGlobals func wait immediate
      = .error (.referenceError "EventUtils is not defined") ∧
    throttle pageGlobals func limit = .error (.referenceError "EventUtils is not defined") ∧
    sleep pageGlobals ms = .error (.referenceError "EventUtils is not defined") ∧
    EventUtils.debounce func wait immediate = .ok (.debounced func wait immediate) ∧
    EventUtils.throttle func limit = .ok (.throttled func limit) ∧
    EventUtils.wait ms = .ok (.promise ms) ∧
    debounce ("EventUtils" :: pageGlobals) func wait immediate
      = EventUtils.debounce func wait immediate ∧
    throttle ("EventUtils" :: pageGlobals) func limit = EventUtils.throttle func limit ∧
    sleep ("EventUtils" :: pageGlobals) ms = EventUtils.wait ms :=
  ⟨rfl, rfl, rfl, rfl, rfl, rfl, rfl, rfl, rfl⟩

/-! ## `isEmpty` -/

theorem all_dropWhile (p : Char → Bool) (cs : List Char) :
    (∀ c ∈ cs.dropWhile p, p c = true) ↔ ∀ c ∈ cs, p c = true := by
  induction cs with
  | nil => simp
  | cons c t ih =>
    by_cases hc : p c = true
    · rw [List.dropWhile_cons_of_pos hc, ih]
      constructor
      · intro h x hx
        rcases List.mem_cons.mp hx with hx | hx
        · rw [hx]; exact hc
        · exact h x hx
      · intro h x hx
        exact h x (List.mem_cons_of_mem c hx)
    · rw [List.dropWhile_cons_of_neg hc]

theorem trim_eq_nil (cs : List Char) :
    trim cs = [] ↔ ∀ c ∈ cs, isWhiteSpace c = true := by
  unfold trim
  rw [List.reverse_eq_nil_iff, List.dropWhile_eq_nil_iff]
  constructor
  · intro h
    exact (all_dropWhile isWhiteSpace cs).mp (fun c hc => h c (List.mem_reverse.mpr hc))
  · intro h c hc
    exact (all_dropWhile isWhiteSpace cs).mpr h c (List.mem_reverse.mp hc)

theorem length16_eq_zero (cs : List Char) : length16 cs = 0 ↔ cs = [] := by
  cases cs with
  | nil => simp [length16]
  | cons c t =>
    simp only [length16, List.map_cons, List.sum_cons]
    constructor
    · intro h
      split at h <;> omega
    · intro h
      cases h

/-- C19: `isEmpty(value)` is `true` exactly for `null`, `undefined`, a string
all of whose characters are white space (the empty string included), the
array of length 0 and the object without own enumerable keys; it is `false`
for every number (`0` and `NaN` included) and every boolean. -/
theorem isEmpty_iff (v : JsVal) :
    (isEmpty v = true ↔
      v = .null ∨ v = .undefined ∨
      (∃ s : String, v = .str s ∧ ∀ c ∈ s.toList, isWhiteSpace c = true) ∨
      v = .arr [] ∨ v = .obj []) ∧
    (∀ n : JsNum, isEmpty (.num n) = false) ∧ (∀ b : Bool, isEmpty (.bool b) = false) := by
  refine ⟨?_, fun _ => rfl, fun _ => rfl⟩
  cases v with
  | null => simp [isEmpty]
  | undefined => simp [isEmpty]
  | bool b => simp [isEmpty]
  | num n => simp [isEmpty]
  | str s =>
    simp only [isEmpty, beq_iff_eq, length16_eq_zero, trim_eq_nil]
    constructor
    · intro h
      exact Or.inr (Or.inr (Or.inl ⟨s, rfl, h⟩))
    · intro h
      rcases h with h | h | ⟨t, ht, hall⟩ | h | h
      · cases h
      · cases h
      · cases ht
        exact hall
      · cases h
      · cases h
  | arr items =>
    cases items with
    | nil => simp [isEmpty]
    | cons x xs => simp [isEmpty]
  | obj props =>
    cases props with
    | nil => simp [isEmpty, keysOf]
    | cons x xs => simp [isEmpty, keysOf]

/-! ## `deepClone` -/

theorem upsert_of_not_mem (props : List (Key × JsVal)) (k : Key) (v : JsVal)
    (h : k ∉ keysOf props) : upsert props k v = props ++ [(k, v)] := by
  induction props with
  | nil => rfl
  | cons e rest ih =>
    obtain ⟨k1, v1⟩ := e
    have hne : k1 ≠ k := by
      intro heq
      apply h
      rw [← heq]
      simp [keysOf]
    have hrest : k ∉ keysOf rest := by
      intro hm
      apply h
      simp only [keysOf, List.map_cons, List.mem_cons]
      exact Or.inr hm
    simp only [upsert, if_neg hne, ih hrest, List.cons_append]

theorem getOwn_eq_none (props : List (Key × JsVal)) (k : Key) (h : k ∉ keysOf props) :
    getOwn props k = none := by
  induction props with
  | nil => rfl
  | cons e rest ih =>
    obtain ⟨k1, v1⟩ := e
    have hne : k ≠ k1 := by
      intro heq
      apply h
      rw [heq]
      simp [keysOf]
    have hrest : k ∉ keysOf rest := by
      intro hm
      apply h
      simp only [keysOf, List.map_cons, List.mem_cons]
      exact Or.inr hm
    have hb : (k == k1) = false := by simpa using hne
    unfold getOwn
    rw [List.lookup_cons, hb]
    exact ih hrest

mutual
/-- On a well-formed value in which no object has an own key `hasOwnProperty`
or `__proto__`, `deepClone` returns a value equal to its argument. -/
theorem deepClone_ok : ∀ v : JsVal, v.WF → Unshadowed v → deepClone v = .ok v
  | .null, _, _ => rfl
  | .undefined, _, _ => rfl
  | .bool _, _, _ => rfl
  | .num _, _, _ => rfl
  | .str _, _, _ => rfl
  | .arr items, hw, hu => by
    have hw1 : itemsWF items := by simpa [JsVal.WF] using hw
    have hu1 : itemsUnshadowed items := by simpa [Unshadowed] using hu
    simp only [deepClone, cloneItems_ok items hw1 hu1]
  | .obj props, hw, hu => by
    have hw1 : propsWF props := by simpa [JsVal.WF] using hw
    have hu1 : hasOwnPropertyKey ∉ keysOf props ∧ protoKey ∉ keysOf props ∧
        propsUnshadowed props := by
      simpa [Unshadowed] using hu
    have h := cloneProps_ok props [] hw1 hu1.2.1 hu1.2.2 (fun k _ hk => by simp [keysOf] at hk)
    simp only [deepClone, getOwn_eq_none props hasOwnPropertyKey hu1.1, h, List.nil_append]
/-- The elements of a well-formed array are cloned one by one, in order. -/
theorem cloneItems_ok :
    ∀ items : List JsVal, itemsWF items → itemsUnshadowed items → cloneItems items = .ok items
  | [], _, _ => rfl
  | v :: vs, hw, hu => by
    have hw1 : v.WF ∧ itemsWF vs := by simpa [itemsWF] using hw
    have hu1 : Unshadowed v ∧ itemsUnshadowed vs := by simpa [itemsUnshadowed] using hu
    simp only [cloneItems, deepClone_ok v hw1.1 hu1.1, cloneItems_ok vs hw1.2 hu1.2]
/-- The loop over the entries appends each entry, cloned, to the new object. -/
theorem cloneProps_ok :
    ∀ (props acc : List (Key × JsVal)), propsWF props → protoKey ∉ keysOf props →
      propsUnshadowed props →
      (∀ k ∈ keysOf props, k ∉ keysOf acc) → cloneProps none props acc = .ok (acc ++ props)
  | [], acc, _, _, _, _ => by simp [cloneProps]
  | (k, v) :: rest, acc, hw, hp, hu, hd => by
    have hp1 : k ≠ protoKey ∧ protoKey ∉ keysOf rest := by
      simp only [keysOf, List.map_cons, List.mem_cons, not_or] at hp
      exact ⟨fun h => hp.1 h.symm, hp.2⟩
    have hw1 : k ∉ keysOf rest ∧ v.WF ∧ propsWF rest := by simpa [propsWF] using hw
    have hu1 : Unshadowed v ∧ propsUnshadowed rest := by simpa [propsUnshadowed] using hu
    have hk : k ∉ keysOf acc := hd k (by simp [keysOf])
    have hd1 : ∀ k1 ∈ keysOf rest, k1 ∉ keysOf (acc ++ [(k, v)]) := by
      intro k1 hk1 hmem
      simp only [keysOf, List.map_append, List.map_cons, List.map_nil, List.mem_append,
        List.mem_singleton] at hmem
      rcases hmem with hmem | hmem
      · exact hd k1 (by simp only [keysOf, List.map_cons, List.mem_cons]; exact Or.inr hk1) hmem
      · rw [hmem] at hk1
        exact hw1.1 hk1
    have ih := cloneProps_ok rest (acc ++ [(k, v)]) hw1.2.2 hp1.2 hu1.2 hd1
    simp only [cloneProps, deepClone_ok v hw1.2.1 hu1.1, if_neg hp1.1,
      upsert_of_not_mem acc k v hk, ih, List.append_assoc, List.singleton_append]
end

/-- C17: evaluation at the failing input.  On the plain object
`{ hasOwnProperty: 1 }`, and on `{ a: { hasOwnProperty: null } }`, the call
`obj.hasOwnProperty(key)` inside the loop reads the own property, which is no
function, and `deepClone` raises a `TypeError` instead of returning a copy. -/
theorem deepClone_throws_on_shadowed_method :
    deepClone (.obj [(hasOwnPropertyKey, .num (.fin 1))])
      = .error (.typeError "obj.hasOwnProperty is not a function") ∧
    deepClone (.obj [(⟨"a"⟩, .obj [(hasOwnPropertyKey, .null)])])
      = .error (.typeError "obj.hasOwnProperty is not a function") ∧
    deepClone (.obj objXA) = .ok (.obj objXA) :=
  ⟨rfl, rfl, rfl⟩

/-- An own key `__proto__` is not copied by `deepClone`: the assignment reaches
the setter of `Object.prototype`. -/
theorem deepClone_drops_proto_key :
    deepClone (.obj objProto5) = .ok (.obj []) ∧
    deepClone (.obj objProtoX) = .ok (.obj []) :=
  ⟨rfl, rfl⟩

/-! ## `deepMerge` on objects without a key `__proto__` -/

theorem getOwn_upsert_self (props : List (Key × JsVal)) (k : Key) (v : JsVal) :
    getOwn (upsert props k v) k = some v := by
  induction props with
  | nil => simp [upsert, getOwn, List.lookup]
  | cons e rest ih =>
    obtain ⟨k1, v1⟩ := e
    by_cases h : k1 = k
    · simp [upsert, h, getOwn, List.lookup]
    · have hb : (k == k1) = false := by
        simp only [beq_eq_false_iff_ne]
        exact fun heq => h heq.symm
      simp only [upsert, if_neg h]
      unfold getOwn at ih ⊢
      rw [List.lookup_cons, hb]
      exact ih

theorem getOwn_upsert_ne (props : List (Key × JsVal)) (k k1 : Key) (v : JsVal) (h : k1 ≠ k) :
    getOwn (upsert props k v) k1 = getOwn props k1 := by
  induction props with
  | nil =>
    have hb : (k1 == k) = false := by simpa using h
    simp [upsert, getOwn, List.lookup, hb]
  | cons e rest ih =>
    obtain ⟨k2, v2⟩ := e
    unfold getOwn at ih ⊢
    by_cases h2 : k2 = k
    · have hb : (k1 == k) = false := by simpa using h
      have hb2 : (k1 == k2) = false := by rw [h2]; exact hb
      simp only [upsert, if_pos h2, List.lookup_cons, hb, hb2]
    · simp only [upsert, if_neg h2, List.lookup_cons]
      rw [ih]

theorem mem_keysOf_upsert (props : List (Key × JsVal)) (k k1 : Key) (v : JsVal) :
    k1 ∈ keysOf (upsert props k v) ↔ k1 = k ∨ k1 ∈ keysOf props := by
  induction props with
  | nil => simp [upsert, keysOf]
  | cons e rest ih =>
    obtain ⟨k2, v2⟩ := e
    by_cases h2 : k2 = k
    · subst h2
      simp only [upsert, if_true, keysOf, List.map_cons, List.mem_cons]
      tauto
    · simp only [upsert, if_neg h2, keysOf, List.map_cons, List.mem_cons]
      simp only [keysOf] at ih
      rw [ih]
      tauto

theorem mem_of_getOwn (props : List (Key × JsVal)) (k : Key) (v : JsVal)
    (h : getOwn props k = some v) : (k, v) ∈ props := by
  induction props with
  | nil => simp [getOwn, List.lookup] at h
  | cons e rest ih =>
    obtain ⟨k1, v1⟩ := e
    unfold getOwn at h ih
    rw [List.lookup_cons] at h
    by_cases hk : k = k1
    · have hb : (k == k1) = true := by simpa using hk
      rw [hb] at h
      simp only [Option.some.injEq] at h
      rw [hk, h]
      exact List.mem_cons_self _ _
    · have hb : (k == k1) = false := by simpa using hk
      rw [hb] at h
      exact List.mem_cons_of_mem _ (ih h)

theorem getOwn_of_mem (props : List (Key × JsVal)) (k : Key) (v : JsVal)
    (hn : (keysOf props).Nodup) (h : (k, v) ∈ props) : getOwn props k = some v := by
  induction props with
  | nil => cases h
  | cons e rest ih =>
    obtain ⟨k1, v1⟩ := e
    simp only [keysOf, List.map_cons, List.nodup_cons] at hn
    unfold getOwn at ih ⊢
    rw [List.lookup_cons]
    rcases List.mem_cons.mp h with heq | hmem
    · injection heq with hk hv
      have hb : (k == k1) = true := by simpa using hk
      rw [hb, hv]
    · have hk : k ≠ k1 := by
        intro heq
        apply hn.1
        rw [← heq]
        exact List.mem_map.mpr ⟨(k, v), hmem, rfl⟩
      have hb : (k == k1) = false := by simpa using hk
      rw [hb]
      exact ih hn.2 hmem

theorem nodup_of_propsWF : ∀ props : List (Key × JsVal), propsWF props → (keysOf props).Nodup
  | [], _ => List.nodup_nil
  | (k, v) :: rest, h => by
    have h1 : k ∉ keysOf rest ∧ v.WF ∧ propsWF rest := by simpa [propsWF] using h
    simp only [keysOf, List.map_cons, List.nodup_cons]
    exact ⟨h1.1, nodup_of_propsWF rest h1.2.2⟩

theorem wf_of_mem : ∀ (props : List (Key × JsVal)) (k : Key) (v : JsVal),
    propsWF props → (k, v) ∈ props → v.WF
  | [], _, _, _, h => by cases h
  | (k1, v1) :: rest, k, v, hw, h => by
    have h1 : k1 ∉ keysOf rest ∧ v1.WF ∧ propsWF rest := by simpa [propsWF] using hw
    rcases List.mem_cons.mp h with heq | hmem
    · injection heq with _ hv
      rw [hv]
      exact h1.2.1
    · exact wf_of_mem rest k v h1.2.2 hmem

theorem depth_of_mem : ∀ (props : List (Key × JsVal)) (k : Key) (v : JsVal),
    (k, v) ∈ props → v.depth ≤ propsDepth props
  | [], _, _, h => by cases h
  | (k1, v1) :: rest, k, v, h => by
    simp only [propsDepth]
    rcases List.mem_cons.mp h with heq | hmem
    · injection heq with _ hv
      rw [hv]
      exact le_max_left _ _
    · exact le_trans (depth_of_mem rest k v hmem) (le_max_right _ _)

theorem protoFree_of_mem : ∀ (props : List (Key × JsVal)) (k : Key) (v : JsVal),
    propsProtoFree props → (k, v) ∈ props → k ≠ protoKey ∧ ProtoFree v
  | [], _, _, _, h => by cases h
  | (k1, v1) :: rest, k, v, hw, h => by
    have h1 : k1 ≠ protoKey ∧ ProtoFree v1 ∧ propsProtoFree rest := by
      simpa [propsProtoFree] using hw
    rcases List.mem_cons.mp h with heq | hmem
    · injection heq with hk hv
      rw [hk, hv]
      exact ⟨h1.1, h1.2.1⟩
    · exact protoFree_of_mem rest k v h1.2.2 hmem

theorem get_plain (prev : List (Key × JsVal)) (k : Key) (hk : k ≠ protoKey) :
    (plain prev).get k = (getOwn prev k).getD .undefined := by
  unfold ProtoObj.get plain
  cases getOwn prev k with
  | none => simp [hk]
  | some v => rfl

theorem set_plain (prev : List (Key × JsVal)) (k : Key) (v : JsVal) (c : List JsVal)
    (r : Bool) (hk : k ≠ protoKey) : (plain prev).set k v c r = plain (upsert prev k v) := by
  unfold ProtoObj.set plain
  simp [hk]

/-- On an object with prototype `Object.prototype` and for a key other than
`__proto__`, the callback sets the own property to the merged value. -/
theorem mergeKey_plain
    (merge : List (Key × JsVal) → List (Key × JsVal) → Option ProtoObj)
    (prev : List (Key × JsVal)) (e : Key × JsVal) (hk : e.1 ≠ protoKey) :
    mergeKey merge (plain prev) e =
      (mergedValue merge (getOwn prev e.1) e.2).map (fun x => plain (upsert prev e.1 x)) := by
  obtain ⟨k, v⟩ := e
  simp only at hk
  unfold mergeKey
  simp only [get_plain prev k hk, set_plain prev k _ _ _ hk]
  cases hg : getOwn prev k with
  | none => cases v <;> simp [mergedValue]
  | some pv =>
    cases pv <;> cases v <;> simp [mergedValue]
    rename_i pVal oVal
    cases merge pVal oVal <;> simp

/-- The loop over the keys of one object: it returns when every assigned
value is defined, the result has prototype `Object.prototype`, its keys are
those of `prev` and of the object, the other keys keep their value, and each
key of the object holds its merged value, computed from the value `prev` had
before the loop. -/
theorem mergeKeys_spec
    (merge : List (Key × JsVal) → List (Key × JsVal) → Option ProtoObj) :
    ∀ (l prev : List (Key × JsVal)), (keysOf l).Nodup → (∀ e ∈ l, e.1 ≠ protoKey) →
      (∀ e ∈ l, ∃ x, mergedValue merge (getOwn prev e.1) e.2 = some x) →
      ∃ r, l.foldlM (mergeKey merge) (plain prev) = some (plain r) ∧
        (∀ k, k ∈ keysOf r ↔ k ∈ keysOf prev ∨ k ∈ keysOf l) ∧
        (∀ k, k ∉ keysOf l → getOwn r k = getOwn prev k) ∧
        (∀ e ∈ l, getOwn r e.1 = mergedValue merge (getOwn prev e.1) e.2) := by
  intro l
  induction l with
  | nil =>
    intro prev _ _ _
    exact ⟨prev, rfl, by simp [keysOf], fun _ _ => rfl, fun e he => by cases he⟩
  | cons e t ih =>
    intro prev hn hp hex
    obtain ⟨k, v⟩ := e
    simp only [keysOf, List.map_cons, List.nodup_cons] at hn
    obtain ⟨x, hx⟩ := hex (k, v) (List.mem_cons_self _ _)
    have hkp : k ≠ protoKey := hp (k, v) (List.mem_cons_self _ _)
    have hne : ∀ e1 ∈ t, e1.1 ≠ k := by
      intro e1 he1 heq
      apply hn.1
      rw [← heq]
      exact List.mem_map.mpr ⟨e1, he1, rfl⟩
    have hsame : ∀ e1 ∈ t, getOwn (upsert prev k x) e1.1 = getOwn prev e1.1 :=
      fun e1 he1 => getOwn_upsert_ne prev k e1.1 x (hne e1 he1)
    obtain ⟨r, hr, hkeys, hframe, hvals⟩ := ih (upsert prev k x) hn.2
      (fun e1 he1 => hp e1 (List.mem_cons_of_mem _ he1)) (by
      intro e1 he1
      rw [hsame e1 he1]
      exact hex e1 (List.mem_cons_of_mem _ he1))
    refine ⟨r, ?_, ?_, ?_, ?_⟩
    · rw [List.foldlM_cons, mergeKey_plain merge prev (k, v) hkp]
      simp only [hx, Option.map_some', Option.bind_eq_bind, Option.some_bind]
      exact hr
    · intro k1
      rw [hkeys, mem_keysOf_upsert]
      simp only [keysOf, List.map_cons, List.mem_cons]
      tauto
    · intro k1 hk1
      simp only [keysOf, List.map_cons, List.mem_cons, not_or] at hk1
      rw [hframe k1 hk1.2]
      exact getOwn_upsert_ne prev k k1 x hk1.1
    · intro e1 he1
      rcases List.mem_cons.mp he1 with heq | hmem
      · rw [heq]
        simp only
        rw [hframe k hn.1, getOwn_upsert_self, hx]
      · rw [hvals e1 hmem, hsame e1 hmem]

/-- Two recursive calls that assign the same values give the same loop. -/
theorem mergeKeys_congr
    (m1 m2 : List (Key × JsVal) → List (Key × JsVal) → Option ProtoObj) :
    ∀ (l prev : List (Key × JsVal)), (keysOf l).Nodup → (∀ e ∈ l, e.1 ≠ protoKey) →
      (∀ e ∈ l, mergedValue m1 (getOwn prev e.1) e.2 = mergedValue m2 (getOwn prev e.1) e.2) →
      l.foldlM (mergeKey m1) (plain prev) = l.foldlM (mergeKey m2) (plain prev) := by
  intro l
  induction l with
  | nil => intro prev _ _ _; rfl
  | cons e t ih =>
    intro prev hn hp heq
    obtain ⟨k, v⟩ := e
    simp only [keysOf, List.map_cons, List.nodup_cons] at hn
    have hkp : k ≠ protoKey := hp (k, v) (List.mem_cons_self _ _)
    have h0 := heq (k, v) (List.mem_cons_self _ _)
    simp only at h0
    rw [List.foldlM_cons, List.foldlM_cons, mergeKey_plain m1 prev (k, v) hkp,
      mergeKey_plain m2 prev (k, v) hkp]
    simp only
    rw [h0]
    cases hx : mergedValue m2 (getOwn prev k) v with
    | none => rfl
    | some x =>
      simp only [Option.map_some', Option.bind_eq_bind, Option.some_bind]
      apply ih (upsert prev k x) hn.2 (fun e1 he1 => hp e1 (List.mem_cons_of_mem _ he1))
      intro e1 he1
      have hne : e1.1 ≠ k := by
        intro h
        apply hn.1
        rw [← h]
        exact List.mem_map.mpr ⟨e1, he1, rfl⟩
      rw [getOwn_upsert_ne prev k e1.1 x hne]
      exact heq e1 (List.mem_cons_of_mem _ he1)

/-- The first object is copied key by key into the empty accumulator. -/
theorem mergeKeys_copy
    (merge : List (Key × JsVal) → List (Key × JsVal) → Option ProtoObj) :
    ∀ (l acc : List (Key × JsVal)), (keysOf l).Nodup → (∀ e ∈ l, e.1 ≠ protoKey) →
      (∀ k ∈ keysOf l, k ∉ keysOf acc) →
      l.foldlM (mergeKey merge) (plain acc) = some (plain (acc ++ l)) := by
  intro l
  induction l with
  | nil => intro acc _ _ _; simp
  | cons e t ih =>
    intro acc hn hp hd
    obtain ⟨k, v⟩ := e
    simp only [keysOf, List.map_cons, List.nodup_cons] at hn
    have hkp : k ≠ protoKey := hp (k, v) (List.mem_cons_self _ _)
    have hk : k ∉ keysOf acc := hd k (by simp [keysOf])
    rw [List.foldlM_cons, mergeKey_plain merge acc (k, v) hkp]
    simp only [getOwn_eq_none acc k hk, mergedValue, Option.map_some', Option.bind_eq_bind,
      Option.some_bind]
    rw [upsert_of_not_mem acc k v hk, ih (acc ++ [(k, v)]) hn.2
      (fun e1 he1 => hp e1 (List.mem_cons_of_mem _ he1))]
    · simp
    · intro k1 hk1 hmem
      simp only [keysOf, List.map_append, List.map_cons, List.map_nil, List.mem_append,
        List.mem_singleton] at hmem
      rcases hmem with hmem | hmem
      · exact hd k1 (by simp only [keysOf, List.map_cons, List.mem_cons]; exact Or.inr hk1) hmem
      · rw [hmem] at hk1
        exact hn.1 hk1

theorem deepMerge_two_eq (fuel : ℕ) (a b : List (Key × JsVal)) (ha : (keysOf a).Nodup)
    (hpa : ∀ e ∈ a, e.1 ≠ protoKey) :
    deepMerge (fuel + 1) [a, b] =
      b.foldlM (mergeKey (fun pVal oVal => deepMerge fuel [pVal, oVal])) (plain a) := by
  have hcopy := mergeKeys_copy (fun pVal oVal => deepMerge fuel [pVal, oVal]) a [] ha hpa
    (fun k _ hk => by simp [keysOf] at hk)
  simp only [List.nil_append] at hcopy
  have he : ProtoObj.empty = plain [] := rfl
  simp only [deepMerge, List.foldlM_cons, List.foldlM_nil, he, hcopy, Option.bind_eq_bind,
    Option.some_bind, Option.pure_def, Option.bind_some]

theorem mergedValue_obj
    (merge : List (Key × JsVal) → List (Key × JsVal) → Option ProtoObj)
    (p o : List (Key × JsVal)) :
    mergedValue merge (some (.obj p)) (.obj o) = (merge p o).map (fun m => JsVal.obj m.own) := by
  simp only [mergedValue]
  cases merge p o <;> rfl

theorem mergedValue_other
    (merge : List (Key × JsVal) → List (Key × JsVal) → Option ProtoObj)
    (pVal : Option JsVal) (oVal : JsVal)
    (h : ¬ ((pVal.getD .undefined).isObject = true ∧ oVal.isObject = true)) :
    mergedValue merge pVal oVal = some oVal := by
  cases pVal with
  | none => cases oVal <;> rfl
  | some pv =>
    cases pv <;> cases oVal <;> first | rfl | (exfalso; exact h ⟨rfl, rfl⟩)

/-- With the nested merges defined from fuel `d` on, the merge of two objects
is defined, and the same, for every fuel above `d`. -/
theorem deepMerge_two_step (d : ℕ) (a b : List (Key × JsVal))
    (ha : (keysOf a).Nodup) (hb : (keysOf b).Nodup)
    (hpa : ∀ e ∈ a, e.1 ≠ protoKey) (hpb : ∀ e ∈ b, e.1 ≠ protoKey)
    (H : ∀ e ∈ b, ∀ pa pb, getOwn a e.1 = some (.obj pa) → e.2 = .obj pb →
      ∃ m, ∀ f, d ≤ f → deepMerge f [pa, pb] = some m) :
    ∃ r, (∀ fuel, d < fuel → deepMerge fuel [a, b] = some (plain r)) ∧
      b.foldlM (mergeKey (fun pVal oVal => deepMerge d [pVal, oVal])) (plain a)
        = some (plain r) := by
  have hval : ∀ f, d ≤ f → ∀ e ∈ b,
      mergedValue (fun pVal oVal => deepMerge f [pVal, oVal]) (getOwn a e.1) e.2 =
        mergedValue (fun pVal oVal => deepMerge d [pVal, oVal]) (getOwn a e.1) e.2 ∧
      ∃ x, mergedValue (fun pVal oVal => deepMerge d [pVal, oVal]) (getOwn a e.1) e.2
        = some x := by
    intro f hf e he
    by_cases hobj : ((getOwn a e.1).getD .undefined).isObject = true ∧ e.2.isObject = true
    · obtain ⟨h1, h2⟩ := hobj
      cases hg : getOwn a e.1 with
      | none => rw [hg] at h1; cases h1
      | some pv =>
        rw [hg] at h1
        cases pv with
        | obj pa =>
          cases hv : e.2 with
          | obj pb =>
            obtain ⟨m, hm⟩ := H e he pa pb hg hv
            rw [mergedValue_obj, mergedValue_obj]
            have hf1 : deepMerge f [pa, pb] = some m := hm f hf
            have hd1 : deepMerge d [pa, pb] = some m := hm d (le_refl d)
            simp only [hf1, hd1]
            exact ⟨trivial, _, rfl⟩
          | _ => rw [hv] at h2; cases h2
        | _ => cases h1
    · rw [mergedValue_other _ _ _ hobj, mergedValue_other _ _ _ hobj]
      exact ⟨rfl, _, rfl⟩
  obtain ⟨r, hr, _⟩ := mergeKeys_spec (fun pVal oVal => deepMerge d [pVal, oVal]) b a hb hpb
    (fun e he => (hval d (le_refl d) e he).2)
  refine ⟨r, ?_, hr⟩
  intro fuel hf
  cases fuel with
  | zero => omega
  | succ f =>
    rw [deepMerge_two_eq f a b ha hpa,
      mergeKeys_congr (fun pVal oVal => deepMerge f [pVal, oVal])
        (fun pVal oVal => deepMerge d [pVal, oVal]) b a hb hpb
        (fun e he => (hval f (by omega) e he).1)]
    exact hr

theorem keys_of_propsProtoFree (props : List (Key × JsVal)) (h : propsProtoFree props) :
    ∀ e ∈ props, e.1 ≠ protoKey :=
  fun e he => (protoFree_of_mem props e.1 e.2 h he).1

/-- The merge of two well-formed objects without a key `__proto__` is defined
for every fuel above the depth of the second one, does not depend on the fuel,
and has the prototype `Object.prototype`. -/
theorem deepMerge_two_total :
    ∀ (d : ℕ) (a b : List (Key × JsVal)), propsWF a → propsWF b →
      propsProtoFree a → propsProtoFree b → propsDepth b ≤ d →
      ∃ r, ∀ fuel, d < fuel → deepMerge fuel [a, b] = some (plain r) := by
  intro d
  induction d with
  | zero =>
    intro a b ha hb hfa hfb hd
    obtain ⟨r, hr, _⟩ := deepMerge_two_step 0 a b (nodup_of_propsWF a ha)
      (nodup_of_propsWF b hb) (keys_of_propsProtoFree a hfa) (keys_of_propsProtoFree b hfb) (by
        intro e he pa pb _ hv
        have h1 := depth_of_mem b e.1 e.2 he
        rw [hv] at h1
        simp only [JsVal.depth] at h1
        omega)
    exact ⟨r, hr⟩
  | succ d ih =>
    intro a b ha hb hfa hfb hd
    obtain ⟨r, hr, _⟩ := deepMerge_two_step (d + 1) a b (nodup_of_propsWF a ha)
      (nodup_of_propsWF b hb) (keys_of_propsProtoFree a hfa) (keys_of_propsProtoFree b hfb) (by
        intro e he pa pb hg hv
        have h1 := depth_of_mem b e.1 e.2 he
        rw [hv] at h1
        simp only [JsVal.depth] at h1
        have hma := mem_of_getOwn a e.1 _ hg
        have hwa : (JsVal.obj pa).WF := wf_of_mem a e.1 _ ha hma
        have hwb : e.2.WF := wf_of_mem b e.1 e.2 hb he
        have hqa : ProtoFree (JsVal.obj pa) := (protoFree_of_mem a e.1 _ hfa hma).2
        have hqb : ProtoFree e.2 := (protoFree_of_mem b e.1 e.2 hfb he).2
        rw [hv] at hwb hqb
        obtain ⟨m, hm⟩ := ih pa pb (by simpa [JsVal.WF] using hwa)
          (by simpa [JsVal.WF] using hwb) (by simpa [ProtoFree] using hqa)
          (by simpa [ProtoFree] using hqb) (by omega)
        exact ⟨plain m, fun f hf => hm f (by omega)⟩)
    exact ⟨r, hr⟩

/-- For well-formed plain objects `a` and `b` in which no object has an own key
`__proto__`, `deepMerge(a, b)` returns (for every fuel above the depth of `b`,
with one result) an object with prototype `Object.prototype` whose keys are
those of `a` together with those of `b`; a key of `b` holds
`deepMerge(a[k], b[k])` when `a[k]` and `b[k]` are both non-array objects and
`b[k]` otherwise; a key that `b` lacks holds `a[k]`. -/
theorem deepMerge_two_plain (a b : List (Key × JsVal)) (ha : propsWF a) (hb : propsWF b)
    (hfa : propsProtoFree a) (hfb : propsProtoFree b) :
    ∃ r : List (Key × JsVal),
      (∀ fuel, propsDepth b < fuel → deepMerge fuel [a, b] = some (plain r)) ∧
      (∀ k, k ∈ keysOf r ↔ k ∈ keysOf a ∨ k ∈ keysOf b) ∧
      (∀ k vb, getOwn b k = some vb →
        (∀ pa pb, getOwn a k = some (.obj pa) → vb = .obj pb →
          ∃ m, (∀ fuel, propsDepth pb < fuel → deepMerge fuel [pa, pb] = some (plain m)) ∧
            getOwn r k = some (.obj m)) ∧
        (¬ (((getOwn a k).getD .undefined).isObject = true ∧ vb.isObject = true) →
          getOwn r k = some vb)) ∧
      (∀ k, getOwn b k = none → getOwn r k = getOwn a k) := by
  have hna := nodup_of_propsWF a ha
  have hnb := nodup_of_propsWF b hb
  have hpa := keys_of_propsProtoFree a hfa
  have hpb := keys_of_propsProtoFree b hfb
  have hsub : ∀ e ∈ b, ∀ pa pb, getOwn a e.1 = some (.obj pa) → e.2 = .obj pb →
      ∃ m, (∀ fuel, propsDepth pb < fuel → deepMerge fuel [pa, pb] = some (plain m)) ∧
        propsDepth pb < propsDepth b := by
    intro e he pa pb hg hv
    have h1 := depth_of_mem b e.1 e.2 he
    rw [hv] at h1
    simp only [JsVal.depth] at h1
    have hma := mem_of_getOwn a e.1 _ hg
    have hwa : (JsVal.obj pa).WF := wf_of_mem a e.1 _ ha hma
    have hwb : e.2.WF := wf_of_mem b e.1 e.2 hb he
    have hqa : ProtoFree (JsVal.obj pa) := (protoFree_of_mem a e.1 _ hfa hma).2
    have hqb : ProtoFree e.2 := (protoFree_of_mem b e.1 e.2 hfb he).2
    rw [hv] at hwb hqb
    obtain ⟨m, hm⟩ := deepMerge_two_total (propsDepth pb) pa pb (by simpa [JsVal.WF] using hwa)
      (by simpa [JsVal.WF] using hwb) (by simpa [ProtoFree] using hqa)
      (by simpa [ProtoFree] using hqb) (le_refl _)
    exact ⟨m, hm, by omega⟩
  obtain ⟨r, hr, hfold⟩ := deepMerge_two_step (propsDepth b) a b hna hnb hpa hpb (by
    intro e he pa pb hg hv
    obtain ⟨m, hm, hlt⟩ := hsub e he pa pb hg hv
    exact ⟨plain m, fun f hf => hm f (by omega)⟩)
  have hex : ∀ e ∈ b, ∃ x,
      mergedValue (fun pVal oVal => deepMerge (propsDepth b) [pVal, oVal]) (getOwn a e.1) e.2
        = some x := by
    intro e he
    by_cases hobj : ((getOwn a e.1).getD .undefined).isObject = true ∧ e.2.isObject = true
    · obtain ⟨h1, h2⟩ := hobj
      cases hg : getOwn a e.1 with
      | none => rw [hg] at h1; cases h1
      | some pv =>
        rw [hg] at h1
        cases pv with
        | obj pa =>
          cases hv : e.2 with
          | obj pb =>
            obtain ⟨m, hm, hlt⟩ := hsub e he pa pb hg hv
            rw [mergedValue_obj]
            have hd1 : deepMerge (propsDepth b) [pa, pb] = some (plain m) := hm _ hlt
            simp only [hd1]
            exact ⟨_, rfl⟩
          | _ => rw [hv] at h2; cases h2
        | _ => cases h1
    · rw [mergedValue_other _ _ _ hobj]
      exact ⟨_, rfl⟩
  obtain ⟨r1, hr1, hkeys, hframe, hvals⟩ :=
    mergeKeys_spec (fun pVal oVal => deepMerge (propsDepth b) [pVal, oVal]) b a hnb hpb hex
  have hrr : r1 = r := by
    rw [hr1] at hfold
    have h := Option.some.inj hfold
    exact congrArg ProtoObj.own h
  subst hrr
  refine ⟨r1, hr, hkeys, ?_, ?_⟩
  · intro k vb hkb
    have hmem : (k, vb) ∈ b := mem_of_getOwn b k vb hkb
    have hv := hvals (k, vb) hmem
    simp only at hv
    refine ⟨?_, ?_⟩
    · intro pa pb hga hvb
      obtain ⟨m, hm, hlt⟩ := hsub (k, vb) hmem pa pb hga hvb
      refine ⟨m, hm, ?_⟩
      rw [hv, hga, hvb, mergedValue_obj]
      have hd1 : deepMerge (propsDepth b) [pa, pb] = some (plain m) := hm _ hlt
      simp only [hd1, Option.map_some']
      rfl
    · intro hobj
      rw [hv, mergedValue_other _ _ _ hobj]
  · intro k hkb
    apply hframe
    intro hmem
    obtain ⟨e, he, hek⟩ := List.mem_map.mp hmem
    have hg := getOwn_of_mem b e.1 e.2 hnb he
    rw [hek, hkb] at hg
    cases hg

/-! ## `deepMerge` -/

/-- C18: evaluation at the failing inputs.  For `b = JSON.parse` of
`{ __proto__: 5 }`, `deepMerge` of `{}` and `b` reads `prev[key]` through the
getter of `Object.prototype` and assigns through its setter, which ignores a
number: the result has no own key, although `b` has one.  With the value
`{ x: { a: 1 } }` under that key the setter makes it the prototype of the
result, again without an own key, and a later key `x` of `{ x: { b: 2 } }` is
merged with the inherited `{ a: 1 }` although the first argument has no key
`x`.  On `{ x: { a: 1 }, y: 0 }` and `{ x: { b: 2 }, z: [] }` the result is as
claimed, and `deepMerge()` is the empty object. -/
theorem deepMerge_drops_proto_key :
    (∀ fuel, deepMerge (fuel + 1) [[], objProto5] = some ProtoObj.empty) ∧
    getOwn objProto5 protoKey = some (.num (.fin 5)) ∧
    (∀ fuel, ∃ r, deepMerge (fuel + 2) [[], objProtoX] = some r ∧ r.own = [] ∧
      r.chain = [.obj [(⟨"x"⟩, .obj objA)]]) ∧
    (∀ fuel, ∃ r, deepMerge (fuel + 2) [objProtoX, objX] = some r ∧
      r.own = [(⟨"x"⟩, .obj [(⟨"a"⟩, .num (.fin 1)), (⟨"b"⟩, .num (.fin 2))])] ∧
      getOwn objProtoX ⟨"x"⟩ = none ∧ getOwn objX ⟨"x"⟩ = some (.obj objB)) ∧
    (∀ fuel, ∃ r, deepMerge (fuel + 2) [objXA, objXB] = some r ∧
      r.own = [(⟨"x"⟩, .obj [(⟨"a"⟩, .num (.fin 1)), (⟨"b"⟩, .num (.fin 2))]),
               (⟨"y"⟩, .num (.fin 0)), (⟨"z"⟩, .arr [])]) ∧
    (∀ fuel, deepMerge (fuel + 1) [] = some ProtoObj.empty) :=
  ⟨fun _ => rfl, rfl,
    fun _ => ⟨{ own := [], chain := [.obj [(⟨"x"⟩, .obj objA)]], rooted := true }, rfl, rfl, rfl⟩,
    fun _ => ⟨{ own := [(⟨"x"⟩, .obj [(⟨"a"⟩, .num (.fin 1)), (⟨"b"⟩, .num (.fin 2))])],
                chain := [.obj [(⟨"x"⟩, .obj objA)]], rooted := true }, rfl, rfl, rfl, rfl⟩,
    fun _ => ⟨{ own := [(⟨"x"⟩, .obj [(⟨"a"⟩, .num (.fin 1)), (⟨"b"⟩, .num (.fin 2))]),
                        (⟨"y"⟩, .num (.fin 0)), (⟨"z"⟩, .arr [])],
                chain := [], rooted := true }, rfl, rfl⟩,
    fun _ => rfl⟩

end Helpers

namespace CanvasAnimation

/-! ## The label of a particle -/

theorem symbols_length : symbols.length = 24 := rfl

/-- C21: with the catalog of the constructor and a draw `r` in `[0, 1)`, the
index `floor(r * symbols.length)` read by `createParticle` is one of
`0, ..., 23`, and the label of the particle is the catalog entry at that
index: one of the 24 strings, never `undefined`. -/
theorem createParticle_text_in_catalog (a : Animator) (pg : Page) (cv : Canvas)
    (fromTop : Bool) (hc : a.canvas = some cv) (hs : a.symbols = symbols)
    (hr : UnitDraws pg.rnd) :
    ∃ (p : Particle) (pg1 : Page) (i : ℕ) (s : String),
      createParticle a pg fromTop = .ok (p, pg1) ∧
      Rat.floor (pg.rnd (pg.cursor + 1 + (if fromTop then 1 else 0)) * a.symbols.length)
        = (i : ℤ) ∧
      i < 24 ∧ symbols[i]? = some s ∧ p.text = some s ∧ s ∈ symbols := by
  have key : ∀ r : ℚ, 0 ≤ r → r < 1 →
      ∃ (i : ℕ) (s : String), Rat.floor (r * ((symbols.length : ℕ) : ℚ)) = (i : ℤ) ∧ i < 24 ∧
        symbols[i]? = some s ∧ index symbols (Rat.floor (r * ((symbols.length : ℕ) : ℚ))) = some s ∧
        s ∈ symbols := by
    intro r h0 h1
    have hfl : Rat.floor (r * ((symbols.length : ℕ) : ℚ)) = ⌊r * ((symbols.length : ℕ) : ℚ)⌋ := rfl
    have hlen : ((symbols.length : ℕ) : ℚ) = 24 := by rw [symbols_length]; norm_num
    have hnn : 0 ≤ ⌊r * ((symbols.length : ℕ) : ℚ)⌋ := by
      apply Int.floor_nonneg.mpr
      rw [hlen]
      positivity
    have hlt : ⌊r * ((symbols.length : ℕ) : ℚ)⌋ < 24 := by
      apply Int.floor_lt.mpr
      rw [hlen]
      push_cast
      linarith
    obtain ⟨i, hi⟩ := Int.eq_ofNat_of_zero_le hnn
    have hi24 : i < 24 := by
      rw [hi] at hlt
      exact_mod_cast hlt
    have hil : i < symbols.length := by rw [symbols_length]; exact hi24
    refine ⟨i, symbols[i], ?_, hi24, List.getElem?_eq_getElem hil, ?_, List.getElem_mem hil⟩
    · rw [hfl, hi]
    · rw [hfl, hi]
      exact List.getElem?_eq_getElem hil
  cases fromTop with
  | true =>
    obtain ⟨i, s, h1, h2, h3, h4, h5⟩ := key _ (hr (pg.cursor + 2)).1 (hr (pg.cursor + 2)).2
    refine ⟨_, _, i, s, createParticle_true a pg cv hc, ?_, h2, h3, ?_, h5⟩
    · rw [hs]; exact h1
    · show index a.symbols _ = some s
      rw [hs]; exact h4
  | false =>
    obtain ⟨i, s, h1, h2, h3, h4, h5⟩ := key _ (hr (pg.cursor + 1)).1 (hr (pg.cursor + 1)).2
    refine ⟨_, _, i, s, createParticle_false a pg cv hc, ?_, h2, h3, ?_, h5⟩
    · rw [hs]; exact h1
    · show index a.symbols _ = some s
      rw [hs]; exact h4

theorem createParticle_text_in_catalog_witness :
    animator1.canvas = some { width := 800, height := 600 } ∧ animator1.symbols = symbols ∧
    UnitDraws page0.rnd ∧
    ∃ (p : Particle) (pg1 : Page) (i : ℕ) (s : String),
      createParticle animator1 page0 true = .ok (p, pg1) ∧
      Rat.floor (page0.rnd (page0.cursor + 1 + (if true = true then 1 else 0))
        * animator1.symbols.length) = (i : ℤ) ∧
      i < 24 ∧ symbols[i]? = some s ∧ p.text = some s ∧ s ∈ symbols :=
  ⟨rfl, rfl, unitDraws_page0,
    createParticle_text_in_catalog animator1 page0 { width := 800, height := 600 } true rfl rfl
      unitDraws_page0⟩

/-! ## What `draw` puts on the surface -/

theorem paint_eq (a : Animator) (cv : Canvas) (theme : Option String) (hx : a.ctx = true) :
    paint a cv theme =
      DrawOp.clearRect 0 0 cv.width cv.height ::
        (a.particles.map
          (drawParticle (if theme ≠ some "light" then "255,255,255" else "0,0,0"))).flatten := by
  unfold paint
  rw [if_pos hx]

/-- C22: with a context and a canvas, every fill style `draw()` sets has the
colour `0,0,0` exactly when the `data-theme` attribute is `light` and
`255,255,255` for every other value, a missing attribute included, with the
opacity of a particle as alpha; every particle gets such a fill style, and the
attribute is after the call what it was before. -/
theorem draw_colour (a : Animator) (pg : Page) (cv : Canvas) (hc : a.canvas = some cv)
    (hx : a.ctx = true) :
    ∃ ops : List DrawOp, draw a pg = .ok (pg.emit ops) ∧ (pg.emit ops).theme = pg.theme ∧
      (∀ c o, DrawOp.fillStyle c o ∈ ops →
        (c = "0,0,0" ↔ pg.theme = some "light") ∧
        (c = "255,255,255" ↔ pg.theme ≠ some "light") ∧
        ∃ p ∈ a.particles, o = p.opacity) ∧
      (∀ p ∈ a.particles,
        DrawOp.fillStyle (if pg.theme = some "light" then "0,0,0" else "255,255,255") p.opacity
          ∈ ops) := by
  refine ⟨paint a cv pg.theme, draw_eq a pg cv hc, rfl, ?_, ?_⟩
  · intro c o hmem
    rw [paint_eq a cv pg.theme hx] at hmem
    rcases List.mem_cons.mp hmem with h | h
    · cases h
    · obtain ⟨l, hl, hin⟩ := List.mem_flatten.mp h
      obtain ⟨p, hp, hpl⟩ := List.mem_map.mp hl
      rw [← hpl] at hin
      simp only [drawParticle, List.mem_cons, List.mem_singleton, DrawOp.fillStyle.injEq,
        reduceCtorEq, false_or, or_false, List.not_mem_nil] at hin
      obtain ⟨hcol, hop⟩ := hin
      by_cases ht : pg.theme = some "light"
      · simp only [ht, ne_eq, not_true_eq_false, if_false] at hcol
        refine ⟨?_, ?_, p, hp, hop⟩
        · rw [hcol]; simp [ht]
        · rw [hcol]; simp [ht]
      · simp only [ne_eq, ht, not_false_eq_true, if_true] at hcol
        refine ⟨?_, ?_, p, hp, hop⟩
        · rw [hcol]; simp [ht]
        · rw [hcol]; simp [ht]
  · intro p hp
    rw [paint_eq a cv pg.theme hx]
    apply List.mem_cons_of_mem
    apply List.mem_flatten.mpr
    refine ⟨drawParticle (if pg.theme ≠ some "light" then "255,255,255" else "0,0,0") p,
      List.mem_map.mpr ⟨p, hp, rfl⟩, ?_⟩
    by_cases ht : pg.theme = some "light"
    · simp [drawParticle, ht]
    · simp [drawParticle, ht]

theorem draw_colour_witness :
    animator1.canvas = some { width := 800, height := 600 } ∧ animator1.ctx = true ∧
    ∃ ops : List DrawOp, draw animator1 page0 = .ok (page0.emit ops) ∧
      (page0.emit ops).theme = page0.theme ∧
      (∀ c o, DrawOp.fillStyle c o ∈ ops →
        (c = "0,0,0" ↔ page0.theme = some "light") ∧
        (c = "255,255,255" ↔ page0.theme ≠ some "light") ∧
        ∃ p ∈ animator1.particles, o = p.opacity) ∧
      (∀ p ∈ animator1.particles,
        DrawOp.fillStyle (if page0.theme = some "light" then "0,0,0" else "255,255,255")
          p.opacity ∈ ops) :=
  ⟨rfl, rfl, draw_colour animator1 page0 { width := 800, height := 600 } rfl rfl⟩

theorem fillTexts_drawn (c : String) (ps : List Particle) :
    fillTexts ((ps.map (drawParticle c)).flatten) = ps.map (fun p => p.text) := by
  induction ps with
  | nil => rfl
  | cons q qs ih =>
    simp only [List.map_cons, List.flatten_cons, drawParticle, List.cons_append,
      List.nil_append, fillTexts]
    rw [← ih]
    rfl

/-- C23: with a context and a canvas, `draw()` issues `clearRect` over the
whole canvas and then, for each particle in the order of the collection,
`save`, `translate(x, y)`, `rotate(angle)`, the font of its size, the fill
style with its opacity, `fillText` of its label at the origin and `restore`;
the labels drawn are those of the collection in order, one per particle. -/
theorem draw_order (a : Animator) (pg : Page) (cv : Canvas) (hc : a.canvas = some cv)
    (hx : a.ctx = true) :
    ∃ ops : List DrawOp, draw a pg = .ok (pg.emit ops) ∧
      ops = DrawOp.clearRect 0 0 cv.width cv.height ::
        (a.particles.map (fun p =>
          [DrawOp.save, .translate p.x p.y, .rotate p.angle, .font p.size,
           .fillStyle (if pg.theme ≠ some "light" then "255,255,255" else "0,0,0") p.opacity,
           .fillText p.text 0 0, .restore])).flatten ∧
      fillTexts ops = a.particles.map (fun p => p.text) ∧
      (fillTexts ops).length = a.particles.length := by
  have hops := paint_eq a cv pg.theme hx
  have hft : fillTexts (paint a cv pg.theme) = a.particles.map (fun p => p.text) := by
    rw [hops]
    simp only [fillTexts]
    exact fillTexts_drawn _ _
  refine ⟨paint a cv pg.theme, draw_eq a pg cv hc, ?_, hft, ?_⟩
  · rw [hops]
    rfl
  · rw [hft, List.length_map]

theorem draw_order_witness :
    animator1.canvas = some { width := 800, height := 600 } ∧ animator1.ctx = true ∧
    ∃ ops : List DrawOp, draw animator1 page0 = .ok (page0.emit ops) ∧
      ops = DrawOp.clearRect 0 0 ((800 : ℕ) : ℚ) ((600 : ℕ) : ℚ) ::
        (animator1.particles.map (fun p =>
          [DrawOp.save, .translate p.x p.y, .rotate p.angle, .font p.size,
           .fillStyle (if page0.theme ≠ some "light" then "255,255,255" else "0,0,0")
             p.opacity,
           .fillText p.text 0 0, .restore])).flatten ∧
      fillTexts ops = animator1.particles.map (fun p => p.text) ∧
      (fillTexts ops).length = animator1.particles.length :=
  ⟨rfl, rfl, draw_order animator1 page0 { width := 800, height := 600 } rfl rfl⟩

/-! ## Positions as an invariant -/

theorem animate_fieldInv (a : Animator) (pg : Page) (hr : UnitDraws pg.rnd)
    (hinv : FieldInv a) :
    ∃ (a1 : Animator) (pg1 : Page),
      animate a pg = .ok (a1, pg1) ∧ pg1.rnd = pg.rnd ∧ FieldInv a1 := by
  obtain ⟨a1, pg1, hrun, hrnd, hb1⟩ := animate_inBounds a pg hr hinv.1
  refine ⟨a1, pg1, hrun, hrnd, hb1, ?_⟩
  cases hc : a.canvas with
  | none =>
    rw [animate_none a pg hc] at hrun
    injection hrun with h
    injection h with ha _
    intro cv hcv
    rw [← ha, hc] at hcv
    cases hcv
  | some cv =>
    obtain ⟨a2, pg2, hrun2, hcv2, _, _, _, hlen, _, _, _, _, hslots⟩ := animate_spec a pg cv hc
    rw [hrun2] at hrun
    injection hrun with h
    injection h with ha _
    subst ha
    intro cv1 hcv1
    have hcc : cv1 = cv := by
      rw [hcv2, hc] at hcv1
      exact (Option.some.inj hcv1).symm
    subst hcc
    intro q hq
    obtain ⟨j, hj⟩ := List.mem_iff_getElem?.mp hq
    have hjl : j < a.particles.length := by
      rw [← hlen]; exact (List.getElem?_eq_some.mp hj).1
    have hpj : a.particles[j]? = some a.particles[j] := List.getElem?_eq_getElem hjl
    have hpin := hinv.1 _ (List.getElem_mem hjl)
    obtain ⟨hy0, hy1, hx0, hx1⟩ := hinv.2 cv1 hc _ (List.getElem_mem hjl)
    obtain ⟨hkeep, hnew⟩ := hslots j _ hpj
    have hh : (0 : ℚ) ≤ cv1.height := Nat.cast_nonneg _
    by_cases hy : (advance a.particles[j]).y < -50
    · obtain ⟨k, r, _, hr2, hget⟩ := hnew hy
      have hqr : q = r := by rw [hj] at hget; exact Option.some.inj hget
      rw [hqr]
      rw [createParticle_false a (pg.seek k) cv1 hc] at hr2
      injection hr2 with hr2
      injection hr2 with hr3 _
      subst hr3
      have hk := hr k
      have hw : (0 : ℚ) < cv1.width := lt_of_le_of_lt hx0 hx1
      refine ⟨?_, le_refl _, ?_, ?_⟩
      · show (-50 : ℚ) ≤ cv1.height + 20
        linarith
      · exact mul_nonneg hk.1 hw.le
      · show pg.rnd k * (cv1.width : ℚ) < cv1.width
        nlinarith [hk.2]
    · have hget := hkeep hy
      have hqr : q = advance a.particles[j] := by rw [hj] at hget; exact Option.some.inj hget
      rw [hqr]
      have hsp : (0.1 : ℚ) ≤ (a.particles[j]).speed := hpin.2.2.2.2.1
      refine ⟨not_lt.mp hy, ?_, hx0, hx1⟩
      show (a.particles[j]).y - (a.particles[j]).speed ≤ cv1.height + 20
      norm_num at hsp
      linarith

theorem resizeCanvas_fieldInv (a : Animator) (pg : Page) (hr : UnitDraws pg.rnd)
    (hinv : FieldInv a) :
    ∃ (a1 : Animator) (pg1 : Page),
      resizeCanvas a pg = .ok (a1, pg1) ∧ pg1.rnd = pg.rnd ∧ FieldInv a1 := by
  cases hc : a.canvas with
  | none => exact ⟨a, pg, resizeCanvas_none a pg hc, rfl, hinv⟩
  | some cv =>
    obtain ⟨a1, pg1, hrun, hcv, _, _, _, hlen, hext, _, _, _, hslots⟩ :=
      resizeCanvas_spec a pg cv hc
    refine ⟨a1, pg1, hrun, hext.rnd, ?_, ?_⟩
    · intro q hq
      obtain ⟨j, hj⟩ := List.mem_iff_getElem?.mp hq
      obtain ⟨k, _, hk⟩ := hslots j q hj
      exact inBounds_of_createParticle a1 (pg.seek k) _ true q hr hk
    · intro cv1 hcv1
      have hcc : cv1 = { width := pg.innerWidth, height := pg.innerHeight } := by
        rw [hcv] at hcv1
        exact (Option.some.inj hcv1).symm
      subst hcc
      intro q hq
      obtain ⟨j, hj⟩ := List.mem_iff_getElem?.mp hq
      have hpos : 0 < pg.innerWidth * pg.innerHeight / 26000 := by
        have hjl : j < a1.particles.length := (List.getElem?_eq_some.mp hj).1
        omega
      have hwh : 0 < pg.innerWidth * pg.innerHeight := by
        rcases Nat.eq_zero_or_pos (pg.innerWidth * pg.innerHeight) with h0 | h0
        · rw [h0] at hpos; simp at hpos
        · exact h0
      have hw : (0 : ℚ) < pg.innerWidth := by
        have : 0 < pg.innerWidth := Nat.pos_of_mul_pos_right hwh
        exact_mod_cast this
      have hh : (0 : ℚ) < pg.innerHeight := by
        have : 0 < pg.innerHeight := Nat.pos_of_mul_pos_left hwh
        exact_mod_cast this
      obtain ⟨k, _, hk⟩ := hslots j q hj
      rw [createParticle_true a1 _ { width := pg.innerWidth, height := pg.innerHeight } hcv] at hk
      injection hk with hk
      injection hk with hpe _
      subst hpe
      have h0 := hr k
      have h1 := hr (k + 1)
      refine ⟨?_, ?_, ?_, ?_⟩
      · show (-50 : ℚ) ≤ pg.rnd (k + 1) * (pg.innerHeight : ℚ)
        have := mul_nonneg h1.1 hh.le
        linarith
      · show pg.rnd (k + 1) * (pg.innerHeight : ℚ) ≤ (pg.innerHeight : ℚ) + 20
        nlinarith [h1.2]
      · exact mul_nonneg h0.1 hw.le
      · show pg.rnd k * (pg.innerWidth : ℚ) < pg.innerWidth
        nlinarith [h0.2]

theorem fireResize_fieldInv (n : ℕ) :
    ∀ (a : Animator) (pg : Page), UnitDraws pg.rnd → FieldInv a →
      ∃ (a1 : Animator) (pg1 : Page),
        fireResize a pg n = .ok (a1, pg1) ∧ pg1.rnd = pg.rnd ∧ FieldInv a1 := by
  induction n with
  | zero =>
    intro a pg _ hinv
    exact ⟨a, pg, rfl, rfl, hinv⟩
  | succ n ih =>
    intro a pg hr hinv
    obtain ⟨a1, pg1, h1, hr1, hinv1⟩ := resizeCanvas_fieldInv a pg hr hinv
    obtain ⟨a2, pg2, h2, hr2, hinv2⟩ := ih a1 pg1 (hr1 ▸ hr) hinv1
    refine ⟨a2, pg2, ?_, hr2.trans hr1, hinv2⟩
    simp only [fireResize, h1, h2]

theorem step_fieldInv (a : Animator) (pg : Page) (e : Event) (hr : UnitDraws pg.rnd)
    (hinv : FieldInv a) :
    ∃ (a1 : Animator) (pg1 : Page),
      step a pg e = .ok (a1, pg1) ∧ pg1.rnd = pg.rnd ∧ FieldInv a1 := by
  cases e with
  | frame id =>
    by_cases hid : id ∈ pg.pending
    · obtain ⟨a1, pg1, h1, hr1, hinv1⟩ :=
        animate_fieldInv a { pg with pending := pg.pending.erase id } hr hinv
      exact ⟨a1, pg1, by simp only [step, if_pos hid, h1], hr1, hinv1⟩
    · exact ⟨a, pg, by simp only [step, if_neg hid], rfl, hinv⟩
  | resize w h =>
    exact fireResize_fieldInv pg.resizeListeners a { pg with innerWidth := w, innerHeight := h }
      hr hinv
  | destroy =>
    obtain ⟨pg1, h1, hr1, _⟩ := destroy_eq a pg
    exact ⟨a, pg1, h1, hr1, hinv⟩

theorem run_fieldInv (es : List Event) :
    ∀ (a : Animator) (pg : Page), UnitDraws pg.rnd → FieldInv a →
      ∃ (a1 : Animator) (pg1 : Page), run a pg es = .ok (a1, pg1) ∧ FieldInv a1 := by
  induction es with
  | nil =>
    intro a pg _ hinv
    exact ⟨a, pg, rfl, hinv⟩
  | cons e es ih =>
    intro a pg hr hinv
    obtain ⟨a1, pg1, h1, hr1, hinv1⟩ := step_fieldInv a pg e hr hinv
    obtain ⟨a2, pg2, h2, hinv2⟩ := ih a1 pg1 (hr1 ▸ hr) hinv1
    exact ⟨a2, pg2, by simp only [run, h1, h2], hinv2⟩

theorem fieldInv_nil (a : Animator) (h : a.particles = []) : FieldInv a := by
  refine ⟨?_, ?_⟩
  · intro p hp; rw [h] at hp; cases hp
  · intro cv _ p hp; rw [h] at hp; cases hp

theorem new_fieldInv (found : Option (Canvas × Bool)) (pg : Page) (hr : UnitDraws pg.rnd) :
    ∃ (a1 : Animator) (pg1 : Page),
      new found pg = .ok (a1, pg1) ∧ pg1.rnd = pg.rnd ∧ FieldInv a1 := by
  cases found with
  | none => exact ⟨_, pg, rfl, rfl, fieldInv_nil _ rfl⟩
  | some f =>
    obtain ⟨cv, has2d⟩ := f
    obtain ⟨a1, pg1, h1, hr1, hinv1⟩ :=
      resizeCanvas_fieldInv
        { canvas := some cv, ctx := has2d, symbols := symbols, particles := [],
          animationFrameId := none } pg hr (fieldInv_nil _ rfl)
    obtain ⟨a2, pg2, h2, hr2, hinv2⟩ :=
      animate_fieldInv a1 { pg1 with resizeListeners := pg1.resizeListeners + 1 }
        (hr1 ▸ hr) hinv1
    have hinit := init_eq _ pg cv a1 pg1 rfl h1
    rw [h2] at hinit
    exact ⟨a2, pg2, hinit, hr2.trans hr1, hinv2⟩

/-- C24: with draws in `[0, 1)`, every particle of every state reached from
construction by frame, resize and destroy events satisfies
`-50 ≤ y ≤ canvas.height + 20` and `0 ≤ x < canvas.width` on the current
canvas; `animate()` and `resizeCanvas()` return and keep these bounds (with
the creation bounds), so no particle with `y < -50` is left after a step. -/
theorem positions_invariant (pg : Page) (hr : UnitDraws pg.rnd) :
    (∀ (found : Option (Canvas × Bool)) (es : List Event),
      ∃ (a0 : Animator) (pg0 : Page) (a1 : Animator) (pg1 : Page),
        new found pg = .ok (a0, pg0) ∧ run a0 pg0 es = .ok (a1, pg1) ∧
          ∀ cv, a1.canvas = some cv → ∀ p ∈ a1.particles,
            -50 ≤ p.y ∧ p.y ≤ cv.height + 20 ∧ 0 ≤ p.x ∧ p.x < cv.width) ∧
    (∀ a : Animator, FieldInv a →
      ∃ (a1 : Animator) (pg1 : Page), animate a pg = .ok (a1, pg1) ∧ FieldInv a1) ∧
    (∀ a : Animator, FieldInv a →
      ∃ (a1 : Animator) (pg1 : Page), resizeCanvas a pg = .ok (a1, pg1) ∧ FieldInv a1) := by
  refine ⟨?_, ?_, ?_⟩
  · intro found es
    obtain ⟨a0, pg0, h0, hr0, hinv0⟩ := new_fieldInv found pg hr
    obtain ⟨a1, pg1, h1, hinv1⟩ := run_fieldInv es a0 pg0 (hr0 ▸ hr) hinv0
    exact ⟨a0, pg0, a1, pg1, h0, h1, fun cv hcv p hp => hinv1.2 cv hcv p hp⟩
  · intro a hinv
    obtain ⟨a1, pg1, h1, _, hinv1⟩ := animate_fieldInv a pg hr hinv
    exact ⟨a1, pg1, h1, hinv1⟩
  · intro a hinv
    obtain ⟨a1, pg1, h1, _, hinv1⟩ := resizeCanvas_fieldInv a pg hr hinv
    exact ⟨a1, pg1, h1, hinv1⟩

theorem positions_invariant_witness :
    UnitDraws page0.rnd ∧
    ∃ (a0 : Animator) (pg0 : Page) (a1 : Animator) (pg1 : Page),
      new (some ({ width := 300, height := 150 }, true)) page0 = .ok (a0, pg0) ∧
      run a0 pg0 [.frame 1, .frame 2, .resize 400 300, .frame 3] = .ok (a1, pg1) ∧
        ∀ cv, a1.canvas = some cv → ∀ p ∈ a1.particles,
          -50 ≤ p.y ∧ p.y ≤ cv.height + 20 ∧ 0 ≤ p.x ∧ p.x < cv.width :=
  ⟨unitDraws_page0,
    (positions_invariant page0 unitDraws_page0).1
      (some ({ width := 300, height := 150 }, true))
      [.frame 1, .frame 2, .resize 400 300, .frame 3]⟩

end CanvasAnimation

namespace InputComponent

open CanvasAnimation (JsError)

/-! ## `validate` -/

theorem updateValidationUI_isValid (s : State) :
    (updateValidationUI s).isValid = s.isValid ∧
      (updateValidationUI s).validationMessage = s.validationMessage ∧
      (updateValidationUI s).options = s.options := by
  unfold updateValidationUI
  simp only
  split
  · split
    · exact ⟨rfl, rfl, rfl⟩
    · split <;> exact ⟨rfl, rfl, rfl⟩
  · exact ⟨rfl, rfl, rfl⟩

/-- C25: for every string `value`, `validate(value)` returns `this.isValid` as
it is after the call; the result is `false` with message
`This field is required` when `required` is set and `value.trim()` is empty,
whatever the validator; otherwise `false` with `options.errorMessage` when a
validator is configured and rejects `value`; otherwise `true` with the empty
message; and it is `false` exactly in the first two cases. -/
theorem validate_spec (s : State) (value : String) :
    (validate s (some value)).1 = (validate s (some value)).2.isValid ∧
    (s.options.required = true ∧ Helpers.trim value.toList = [] →
      (validate s (some value)).1 = some false ∧
      (validate s (some value)).2.validationMessage = "This field is required") ∧
    (¬ (s.options.required = true ∧ Helpers.trim value.toList = []) →
      ∀ v, s.options.validator = some v → v value = false →
        (validate s (some value)).1 = some false ∧
        (validate s (some value)).2.validationMessage = s.options.errorMessage) ∧
    (¬ (s.options.required = true ∧ Helpers.trim value.toList = []) →
      (s.options.validator = none ∨ ∃ v, s.options.validator = some v ∧ v value = true) →
        (validate s (some value)).1 = some true ∧
        (validate s (some value)).2.validationMessage = "") ∧
    ((validate s (some value)).1 = some false ↔
      (s.options.required = true ∧ Helpers.trim value.toList = []) ∨
      ∃ v, s.options.validator = some v ∧ v value = false) := by
  have hA : s.options.required = true ∧ Helpers.trim value.toList = [] →
      (validate s (some value)).1 = some false ∧
      (validate s (some value)).2.validationMessage = "This field is required" := by
    intro h
    have hc : (s.options.required && (Helpers.trim value.toList).isEmpty) = true := by
      rw [h.1, h.2]; rfl
    simp only [validate, Option.getD_some, hc, if_true]
    exact ⟨(updateValidationUI_isValid _).1, (updateValidationUI_isValid _).2.1⟩
  have hcond : ¬ (s.options.required = true ∧ Helpers.trim value.toList = []) →
      (s.options.required && (Helpers.trim value.toList).isEmpty) = false := by
    intro h
    cases hr : s.options.required with
    | false => rfl
    | true =>
      cases ht : Helpers.trim value.toList with
      | nil => exact absurd ⟨hr, ht⟩ h
      | cons c cs => rfl
  have hB : ¬ (s.options.required = true ∧ Helpers.trim value.toList = []) →
      ∀ v, s.options.validator = some v → v value = false →
        (validate s (some value)).1 = some false ∧
        (validate s (some value)).2.validationMessage = s.options.errorMessage := by
    intro h v hv hrej
    simp only [validate, Option.getD_some, hcond h, hv, hrej, Bool.not_false, if_true,
      Bool.false_eq_true, if_false]
    exact ⟨(updateValidationUI_isValid _).1, (updateValidationUI_isValid _).2.1⟩
  have hC : ¬ (s.options.required = true ∧ Helpers.trim value.toList = []) →
      (s.options.validator = none ∨ ∃ v, s.options.validator = some v ∧ v value = true) →
        (validate s (some value)).1 = some true ∧
        (validate s (some value)).2.validationMessage = "" := by
    intro h hv
    rcases hv with hv | ⟨v, hv, hacc⟩
    · simp only [validate, Option.getD_some, hcond h, hv, Bool.false_eq_true, if_false]
      exact ⟨(updateValidationUI_isValid _).1, (updateValidationUI_isValid _).2.1⟩
    · simp only [validate, Option.getD_some, hcond h, hv, hacc, Bool.not_true,
        Bool.false_eq_true, if_false]
      exact ⟨(updateValidationUI_isValid _).1, (updateValidationUI_isValid _).2.1⟩
  refine ⟨rfl, hA, hB, hC, ?_⟩
  constructor
  · intro hf
    by_cases h : s.options.required = true ∧ Helpers.trim value.toList = []
    · exact Or.inl h
    · right
      cases hv : s.options.validator with
      | none =>
        rw [(hC h (Or.inl hv)).1] at hf
        cases hf
      | some v =>
        cases hacc : v value with
        | false => exact ⟨v, rfl, hacc⟩
        | true =>
          rw [(hC h (Or.inr ⟨v, hv, hacc⟩)).1] at hf
          cases hf
  · intro h
    by_cases h1 : s.options.required = true ∧ Helpers.trim value.toList = []
    · exact (hA h1).1
    · rcases h with h | ⟨v, hv, hrej⟩
      · exact absurd h h1
      · exact (hB h1 v hv hrej).1

/-! ## `setupLabel` -/

/-- Whatever the tag of the previous element sibling, `setupLabel()` creates
no element and writes the label text into that sibling. -/
theorem setupLabel_reuses_any_sibling (s : State) (before : List Node) (prevSibling : Node)
    (hl : s.options.label ≠ "") (hp : s.parent = some (before ++ [prevSibling])) :
    setupLabel s =
      .ok { s with
            parent := some (before ++ [{ prevSibling with textContent := s.options.label }]) } := by
  unfold setupLabel
  simp only [hl, hp, ne_eq, not_false_eq_true, if_true, Option.bind_eq_bind, Option.some_bind,
    List.getLast?_append_cons, List.getLast?_singleton, boolStrictEqString,
    Bool.false_eq_true, if_false, List.dropLast_concat]

/-- C26: evaluation at the failing input.  For an input that follows a `SPAN`
holding `Hint`, `setupLabel()` with the label `Name` creates no `LABEL`: the
test `!label.tagName === "LABEL"` compares a boolean with a string and is
never true, so the `SPAN` is taken for the label and its text becomes `Name`.
A label is created only when there is no previous element sibling. -/
theorem setupLabel_overwrites_sibling :
    setupLabel inputAfterSpan =
      .ok { inputAfterSpan with
            parent := some [{ tagName := "SPAN", textContent := "Name", htmlFor := none }] } ∧
    setupLabel inputAlone =
      .ok { inputAlone with
            parent := some [{ tagName := "LABEL", textContent := "Name",
                              htmlFor := some "name" }] } :=
  ⟨rfl, rfl⟩

end InputComponent

namespace TypingEffect

open CanvasAnimation (JsError)

/-! ## The typing loop -/

theorem slice0_nonneg (w : List Char) (e : ℤ) (h : 0 ≤ e) : slice0 w e = w.take e.toNat := by
  unfold slice0
  rw [if_neg (not_lt.mpr h)]

/-- One call of `type()` on a present element keeps the invariant, keeps the
words, and shows the prefix of the current word of length `charIndex`. -/
theorem type_inv (s : State) (el : List Char) (he : s.element = some el)
    (hw : ∀ w ∈ s.words, w ≠ []) (hinv : Inv s) :
    ∃ s1 : State, type s = .ok s1 ∧ s1.words = s.words ∧ Inv s1 ∧
      ∃ w, s1.words[s1.wordIndex]? = some w ∧ s1.element = some (w.take s1.charIndex.toNat) := by
  obtain ⟨w, hget, hne, h0, hle, hdel, hnd⟩ := hinv
  have hlen : 0 < w.length := List.length_pos.mpr hne
  have hwi : s.wordIndex < s.words.length := (List.getElem?_eq_some.mp hget).1
  cases hd : s.deleting with
  | false =>
    have hlt := hnd hd
    by_cases hfull : s.charIndex + 1 = (w.length : ℤ)
    · refine ⟨{ s with charIndex := s.charIndex + 1
                       element := some (slice0 w (s.charIndex + 1))
                       deleting := true, delay := some 1800 }, ?_, rfl, ?_, ?_⟩
      · simp only [type, he, hget, hd, Bool.false_eq_true, if_false, Bool.not_false,
          Bool.true_and, decide_eq_true_eq, hfull, if_true]
      · exact ⟨w, hget, hne, by simp only; omega, by simp only; omega,
          fun _ => by simp only; omega, fun h => by cases h⟩
      · exact ⟨w, hget, by simp only; rw [slice0_nonneg w _ (by omega)]⟩
    · refine ⟨{ s with charIndex := s.charIndex + 1
                       element := some (slice0 w (s.charIndex + 1))
                       delay := some 110 }, ?_, rfl, ?_, ?_⟩
      · simp only [type, he, hget, hd, Bool.false_eq_true, if_false, Bool.not_false,
          Bool.true_and, decide_eq_true_eq, hfull, Bool.false_and]
      · refine ⟨w, hget, hne, by simp only; omega, by simp only; omega, ?_, ?_⟩
        · intro h
          simp only at h
          rw [hd] at h
          cases h
        · intro _
          simp only
          omega
      · exact ⟨w, hget, by simp only; rw [slice0_nonneg w _ (by omega)]⟩
  | true =>
    have h1 := hdel hd
    by_cases hzero : s.charIndex - 1 = 0
    · have hmod : (s.wordIndex + 1) % s.words.length < s.words.length :=
        Nat.mod_lt _ (by omega)
      have hget2 : s.words[(s.wordIndex + 1) % s.words.length]? =
          some s.words[(s.wordIndex + 1) % s.words.length] := List.getElem?_eq_getElem hmod
      have hne2 : s.words[(s.wordIndex + 1) % s.words.length] ≠ [] :=
        hw _ (List.getElem_mem hmod)
      have hlen2 : 0 < (s.words[(s.wordIndex + 1) % s.words.length]).length :=
        List.length_pos.mpr hne2
      refine ⟨{ s with charIndex := s.charIndex - 1
                       element := some (slice0 w (s.charIndex - 1))
                       deleting := false
                       wordIndex := (s.wordIndex + 1) % s.words.length
                       delay := some 400 }, ?_, rfl, ?_, ?_⟩
      · simp only [type, he, hget, hd, if_true, Bool.not_true, Bool.false_and,
          Bool.false_eq_true, if_false, Bool.true_and, decide_eq_true_eq, hzero]
      · refine ⟨_, hget2, hne2, by simp only; omega, by simp only; omega, ?_, ?_⟩
        · intro h; cases h
        · intro _
          simp only
          omega
      · refine ⟨_, hget2, ?_⟩
        simp only
        rw [hzero]
        simp [slice0]
    · refine ⟨{ s with charIndex := s.charIndex - 1
                       element := some (slice0 w (s.charIndex - 1))
                       delay := some 60 }, ?_, rfl, ?_, ?_⟩
      · simp only [type, he, hget, hd, if_true, Bool.not_true, Bool.false_and,
          Bool.false_eq_true, if_false, Bool.true_and, decide_eq_true_eq, hzero]
      · refine ⟨w, hget, hne, by simp only; omega, by simp only; omega, ?_, ?_⟩
        · intro _
          simp only
          omega
        · intro h
          simp only at h
          rw [hd] at h
          cases h
      · exact ⟨w, hget, by simp only; rw [slice0_nonneg w _ (by omega)]⟩

theorem typeTimes_inv (n : ℕ) :
    ∀ (s : State) (el : List Char), s.element = some el → (∀ w ∈ s.words, w ≠ []) → Inv s →
      (∃ w, s.words[s.wordIndex]? = some w ∧ s.element = some (w.take s.charIndex.toNat)) →
      ∃ s1 : State, typeTimes s n = .ok s1 ∧ s1.words = s.words ∧ Inv s1 ∧
        ∃ w, s1.words[s1.wordIndex]? = some w ∧
          s1.element = some (w.take s1.charIndex.toNat) := by
  induction n with
  | zero =>
    intro s el _ _ hinv htxt
    exact ⟨s, rfl, rfl, hinv, htxt⟩
  | succ n ih =>
    intro s el he hw hinv _
    obtain ⟨s1, h1, hws, hinv1, w1, hg1, ht1⟩ := type_inv s el he hw hinv
    obtain ⟨s2, h2, hws2, hinv2, htxt2⟩ :=
      ih s1 _ ht1 (by rw [hws]; exact hw) hinv1 ⟨w1, hg1, ht1⟩
    exact ⟨s2, by simp only [typeTimes, h1, h2], hws2.trans hws, hinv2, htxt2⟩

theorem typeTimes_absent (n : ℕ) :
    ∀ s : State, s.element = none → typeTimes s n = .ok s := by
  induction n with
  | zero => intro s _; rfl
  | succ n ih =>
    intro s he
    have h1 : type s = .ok s := by simp only [type, he]
    simp only [typeTimes, h1, ih s he]

/-- C27: for a non-empty list of non-empty words and an element in the
document, the constructor and every number of further `type()` calls return,
and in the state reached `wordIndex < words.length`,
`0 ≤ charIndex ≤ words[wordIndex].length`, and the element shows the first
`charIndex` characters of `words[wordIndex]`; without the element the state
stays as the constructor set it, with both indices 0. -/
theorem typing_invariant (words : List (List Char)) (el : List Char) (n : ℕ)
    (hne : words ≠ []) (hw : ∀ w ∈ words, w ≠ []) :
    (∃ (s : State) (w : List Char),
      reach words (some el) n = .ok s ∧ s.words = words ∧
      s.wordIndex < s.words.length ∧ s.words[s.wordIndex]? = some w ∧
      0 ≤ s.charIndex ∧ s.charIndex ≤ w.length ∧
      s.element = some (w.take s.charIndex.toNat)) ∧
    (reach words none n = .ok (initial words none) ∧
      (initial words none).wordIndex < (initial words none).words.length ∧
      (initial words none).charIndex = 0) := by
  refine ⟨?_, ?_⟩
  swap
  · have hlen : 0 < words.length := List.length_pos.mpr hne
    have hwords : (if words.length > 0 then words else defaultWords) = words := if_pos hlen
    have hinit : (initial words none).words = words := hwords
    refine ⟨?_, ?_, rfl⟩
    · have h1 : type (initial words none) = .ok (initial words none) := by
        simp only [type, initial]
      unfold reach new
      rw [h1]
      exact typeTimes_absent n _ rfl
    · rw [hinit]
      exact hlen
  have hlen : 0 < words.length := List.length_pos.mpr hne
  have hget : words[0]? = some words[0] := List.getElem?_eq_getElem hlen
  have hne0 : words[0] ≠ [] := hw _ (List.getElem_mem hlen)
  have hl0 : 0 < (words[0]).length := List.length_pos.mpr hne0
  have hwords : (if words.length > 0 then words else defaultWords) = words := if_pos hlen
  have hinit : (initial words (some el)).words = words := hwords
  have hinv0 : Inv (initial words (some el)) := by
    refine ⟨words[0], ?_, hne0, le_refl _, ?_, ?_, ?_⟩
    · rw [hinit]; exact hget
    · show (0 : ℤ) ≤ (words[0]).length
      omega
    · intro h; cases h
    · intro _
      show (0 : ℤ) < (words[0]).length
      omega
  obtain ⟨s1, h1, hws1, hinv1, w1, hg1, ht1⟩ :=
    type_inv (initial words (some el)) el rfl (by rw [hinit]; exact hw) hinv0
  rw [hinit] at hws1
  obtain ⟨s2, h2, hws2, hinv2, w2, hg2, ht2⟩ :=
    typeTimes_inv n s1 _ ht1 (by rw [hws1]; exact hw) hinv1 ⟨w1, hg1, ht1⟩
  obtain ⟨w, hgw, _, h0, hle, _, _⟩ := hinv2
  have hww : w2 = w := by
    rw [hgw] at hg2
    exact (Option.some.inj hg2).symm
  subst hww
  refine ⟨s2, w2, ?_, hws2.trans hws1, (List.getElem?_eq_some.mp hgw).1, hgw, h0, hle, ht2⟩
  unfold reach new
  rw [h1]
  exact h2

theorem typing_invariant_witness :
    ["ab".toList, "c".toList] ≠ [] ∧ (∀ w ∈ ["ab".toList, "c".toList], w ≠ []) ∧
    ∃ (s : State) (w : List Char),
      reach ["ab".toList, "c".toList] (some []) 5 = .ok s ∧
      s.words = ["ab".toList, "c".toList] ∧
      s.wordIndex < s.words.length ∧ s.words[s.wordIndex]? = some w ∧
      0 ≤ s.charIndex ∧ s.charIndex ≤ w.length ∧
      s.element = some (w.take s.charIndex.toNat) :=
  ⟨by simp, by simp,
    (typing_invariant ["ab".toList, "c".toList] [] 5 (by simp) (by simp)).1⟩

end TypingEffect

namespace ProjectCarousel

open CanvasAnimation (JsError)

/-! ## The current card -/

theorem goTo_eq (s : State) (t : Track) (index : ℤ) (ht : s.track = some t)
    (htot : 1 ≤ s.total) :
    ∃ step : ℤ,
      goTo s index =
        .ok (updateUI { s with
          current := max 0 (min index ((s.total : ℤ) - 1))
          track := some { t with
            scrollLeft := some (max 0 (min index ((s.total : ℤ) - 1)) * step) } }) := by
  have hne : s.total ≠ 0 := by omega
  refine ⟨t.cardWidth + (match t.gap with
    | none => 32
    | some g => if g = 0 then 32 else g), ?_⟩
  simp only [goTo, getStep, ht, hne, if_false]

theorem goTo_bounds (s : State) (t : Track) (index : ℤ) (ht : s.track = some t)
    (htot : 1 ≤ s.total) :
    ∃ (s1 : State) (t1 : Track), goTo s index = .ok s1 ∧ s1.track = some t1 ∧
      s1.total = s.total ∧ s1.current = max 0 (min index ((s.total : ℤ) - 1)) ∧
      0 ≤ s1.current ∧ s1.current ≤ (s1.total : ℤ) - 1 ∧
      s1.prevBtn = s.prevBtn.map (fun _ => decide (s1.current = 0)) ∧
      s1.nextBtn = s.nextBtn.map (fun _ => decide (s1.current = (s1.total : ℤ) - 1)) := by
  obtain ⟨step, hstep⟩ := goTo_eq s t index ht htot
  refine ⟨_, _, hstep, rfl, rfl, rfl, ?_, ?_, rfl, rfl⟩
  · exact le_max_left _ _
  · show max 0 (min index ((s.total : ℤ) - 1)) ≤ (s.total : ℤ) - 1
    apply max_le
    · omega
    · exact min_le_right _ _

theorem call_bounds (s : State) (t : Track) (c : Call) (ht : s.track = some t)
    (htot : 1 ≤ s.total) (h0 : 0 ≤ s.current) (h1 : s.current ≤ (s.total : ℤ) - 1) :
    ∃ (s1 : State) (t1 : Track), call s c = .ok s1 ∧ s1.track = some t1 ∧
      s1.total = s.total ∧ 0 ≤ s1.current ∧ s1.current ≤ (s1.total : ℤ) - 1 := by
  cases c with
  | goTo i =>
    obtain ⟨s1, t1, hg, ht1, htot1, _, hb0, hb1, _⟩ := goTo_bounds s t i ht htot
    exact ⟨s1, t1, hg, ht1, htot1, hb0, hb1⟩
  | next =>
    by_cases hlt : s.current < (s.total : ℤ) - 1
    · obtain ⟨s1, t1, hg, ht1, htot1, _, hb0, hb1, _⟩ :=
        goTo_bounds s t (s.current + 1) ht htot
      exact ⟨s1, t1, by simp only [call, next, if_pos hlt, hg], ht1, htot1, hb0, hb1⟩
    · exact ⟨s, t, by simp only [call, next, if_neg hlt], ht, rfl, h0, h1⟩
  | prev =>
    by_cases hgt : s.current > 0
    · obtain ⟨s1, t1, hg, ht1, htot1, _, hb0, hb1, _⟩ :=
        goTo_bounds s t (s.current - 1) ht htot
      exact ⟨s1, t1, by simp only [call, prev, if_pos hgt, hg], ht1, htot1, hb0, hb1⟩
    · exact ⟨s, t, by simp only [call, prev, if_neg hgt], ht, rfl, h0, h1⟩

theorem calls_bounds (cs : List Call) :
    ∀ (s : State) (t : Track), s.track = some t → 1 ≤ s.total → 0 ≤ s.current →
      s.current ≤ (s.total : ℤ) - 1 →
      ∃ s1 : State, calls s cs = .ok s1 ∧ s1.total = s.total ∧
        0 ≤ s1.current ∧ s1.current ≤ (s1.total : ℤ) - 1 := by
  induction cs with
  | nil => intro s t _ _ h0 h1; exact ⟨s, rfl, rfl, h0, h1⟩
  | cons c cs ih =>
    intro s t ht htot h0 h1
    obtain ⟨s1, t1, hc, ht1, htot1, hb0, hb1⟩ := call_bounds s t c ht htot h0 h1
    obtain ⟨s2, hcs, htot2, hc0, hc1⟩ := ih s1 t1 ht1 (by omega) hb0 hb1
    exact ⟨s2, by simp only [calls, hc, hcs], htot2.trans htot1, hc0, hc1⟩

/-- C28: on a carousel with a track and `total ≥ 1`, `goTo(index)` returns for
every integer `index` with `current = max(0, min(index, total - 1))`, which is
`index` clamped into `[0, total - 1]`; every sequence of `goTo`, `next` and
`prev` calls from a state with `0 ≤ current ≤ total - 1` returns in such a
state; `next()` at the last card and `prev()` at the first change nothing;
and after `updateUI()` (which `goTo` runs) an existing previous button is
disabled exactly when `current = 0`, an existing next button exactly when
`current = total - 1`. -/
theorem carousel_bounds (s : State) (t : Track) (ht : s.track = some t) (htot : 1 ≤ s.total) :
    (∀ index : ℤ, ∃ s1 : State, goTo s index = .ok s1 ∧
      s1.current = max 0 (min index ((s.total : ℤ) - 1)) ∧
      (index < 0 → s1.current = 0) ∧
      (0 ≤ index → index ≤ (s.total : ℤ) - 1 → s1.current = index) ∧
      ((s.total : ℤ) - 1 < index → s1.current = (s.total : ℤ) - 1) ∧
      (∀ d, s1.prevBtn = some d → (d = true ↔ s1.current = 0)) ∧
      (∀ d, s1.nextBtn = some d → (d = true ↔ s1.current = (s1.total : ℤ) - 1))) ∧
    (0 ≤ s.current → s.current ≤ (s.total : ℤ) - 1 →
      ∀ cs : List Call, ∃ s1 : State, calls s cs = .ok s1 ∧ s1.total = s.total ∧
        0 ≤ s1.current ∧ s1.current ≤ (s1.total : ℤ) - 1) ∧
    (s.current = (s.total : ℤ) - 1 → next s = .ok s) ∧
    (s.current = 0 → prev s = .ok s) ∧
    (∀ d, (updateUI s).prevBtn = some d → (d = true ↔ s.current = 0)) ∧
    (∀ d, (updateUI s).nextBtn = some d → (d = true ↔ s.current = (s.total : ℤ) - 1)) := by
  have hbtn : ∀ (b : Option Bool) (P : Prop) [Decidable P] (d : Bool),
      b.map (fun _ => decide P) = some d → (d = true ↔ P) := by
    intro b P _ d h
    cases b with
    | none => cases h
    | some x =>
      simp only [Option.map_some', Option.some.injEq] at h
      rw [← h]
      exact decide_eq_true_iff
  refine ⟨?_, ?_, ?_, ?_, ?_, ?_⟩
  · intro index
    obtain ⟨s1, t1, hg, _, htot1, hcur, _, _, hp, hn⟩ := goTo_bounds s t index ht htot
    refine ⟨s1, hg, hcur, ?_, ?_, ?_, ?_, ?_⟩
    · intro h
      rw [hcur]
      have hm : min index ((s.total : ℤ) - 1) ≤ 0 := le_trans (min_le_left _ _) (le_of_lt h)
      exact max_eq_left hm
    · intro h0 h1
      rw [hcur, min_eq_left h1, max_eq_right h0]
    · intro h
      rw [hcur, min_eq_right (le_of_lt h)]
      apply max_eq_right
      omega
    · intro d hd
      rw [hp] at hd
      exact hbtn _ _ d hd
    · intro d hd
      rw [hn] at hd
      exact hbtn _ _ d hd
  · intro h0 h1 cs
    exact calls_bounds cs s t ht htot h0 h1
  · intro h
    have hlt : ¬ s.current < (s.total : ℤ) - 1 := by omega
    simp only [next, if_neg hlt]
  · intro h
    have hgt : ¬ s.current > 0 := by omega
    simp only [prev, if_neg hgt]
  · intro d hd
    exact hbtn s.prevBtn _ d hd
  · intro d hd
    exact hbtn s.nextBtn _ d hd

theorem carousel_bounds_witness :
    carousel3.track = some track3 ∧ 1 ≤ carousel3.total ∧
    ∃ s1 : State, goTo carousel3 7 = .ok s1 ∧
      s1.current = max 0 (min 7 ((carousel3.total : ℤ) - 1)) ∧
      ((7 : ℤ) < 0 → s1.current = 0) ∧
      ((0 : ℤ) ≤ 7 → (7 : ℤ) ≤ (carousel3.total : ℤ) - 1 → s1.current = 7) ∧
      ((carousel3.total : ℤ) - 1 < 7 → s1.current = (carousel3.total : ℤ) - 1) ∧
      (∀ d, s1.prevBtn = some d → (d = true ↔ s1.current = 0)) ∧
      (∀ d, s1.nextBtn = some d → (d = true ↔ s1.current = (s1.total : ℤ) - 1)) :=
  ⟨rfl, by decide, (carousel_bounds carousel3 track3 rfl (by decide)).1 7⟩

end ProjectCarousel
